import Mathlib

/-!
# Verification of the redscript code-generation core

This file gives a shallow embedding of the bytecode assembler
(`src/compiler/src/assembler.rs`) and of the diagnostic severity logic
(`src/compiler/src/diagnostics.rs`), and proves the stated properties of
the emitter, the label resolver, the call encoder and the diagnostics.

Modelling conventions:

* The constant pool, the scope, the source map and the typechecker are
  external collaborators (they are not part of the code-generation core);
  they are modelled as an oracle record `Env` of pure lookup functions,
  following the interface description of the spec (§6).  Pool interning
  (`strings.add` and friends) is modelled as a pure function, which is
  faithful because interned indices are stable for the lifetime of a
  compilation (spec §5).
* Machine integers are modelled as `Nat`/`Int`; the one place where width
  matters (the `u16` invoke-flags shift) models the checked shift
  explicitly.  Float payloads are carried as opaque bit patterns and are
  never computed with.
* Rust `panic!` and arithmetic-overflow aborts are modelled as a
  distinguished error `Err.Crash`; fallible code returns `Except`.
* The recursion of `Assembler::assemble` is made structural with an
  explicit fuel parameter; running out of fuel is the distinguished error
  `Err.Fuel`, and every theorem quantifies over the fuel.
-/

set_option maxHeartbeats 1000000
set_option linter.unusedVariables false

namespace Redscript

/-- Source span, carried for error attribution; its structure is opaque to
the assembler, so it is modelled as a bare number. -/
abbrev Span := Nat

/-- Modelled from the spec: `Span::ZERO`, the span attached to the invalid
signature error. -/
def Span.ZERO : Span := 0

/-- Modelled from the spec (§3 *Instruction (labeled form)* and §4): the
instruction set lives in the external bytecode module; the constructors
here are exactly the opcodes the assembler emits, parameterized by the
label/offset type `A` as in `Instr<Label>` / `Instr<Offset>`. -/
inductive Instr (A : Type) where
  | Nop
  | Null
  | This
  | Assign
  | StringConst (idx : Nat)
  | NameConst (idx : Nat)
  | ResourceConst (idx : Nat)
  | TweakDbIdConst (idx : Nat)
  | F32Const (bits : Nat)
  | F64Const (bits : Nat)
  | I8Const (v : Int)
  | I16Const (v : Int)
  | I32Const (v : Int)
  | I64Const (v : Int)
  | U8Const (v : Nat)
  | U16Const (v : Nat)
  | U32Const (v : Nat)
  | U64Const (v : Nat)
  | I32Zero
  | TrueConst
  | FalseConst
  | EnumConst (enum : Nat) (member : Nat)
  | WeakRefNull
  | DynamicCast (cls : Nat) (flag : Nat)
  | Local (idx : Nat)
  | Param (idx : Nat)
  | ObjectField (idx : Nat)
  | StructField (idx : Nat)
  | New (cls : Nat)
  | Construct (argCount : Nat) (str : Nat)
  | Return
  | ArrayElement (ty : Nat)
  | StaticArrayElement (ty : Nat)
  | Target (label : A)
  | Switch (ty : Nat) (firstCase : A)
  | SwitchLabel (nextCase : A) (body : A)
  | SwitchDefault
  | Jump (l : A)
  | JumpIfFalse (l : A)
  | Conditional (falseBranch : A) (exitBranch : A)
  | Context (l : A)
  | Skip (l : A)
  | InvokeStatic (l : A) (line : Nat) (fn : Nat) (flags : Nat)
  | InvokeVirtual (l : A) (line : Nat) (name : Nat) (flags : Nat)
  | ParamEnd
  | Equals (ty : Nat)
  | NotEquals (ty : Nat)
  | ArrayClear (ty : Nat)
  | ArraySize (ty : Nat)
  | StaticArraySize (ty : Nat)
  | ArrayResize (ty : Nat)
  | ArrayFindFirst (ty : Nat)
  | StaticArrayFindFirst (ty : Nat)
  | ArrayFindLast (ty : Nat)
  | StaticArrayFindLast (ty : Nat)
  | ArrayContains (ty : Nat)
  | StaticArrayContains (ty : Nat)
  | ArrayCount (ty : Nat)
  | StaticArrayCount (ty : Nat)
  | ArrayPush (ty : Nat)
  | ArrayPop (ty : Nat)
  | ArrayInsert (ty : Nat)
  | ArrayRemove (ty : Nat)
  | ArrayGrow (ty : Nat)
  | ArrayErase (ty : Nat)
  | ArrayLast (ty : Nat)
  | ArraySort (ty : Nat)
  | ArraySortByPredicate (ty : Nat)
  | ToString (ty : Nat)
  | VariantToString
  | EnumToI32 (ty : Nat) (size : Nat)
  | I32ToEnum (ty : Nat) (size : Nat)
  | ToVariant (ty : Nat)
  | FromVariant (ty : Nat)
  | VariantIsRef
  | VariantIsArray
  | VariantTypeName
  | VariantIsDefined
  | AsRef (ty : Nat)
  | Deref (ty : Nat)
  | RefToWeakRef
  | WeakRefToRef
  | RefToBool
  | WeakRefToBool
  deriving Repr

/-- Labels occurring as branch operands of an instruction (the `Target`
pseudo-instruction is a location marker, not a branch, so its label is not
listed). -/
def Instr.branchLabels {A : Type} : Instr A → List A
  | .Switch _ l => [l]
  | .SwitchLabel a b => [a, b]
  | .Jump l => [l]
  | .JumpIfFalse l => [l]
  | .Conditional a b => [a, b]
  | .Context l => [l]
  | .Skip l => [l]
  | .InvokeStatic l _ _ _ => [l]
  | .InvokeVirtual l _ _ _ => [l]
  | _ => []

/-- Does the instruction have the `Target` pseudo-instruction shape? -/
def Instr.isTarget {A : Type} : Instr A → Bool
  | .Target _ => true
  | _ => false

/-- Map over the label operands of an instruction, as `resolve_labels`
does when turning an `Instr<Label>` into an `Instr<Offset>`. -/
def Instr.map {A B : Type} (f : A → B) : Instr A → Instr B
  | .Nop => .Nop
  | .Null => .Null
  | .This => .This
  | .Assign => .Assign
  | .StringConst i => .StringConst i
  | .NameConst i => .NameConst i
  | .ResourceConst i => .ResourceConst i
  | .TweakDbIdConst i => .TweakDbIdConst i
  | .F32Const v => .F32Const v
  | .F64Const v => .F64Const v
  | .I8Const v => .I8Const v
  | .I16Const v => .I16Const v
  | .I32Const v => .I32Const v
  | .I64Const v => .I64Const v
  | .U8Const v => .U8Const v
  | .U16Const v => .U16Const v
  | .U32Const v => .U32Const v
  | .U64Const v => .U64Const v
  | .I32Zero => .I32Zero
  | .TrueConst => .TrueConst
  | .FalseConst => .FalseConst
  | .EnumConst e m => .EnumConst e m
  | .WeakRefNull => .WeakRefNull
  | .DynamicCast c fl => .DynamicCast c fl
  | .Local i => .Local i
  | .Param i => .Param i
  | .ObjectField i => .ObjectField i
  | .StructField i => .StructField i
  | .New c => .New c
  | .Construct n s => .Construct n s
  | .Return => .Return
  | .ArrayElement t => .ArrayElement t
  | .StaticArrayElement t => .StaticArrayElement t
  | .Target l => .Target (f l)
  | .Switch t l => .Switch t (f l)
  | .SwitchLabel a b => .SwitchLabel (f a) (f b)
  | .SwitchDefault => .SwitchDefault
  | .Jump l => .Jump (f l)
  | .JumpIfFalse l => .JumpIfFalse (f l)
  | .Conditional a b => .Conditional (f a) (f b)
  | .Context l => .Context (f l)
  | .Skip l => .Skip (f l)
  | .InvokeStatic l a b c => .InvokeStatic (f l) a b c
  | .InvokeVirtual l a b c => .InvokeVirtual (f l) a b c
  | .ParamEnd => .ParamEnd
  | .Equals t => .Equals t
  | .NotEquals t => .NotEquals t
  | .ArrayClear t => .ArrayClear t
  | .ArraySize t => .ArraySize t
  | .StaticArraySize t => .StaticArraySize t
  | .ArrayResize t => .ArrayResize t
  | .ArrayFindFirst t => .ArrayFindFirst t
  | .StaticArrayFindFirst t => .StaticArrayFindFirst t
  | .ArrayFindLast t => .ArrayFindLast t
  | .StaticArrayFindLast t => .StaticArrayFindLast t
  | .ArrayContains t => .ArrayContains t
  | .StaticArrayContains t => .StaticArrayContains t
  | .ArrayCount t => .ArrayCount t
  | .StaticArrayCount t => .StaticArrayCount t
  | .ArrayPush t => .ArrayPush t
  | .ArrayPop t => .ArrayPop t
  | .ArrayInsert t => .ArrayInsert t
  | .ArrayRemove t => .ArrayRemove t
  | .ArrayGrow t => .ArrayGrow t
  | .ArrayErase t => .ArrayErase t
  | .ArrayLast t => .ArrayLast t
  | .ArraySort t => .ArraySort t
  | .ArraySortByPredicate t => .ArraySortByPredicate t
  | .ToString t => .ToString t
  | .VariantToString => .VariantToString
  | .EnumToI32 t s => .EnumToI32 t s
  | .I32ToEnum t s => .I32ToEnum t s
  | .ToVariant t => .ToVariant t
  | .FromVariant t => .FromVariant t
  | .VariantIsRef => .VariantIsRef
  | .VariantIsArray => .VariantIsArray
  | .VariantTypeName => .VariantTypeName
  | .VariantIsDefined => .VariantIsDefined
  | .AsRef t => .AsRef t
  | .Deref t => .Deref t
  | .RefToWeakRef => .RefToWeakRef
  | .WeakRefToRef => .WeakRefToRef
  | .RefToBool => .RefToBool
  | .WeakRefToBool => .WeakRefToBool

/-- Modelled from the spec (§3 *Type Identity*): the `TypeId` enumeration
of `scope.rs`, an external collaborator of the assembler. -/
inductive TypeId where
  | Prim (idx : Nat)
  | Class (idx : Nat)
  | Struct (idx : Nat)
  | Enum (idx : Nat)
  | Ref (inner : TypeId)
  | WeakRef (inner : TypeId)
  | Array (elem : TypeId)
  | StaticArray (elem : TypeId) (size : Nat)
  | ScriptRef (inner : TypeId)
  | Variant
  | Null
  deriving DecidableEq, Repr

/-- Modelled from the spec (§3 *Reference*): a symbol reference; the
assembler only distinguishes class and struct symbols (as static-call
receivers) from everything else. -/
inductive Symbol where
  | Class (idx : Nat)
  | Struct (idx : Nat)
  | Other
  deriving DecidableEq, Repr

/-- Modelled from the spec (§3 *Reference*): a value reference, a local or
parameter slot. -/
inductive Value where
  | Local (idx : Nat)
  | Parameter (idx : Nat)
  deriving DecidableEq, Repr

/-- Modelled from the spec (§3 *Reference*). -/
inductive Reference where
  | Value (v : Value)
  | Symbol (s : Symbol)
  deriving DecidableEq, Repr

/-- Resolved member of a `Member` expression, from `typechecker.rs` (an
external collaborator), as matched in `Assembler::assemble`. -/
inductive Member where
  | ClassField (idx : Nat)
  | StructField (idx : Nat)
  | EnumMember (enum : Nat) (member : Nat)
  deriving DecidableEq, Repr

/-- String-like literal kinds of the AST (`redscript::ast::Literal`). -/
inductive Literal where
  | Str
  | Name
  | Resource
  | TweakDbId
  deriving DecidableEq, Repr

/-- Literal constants of the AST (`redscript::ast::Constant`); float
payloads are opaque bit patterns. -/
inductive Constant where
  | String (kind : Literal) (text : String)
  | F32 (bits : Nat)
  | F64 (bits : Nat)
  | I32 (v : Int)
  | I64 (v : Int)
  | U32 (v : Nat)
  | U64 (v : Nat)
  | Bool (b : Bool)
  deriving DecidableEq, Repr

/-- Intrinsic operations (`redscript::ast::Intrinsic`), exactly the ones
`assemble_intrinsic` matches on. -/
inductive Intrinsic where
  | Equals
  | NotEquals
  | ArrayClear
  | ArraySize
  | ArrayResize
  | ArrayFindFirst
  | ArrayFindLast
  | ArrayContains
  | ArrayCount
  | ArrayPush
  | ArrayPop
  | ArrayInsert
  | ArrayRemove
  | ArrayGrow
  | ArrayErase
  | ArrayLast
  | ArraySort
  | ArraySortByPredicate
  | ToString
  | EnumInt
  | IntEnum
  | ToVariant
  | FromVariant
  | VariantIsRef
  | VariantIsArray
  | VariantTypeName
  | AsRef
  | Deref
  | RefToWeakRef
  | WeakRefToRef
  | IsDefined
  | NameOf
  deriving DecidableEq, Repr

/-- Callable of a `Call` expression: a function-pool index or an intrinsic
with its return type (`typechecker.rs`). -/
inductive Callable where
  | Function (idx : Nat)
  | Intrinsic (op : Intrinsic) (ret : TypeId)
  deriving DecidableEq, Repr

/-- Typed AST expression, the variants matched by `Assembler::assemble`.
A switch case is a pair of matcher expression and body sequence; `Seq` is
a plain expression list.  The non-emittable shapes (`ArrayLit` through
`Goto`) carry only their span because the assembler reads nothing else
from them before erroring. -/
inductive Expr where
  | Ident (r : Reference) (span : Span)
  | Constant (c : Constant) (span : Span)
  | Cast (target : TypeId) (inner : Expr) (span : Span)
  | Declare (slot : Nat) (typ : Option TypeId) (init : Option Expr) (span : Span)
  | Assign (lhs : Expr) (rhs : Expr) (span : Span)
  | ArrayElem (arr : Expr) (idx : Expr) (span : Span)
  | New (typ : TypeId) (args : List Expr) (span : Span)
  | Return (val : Option Expr) (span : Span)
  | Seq (exprs : List Expr)
  | Switch (scrutinee : Expr) (cases : List (Expr × List Expr))
      (default : Option (List Expr)) (span : Span)
  | If (cond : Expr) (thenSeq : List Expr) (elseSeq : Option (List Expr)) (span : Span)
  | Conditional (cond : Expr) (thenE : Expr) (elseE : Expr) (span : Span)
  | While (cond : Expr) (body : List Expr) (span : Span)
  | Member (receiver : Expr) (member : Member) (span : Span)
  | Call (callable : Callable) (args : List Expr) (span : Span)
  | MethodCall (receiver : Expr) (fn : Nat) (args : List Expr) (span : Span)
  | Null (span : Span)
  | This (span : Span)
  | Super (span : Span)
  | Break (span : Span)
  | ArrayLit (span : Span)
  | InterpolatedString (span : Span)
  | ForIn (span : Span)
  | BinOp (span : Span)
  | UnOp (span : Span)
  | Goto (span : Span)

/-- Function flags read from the pool (`definition.rs`, external); only
the three flags the call encoder inspects are modelled. -/
structure FnFlags where
  isFinal : Bool
  isStatic : Bool
  isNative : Bool
  deriving DecidableEq, Repr

/-- Function definition read from the pool: flags plus parameter indices. -/
structure Fn where
  flags : FnFlags
  parameters : List Nat
  deriving DecidableEq, Repr

/-- Parameter flags read from the pool; only the short-circuit flag is
inspected by the call encoder. -/
structure ParamFlags where
  isShortCircuit : Bool
  deriving DecidableEq, Repr

/-- Modelled from the spec (§6 *External interfaces*): the oracle for the
constant pool, scope, typechecker and source map, which are external to
the code-generation core.  `lookupLine` already composes the source-map
lookup with the `try_into` narrowing of the line number. -/
structure Env where
  typeOf : Expr → Option TypeId
  getTypeIndex : TypeId → Option Nat
  pretty : TypeId → Option String
  stringsAdd : String → Nat
  namesAdd : String → Nat
  resourcesAdd : String → Nat
  tweakDbIdsAdd : String → Nat
  defName : Nat → Option String
  enumMembers : Nat → Option (List Nat)
  function : Nat → Option Fn
  parameter : Nat → Option ParamFlags
  definitionName : Nat → Option Nat
  lookupLine : Span → Option Nat
  isEmptyExpr : Expr → Bool
  isPrvalue : Expr → Bool
  poolTypeIsStaticArray : Nat → Option Bool

/-- Error causes raised by the emitter (`error.rs::Cause`, restricted to
the causes reachable from the assembler); pool lookup failures inside
`emit_initializer` surface as `PoolErr`. -/
inductive Cause where
  | UnexpectedToken (tok : String)
  | UnsupportedOperation (op : String) (ty : String)
  | UnsupportedFeature (name : String)
  | PoolErr
  deriving DecidableEq, Repr

/-- Errors of an assembly run: a spanned compile error, a lookup failure
propagated from an external collaborator, a Rust panic, or exhaustion of
the explicit recursion fuel. -/
inductive Err where
  | Compile (c : Cause) (span : Span)
  | Lookup
  | Crash (msg : String)
  | Fuel
  deriving DecidableEq, Repr

/-- Assembler state: the growable labeled instruction buffer and the label
counter (`Assembler { instructions, labels }`). -/
structure Asm where
  instructions : List (Instr Nat)
  labels : Nat
  deriving Repr

/-- Push one instruction (`Assembler::emit`). -/
def Asm.emit (st : Asm) (i : Instr Nat) : Asm :=
  { st with instructions := st.instructions ++ [i] }

/-- Push a `Target` pseudo-instruction (`Assembler::emit_label`). -/
def Asm.emitLabel (st : Asm) (label : Nat) : Asm :=
  st.emit (.Target label)

/-- Mint a fresh label (`Assembler::new_label`). -/
def Asm.newLabel (st : Asm) : Asm × Nat :=
  ({ st with labels := st.labels + 1 }, st.labels)

/-- Modelled from the spec (§4.1.a): the primitive type names of
`TypeName` compared against by `get_initializer`; the exact spellings are
irrelevant, only their identities matter. -/
def TypeName.BOOL : String := "Bool"

/-- Modelled from the spec: primitive type name. -/
def TypeName.INT8 : String := "Int8"

/-- Modelled from the spec: primitive type name. -/
def TypeName.INT16 : String := "Int16"

/-- Modelled from the spec: primitive type name. -/
def TypeName.INT32 : String := "Int32"

/-- Modelled from the spec: primitive type name. -/
def TypeName.INT64 : String := "Int64"

/-- Modelled from the spec: primitive type name. -/
def TypeName.UINT8 : String := "Uint8"

/-- Modelled from the spec: primitive type name. -/
def TypeName.UINT16 : String := "Uint16"

/-- Modelled from the spec: primitive type name. -/
def TypeName.UINT32 : String := "Uint32"

/-- Modelled from the spec: primitive type name. -/
def TypeName.UINT64 : String := "Uint64"

/-- Modelled from the spec: primitive type name. -/
def TypeName.FLOAT : String := "Float"

/-- Modelled from the spec: primitive type name. -/
def TypeName.DOUBLE : String := "Double"

/-- Modelled from the spec: primitive type name. -/
def TypeName.STRING : String := "String"

/-- Modelled from the spec: primitive type name. -/
def TypeName.CNAME : String := "CName"

/-- Modelled from the spec: primitive type name. -/
def TypeName.TWEAKDB_ID : String := "TweakDBID"

/-- Modelled from the spec: primitive type name. -/
def TypeName.RESOURCE : String := "ResRef"

/-- Modelled from the spec (§4.1.a): `PoolIndex::UNDEFINED`, the pool's
undefined index used for default name/resource/tweakdb constants. -/
def UNDEFINED : Nat := 0

/-- Embeds `Assembler::is_rvalue_ref` (assembler.rs lines 441-453):
`Some(b)` when the argument's type is `ScriptRef`, `None` otherwise or
when the type cannot be computed. -/
def is_rvalue_ref (env : Env) (arg : Expr) : Option Bool :=
  match env.typeOf arg with
  | some (.ScriptRef _) =>
    match arg with
    | .Call (.Intrinsic .AsRef _) args _ =>
      match args.head? with
      | some x => some (env.isPrvalue x)
      | none => some true
    | _ => some true
  | _ => none

/-- Embeds the `invoke_flags` accumulation loop of `assemble_call`
(assembler.rs lines 398-404): `n` is the argument position, `flags` the
`u16` accumulator.  A set bit at position 16 or beyond overflows the
16-bit left shift, which aborts the build (a Rust arithmetic-overflow
panic), modelled as `none`. -/
def compute_invoke_flags_go (env : Env) (n : Nat) (flags : Nat) : List Expr → Option Nat
  | [] => some flags
  | arg :: rest =>
    if (is_rvalue_ref env arg).getD false then
      if 16 ≤ n then none
      else compute_invoke_flags_go env (n + 1) (flags ||| (1 <<< n)) rest
    else compute_invoke_flags_go env (n + 1) flags rest

/-- The `invoke_flags` bitmask of a call's argument list. -/
def compute_invoke_flags (env : Env) (args : List Expr) : Option Nat :=
  compute_invoke_flags_go env 0 0 args

/-- Embeds the dispatch decision of `assemble_call` (assembler.rs lines
411-416): virtual dispatch needs the function's name from the pool, every
other case invokes statically by function index. -/
def invoke_instr (env : Env) (function_idx : Nat) (fn : Fn) (force_static : Bool)
    (exit_label line flags : Nat) : Option (Instr Nat) :=
  if !force_static && !fn.flags.isFinal && !fn.flags.isStatic && !fn.flags.isNative then
    (env.definitionName function_idx).map fun name_idx =>
      .InvokeVirtual exit_label line name_idx flags
  else
    some (.InvokeStatic exit_label line function_idx flags)

/-- Embeds the `get_arg_type` closure of `assemble_intrinsic` (assembler.rs
line 464): `args[i]` panics when out of bounds, then the argument's type is
computed and interned. -/
def get_arg_type (env : Env) (args : List Expr) (i : Nat) : Except Err Nat :=
  match args[i]? with
  | none => .error (.Crash ("index out of bounds"))
  | some a =>
    match env.typeOf a with
    | none => .error .Lookup
    | some t =>
      match env.getTypeIndex t with
      | none => .error .Lookup
      | some idx => .ok idx

/-- Embeds the opcode-selection match of `assemble_intrinsic`
(assembler.rs lines 467-607) for every intrinsic except `NameOf`, which
has its own early-return path. -/
def intrinsic_op_instr (env : Env) (op : Intrinsic) (args : List Expr)
    (return_type : TypeId) (st : Asm) : Except Err Asm :=
  match op with
  | .Equals =>
    match get_arg_type env args 0 with
    | .error e => .error e
    | .ok idx =>
      .ok (st.emit (.Equals idx))
  | .NotEquals =>
    match get_arg_type env args 0 with
    | .error e => .error e
    | .ok idx =>
      .ok (st.emit (.NotEquals idx))
  | .ArrayClear =>
    match get_arg_type env args 0 with
    | .error e => .error e
    | .ok idx =>
      .ok (st.emit (.ArrayClear idx))
  | .ArraySize =>
    match get_arg_type env args 0 with
    | .error e => .error e
    | .ok idx =>
      match env.poolTypeIsStaticArray idx with
      | none => .error .Lookup
      | some true => .ok (st.emit (.StaticArraySize idx))
      | some false => .ok (st.emit (.ArraySize idx))
  | .ArrayResize =>
    match get_arg_type env args 0 with
    | .error e => .error e
    | .ok idx =>
      .ok (st.emit (.ArrayResize idx))
  | .ArrayFindFirst =>
    match get_arg_type env args 0 with
    | .error e => .error e
    | .ok idx =>
      match env.poolTypeIsStaticArray idx with
      | none => .error .Lookup
      | some true => .ok (st.emit (.StaticArrayFindFirst idx))
      | some false => .ok (st.emit (.ArrayFindFirst idx))
  | .ArrayFindLast =>
    match get_arg_type env args 0 with
    | .error e => .error e
    | .ok idx =>
      match env.poolTypeIsStaticArray idx with
      | none => .error .Lookup
      | some true => .ok (st.emit (.StaticArrayFindLast idx))
      | some false => .ok (st.emit (.ArrayFindLast idx))
  | .ArrayContains =>
    match get_arg_type env args 0 with
    | .error e => .error e
    | .ok idx =>
      match env.poolTypeIsStaticArray idx with
      | none => .error .Lookup
      | some true => .ok (st.emit (.StaticArrayContains idx))
      | some false => .ok (st.emit (.ArrayContains idx))
  | .ArrayCount =>
    match get_arg_type env args 0 with
    | .error e => .error e
    | .ok idx =>
      match env.poolTypeIsStaticArray idx with
      | none => .error .Lookup
      | some true => .ok (st.emit (.StaticArrayCount idx))
      | some false => .ok (st.emit (.ArrayCount idx))
  | .ArrayPush =>
    match get_arg_type env args 0 with
    | .error e => .error e
    | .ok idx =>
      .ok (st.emit (.ArrayPush idx))
  | .ArrayPop =>
    match get_arg_type env args 0 with
    | .error e => .error e
    | .ok idx =>
      .ok (st.emit (.ArrayPop idx))
  | .ArrayInsert =>
    match get_arg_type env args 0 with
    | .error e => .error e
    | .ok idx =>
      .ok (st.emit (.ArrayInsert idx))
  | .ArrayRemove =>
    match get_arg_type env args 0 with
    | .error e => .error e
    | .ok idx =>
      .ok (st.emit (.ArrayRemove idx))
  | .ArrayGrow =>
    match get_arg_type env args 0 with
    | .error e => .error e
    | .ok idx =>
      .ok (st.emit (.ArrayGrow idx))
  | .ArrayErase =>
    match get_arg_type env args 0 with
    | .error e => .error e
    | .ok idx =>
      .ok (st.emit (.ArrayErase idx))
  | .ArrayLast =>
    match get_arg_type env args 0 with
    | .error e => .error e
    | .ok idx =>
      .ok (st.emit (.ArrayLast idx))
  | .ArraySort =>
    match get_arg_type env args 0 with
    | .error e => .error e
    | .ok idx =>
      .ok (st.emit (.ArraySort idx))
  | .ArraySortByPredicate =>
    match get_arg_type env args 0 with
    | .error e => .error e
    | .ok idx =>
      .ok (st.emit (.ArraySortByPredicate idx))
  | .ToString =>
    match args[0]? with
    | none => .error (.Crash ("index out of bounds"))
    | some a =>
      match env.typeOf a with
      | none => .error .Lookup
      | some .Variant => .ok (st.emit .VariantToString)
      | some any =>
        match env.getTypeIndex any with
        | none => .error .Lookup
        | some ty_idx => .ok (st.emit (.ToString ty_idx))
  | .EnumInt =>
    match get_arg_type env args 0 with
    | .error e => .error e
    | .ok idx =>
      .ok (st.emit (.EnumToI32 idx 4))
  | .IntEnum =>
    match env.getTypeIndex return_type with
    | none => .error .Lookup
    | some ty_idx => .ok (st.emit (.I32ToEnum ty_idx 4))
  | .ToVariant =>
    match get_arg_type env args 0 with
    | .error e => .error e
    | .ok idx =>
      .ok (st.emit (.ToVariant idx))
  | .FromVariant =>
    match env.getTypeIndex return_type with
    | none => .error .Lookup
    | some ty_idx => .ok (st.emit (.FromVariant ty_idx))
  | .VariantIsRef => .ok (st.emit .VariantIsRef)
  | .VariantIsArray => .ok (st.emit .VariantIsArray)
  | .VariantTypeName => .ok (st.emit .VariantTypeName)
  | .AsRef =>
    match get_arg_type env args 0 with
    | .error e => .error e
    | .ok idx =>
      .ok (st.emit (.AsRef idx))
  | .Deref =>
    match env.getTypeIndex return_type with
    | none => .error .Lookup
    | some ty_idx => .ok (st.emit (.Deref ty_idx))
  | .RefToWeakRef => .ok (st.emit .RefToWeakRef)
  | .WeakRefToRef => .ok (st.emit .WeakRefToRef)
  | .IsDefined =>
    match args[0]? with
    | none => .error (.Crash ("index out of bounds"))
    | some a =>
      match env.typeOf a with
      | none => .error .Lookup
      | some (.Ref _) => .ok (st.emit .RefToBool)
      | some .Null => .ok (st.emit .RefToBool)
      | some (.WeakRef _) => .ok (st.emit .WeakRefToBool)
      | some .Variant => .ok (st.emit .VariantIsDefined)
      | some _ => .error (.Crash ("Invalid IsDefined parameter"))
  | .NameOf => .ok st

/-- Embeds the `NameOf` arm of `assemble_intrinsic` (assembler.rs lines
598-606): emits the definition's name and returns without emitting the
argument expression. -/
def intrinsic_name_of (env : Env) (args : List Expr) (st : Asm) : Except Err Asm :=
  match args[0]? with
  | none => .error (.Crash ("index out of bounds"))
  | some a =>
    match env.typeOf a with
    | none => .error .Lookup
    | some t =>
      match (match t with
             | .Enum i => some i
             | .Class i => some i
             | .Struct i => some i
             | _ => none) with
      | none => .error (.Crash ("Invalid NameOf parameter"))
      | some idx =>
        match env.definitionName idx with
        | none => .error .Lookup
        | some name => .ok (st.emit (.NameConst name))

/-- Embeds the inner `get_initializer` helper of `emit_initializer`
(assembler.rs lines 311-349): the single kind-specific default
instruction, `none` when the type has no synthesized default. -/
def get_initializer (env : Env) (typ : TypeId) : Except Cause (Option (Instr Nat)) :=
  match typ with
  | .Prim idx =>
    match env.defName idx with
    | none => .error .PoolErr
    | some tp =>
      .ok (if tp = TypeName.BOOL then some .FalseConst
        else if tp = TypeName.INT8 then some (.I8Const 0)
        else if tp = TypeName.INT16 then some (.I16Const 0)
        else if tp = TypeName.INT32 then some .I32Zero
        else if tp = TypeName.INT64 then some (.I64Const 0)
        else if tp = TypeName.UINT8 then some (.U8Const 0)
        else if tp = TypeName.UINT16 then some (.U16Const 0)
        else if tp = TypeName.UINT32 then some (.U32Const 0)
        else if tp = TypeName.UINT64 then some (.U64Const 0)
        else if tp = TypeName.FLOAT then some (.F32Const 0)
        else if tp = TypeName.DOUBLE then some (.F64Const 0)
        else if tp = TypeName.STRING then some (.StringConst (env.stringsAdd ("")))
        else if tp = TypeName.CNAME then some (.NameConst UNDEFINED)
        else if tp = TypeName.TWEAKDB_ID then some (.TweakDbIdConst UNDEFINED)
        else if tp = TypeName.RESOURCE then some (.ResourceConst UNDEFINED)
        else none)
  | .Struct s => .ok (some (.Construct 0 s))
  | .Enum e =>
    match env.enumMembers e with
    | none => .error .PoolErr
    | some members => .ok (members.head?.map fun m => .EnumConst e m)
  | .Ref _ => .ok (some .Null)
  | .WeakRef _ => .ok (some .WeakRefNull)
  | .Array _ => .error (.UnsupportedFeature ("initializing a static array with another array"))
  | .StaticArray _ _ =>
    .error (.UnsupportedFeature ("initializing a static array with another array"))
  | _ => .ok none

/-- The per-index emission loop of the static-array arm of
`emit_initializer` (assembler.rs lines 359-365), iterating `i` upward
while `remaining` counts down to zero. -/
def static_array_init (st : Asm) (slot ty_idx : Nat) (instr : Instr Nat)
    (i : Nat) (remaining : Nat) : Asm :=
  match remaining with
  | 0 => st
  | r + 1 =>
    static_array_init
      (((((st.emit .Assign).emit (.StaticArrayElement ty_idx)).emit
        (.Local slot)).emit (.U32Const i)).emit instr)
      slot ty_idx instr (i + 1) r

/-- Embeds `Assembler::emit_initializer` (assembler.rs lines 304-378). -/
def emit_initializer (env : Env) (slot : Nat) (typ : TypeId) (st : Asm) : Except Cause Asm :=
  match typ with
  | .Array _ =>
    match env.getTypeIndex typ with
    | none => .error .PoolErr
    | some ty_idx => .ok ((st.emit (.ArrayClear ty_idx)).emit (.Local slot))
  | .StaticArray elem size =>
    match get_initializer env elem with
    | .error c => .error c
    | .ok none => .ok st
    | .ok (some instr) =>
      match env.getTypeIndex typ with
      | none => .error .PoolErr
      | some ty_idx => .ok (static_array_init st slot ty_idx instr 0 size)
  | _ =>
    match get_initializer env typ with
    | .error c => .error c
    | .ok none => .ok st
    | .ok (some instr) => .ok (((st.emit .Assign).emit (.Local slot)).emit instr)

/-- The default-padding loop of `assemble_call` (assembler.rs lines
433-435): one `Nop` per missing tail parameter. -/
def emit_nops (st : Asm) (n : Nat) : Asm :=
  match n with
  | 0 => st
  | n + 1 => emit_nops (st.emit .Nop) n

/-- The parameter-flag collection of `assemble_call` (assembler.rs lines
391-395): look up every parameter of the function in the pool and collect
the flags, failing on the first lookup error (`try_collect`). -/
def params_lookup (env : Env) : List Nat → Option (List ParamFlags)
  | [] => some []
  | p :: rest =>
    match env.parameter p with
    | none => none
    | some f =>
      match params_lookup env rest with
      | none => none
      | some fs => some (f :: fs)

mutual

/-- Embeds `Assembler::assemble` (assembler.rs lines 45-289).  The state
is threaded explicitly, `exit` is the active break label, and the
recursion is bounded by explicit fuel (running out of fuel is the
distinguished error `Err.Fuel`). -/
def assemble (fuel : Nat) (env : Env) (expr : Expr) (exit : Option Nat) (st : Asm) :
    Except Err Asm :=
  match fuel with
  | 0 => .error .Fuel
  | fuel + 1 =>
    match expr with
    | .Ident r span =>
      match r with
      | .Value (.Local idx) => .ok (st.emit (.Local idx))
      | .Value (.Parameter idx) => .ok (st.emit (.Param idx))
      | _ => .error (.Compile (.UnexpectedToken ("symbol")) span)
    | .Constant c _ =>
      match c with
      | .String .Str lit => .ok (st.emit (.StringConst (env.stringsAdd lit)))
      | .String .Name lit => .ok (st.emit (.NameConst (env.namesAdd lit)))
      | .String .Resource lit => .ok (st.emit (.ResourceConst (env.resourcesAdd lit)))
      | .String .TweakDbId lit => .ok (st.emit (.TweakDbIdConst (env.tweakDbIdsAdd lit)))
      | .F32 v => .ok (st.emit (.F32Const v))
      | .F64 v => .ok (st.emit (.F64Const v))
      | .I32 v => .ok (st.emit (.I32Const v))
      | .I64 v => .ok (st.emit (.I64Const v))
      | .U32 v => .ok (st.emit (.U32Const v))
      | .U64 v => .ok (st.emit (.U64Const v))
      | .Bool true => .ok (st.emit .TrueConst)
      | .Bool false => .ok (st.emit .FalseConst)
    | .Cast target inner span =>
      match target with
      | .Class cls => assemble fuel env inner none (st.emit (.DynamicCast cls 0))
      | other =>
        match env.pretty other with
        | none => .error .Lookup
        | some s => .error (.Compile (.UnsupportedOperation ("casting") s) span)
    | .Declare slot typ init span =>
      match init with
      | some val => assemble fuel env val none ((st.emit .Assign).emit (.Local slot))
      | none =>
        match typ with
        | none => .error (.Crash ("Local without type"))
        | some t =>
          match emit_initializer env slot t st with
          | .error c => .error (.Compile c span)
          | .ok st => .ok st
    | .Assign lhs rhs _ => do
      let st ← assemble fuel env lhs none (st.emit .Assign)
      assemble fuel env rhs none st
    | .ArrayElem arr idx span =>
      match env.typeOf arr with
      | none => .error .Lookup
      | some t =>
        match t with
        | .Array _ =>
          match env.getTypeIndex t with
          | none => .error .Lookup
          | some ty_idx => do
            let st ← assemble fuel env arr none (st.emit (.ArrayElement ty_idx))
            assemble fuel env idx none st
        | .StaticArray _ _ =>
          match env.getTypeIndex t with
          | none => .error .Lookup
          | some ty_idx => do
            let st ← assemble fuel env arr none (st.emit (.StaticArrayElement ty_idx))
            assemble fuel env idx none st
        | other =>
          match env.pretty other with
          | none => .error .Lookup
          | some s => .error (.Compile (.UnsupportedOperation ("indexing") s) span)
    | .New typ args span =>
      match typ with
      | .Class idx => .ok (st.emit (.New idx))
      | .Struct idx =>
        assemble_list fuel env args (st.emit (.Construct (args.length % 256) idx))
      | other =>
        match env.pretty other with
        | none => .error .Lookup
        | some s => .error (.Compile (.UnsupportedOperation ("constructing") s) span)
    | .Return (some val) _ => assemble fuel env val none (st.emit .Return)
    | .Return none _ => .ok ((st.emit .Return).emit .Nop)
    | .Seq exprs => assemble_seq fuel env exprs exit st
    | .Switch scrutinee cases default span =>
      match env.typeOf scrutinee with
      | none => .error .Lookup
      | some typ =>
        let (st, first_case_label) := st.newLabel
        let (st, next_case_label) := st.newLabel
        let (st, exit_label) := st.newLabel
        match env.getTypeIndex typ with
        | none => .error .Lookup
        | some ty_idx => do
          let st ← assemble fuel env scrutinee none (st.emit (.Switch ty_idx first_case_label))
          let r ← cases_loop fuel env exit_label cases next_case_label none
            (st.emitLabel first_case_label)
          let st := r.1.emitLabel r.2
          let st ← match default with
            | some body => assemble_seq fuel env body (some exit_label) (st.emit .SwitchDefault)
            | none => pure st
          pure (st.emitLabel exit_label)
    | .If cond thenSeq elseSeq _ => do
      let (st, else_label) := st.newLabel
      let st ← assemble fuel env cond none (st.emit (.JumpIfFalse else_label))
      let st ← assemble_seq fuel env thenSeq exit st
      match elseSeq with
      | some elseCode => do
        let (st, exit_label) := st.newLabel
        let st ← assemble_seq fuel env elseCode exit
          ((st.emit (.Jump exit_label)).emitLabel else_label)
        pure (st.emitLabel exit_label)
      | none => pure (st.emitLabel else_label)
    | .Conditional cond thenE elseE _ => do
      let (st, false_label) := st.newLabel
      let (st, exit_label) := st.newLabel
      let st ← assemble fuel env cond none (st.emit (.Conditional false_label exit_label))
      let st ← assemble fuel env thenE none st
      let st ← assemble fuel env elseE none (st.emitLabel false_label)
      pure (st.emitLabel exit_label)
    | .While cond body _ => do
      let (st, exit_label) := st.newLabel
      let (st, loop_label) := st.newLabel
      let st ← assemble fuel env cond none
        ((st.emitLabel loop_label).emit (.JumpIfFalse exit_label))
      let st ← assemble_seq fuel env body (some exit_label) st
      pure ((st.emit (.Jump loop_label)).emitLabel exit_label)
    | .Member receiver member _ =>
      match member with
      | .ClassField field => do
        let (st, exit_label) := st.newLabel
        let st ← assemble fuel env receiver none (st.emit (.Context exit_label))
        pure ((st.emit (.ObjectField field)).emitLabel exit_label)
      | .StructField field => assemble fuel env receiver none (st.emit (.StructField field))
      | .EnumMember e m => .ok (st.emit (.EnumConst e m))
    | .Call callable args span =>
      match callable with
      | .Function fn => assemble_call fuel env fn args false span st
      | .Intrinsic op typ => assemble_intrinsic fuel env op args typ span st
    | .MethodCall receiver fn_idx args span =>
      match receiver with
      | .Ident (.Symbol (.Class _)) span2 => assemble_call fuel env fn_idx args true span2 st
      | .Ident (.Symbol (.Struct _)) span2 => assemble_call fuel env fn_idx args true span2 st
      | receiver => do
        let force_static_call := match receiver with | .Super _ => true | _ => false
        let (st, exit_label) := st.newLabel
        let st ← assemble fuel env receiver none (st.emit (.Context exit_label))
        let st ← assemble_call fuel env fn_idx args force_static_call span st
        pure (st.emitLabel exit_label)
    | .Null _ => .ok (st.emit .Null)
    | .This _ => .ok (st.emit .This)
    | .Super _ => .ok (st.emit .This)
    | .Break span =>
      match exit with
      | some l => .ok (st.emit (.Jump l))
      | none => .error (.Compile (.UnsupportedFeature ("Break")) span)
    | .ArrayLit span => .error (.Compile (.UnsupportedFeature ("ArrayLit")) span)
    | .InterpolatedString span =>
      .error (.Compile (.UnsupportedFeature ("InterpolatedString")) span)
    | .ForIn span => .error (.Compile (.UnsupportedFeature ("For-in")) span)
    | .BinOp span => .error (.Compile (.UnsupportedFeature ("BinOp")) span)
    | .UnOp span => .error (.Compile (.UnsupportedFeature ("UnOp")) span)
    | .Goto span => .error (.Compile (.UnsupportedFeature ("Goto")) span)

termination_by structural fuel

/-- Embeds `Assembler::assemble_seq` (assembler.rs lines 291-302): each
expression in order, propagating the active exit label. -/
def assemble_seq (fuel : Nat) (env : Env) (seq : List Expr) (exit : Option Nat) (st : Asm) :
    Except Err Asm :=
  match fuel with
  | 0 => .error .Fuel
  | fuel + 1 =>
    match seq with
    | [] => .ok st
    | e :: rest => do
      let st ← assemble fuel env e exit st
      assemble_seq fuel env rest exit st

termination_by structural fuel

/-- The argument-emission loops of `New` (assembler.rs lines 144-146) and
of `assemble_intrinsic` (lines 608-610): each argument with no active
exit label. -/
def assemble_list (fuel : Nat) (env : Env) (args : List Expr) (st : Asm) : Except Err Asm :=
  match fuel with
  | 0 => .error .Fuel
  | fuel + 1 =>
    match args with
    | [] => .ok st
    | a :: rest => do
      let st ← assemble fuel env a none st
      assemble_list fuel env rest st

termination_by structural fuel

/-- Embeds `Assembler::assemble_call` (assembler.rs lines 380-439). -/
def assemble_call (fuel : Nat) (env : Env) (function_idx : Nat) (args : List Expr)
    (force_static : Bool) (span : Span) (st : Asm) : Except Err Asm :=
  match fuel with
  | 0 => .error .Fuel
  | fuel + 1 =>
    match env.function function_idx with
    | none => .error .Lookup
    | some fn =>
      match params_lookup env fn.parameters with
      | none => .error .Lookup
      | some param_flags =>
        let args_len := args.length
        let (st, exit_label) := st.newLabel
        match compute_invoke_flags env args with
        | none => .error (.Crash ("attempt to shift left with overflow"))
        | some invoke_flags =>
          let line := (env.lookupLine span).getD 0
          match invoke_instr env function_idx fn force_static exit_label line invoke_flags with
          | none => .error .Lookup
          | some inv => do
            let st ← assemble_call_args fuel env args param_flags (st.emit inv)
            if param_flags.length < args_len then
              .error (.Compile
                (.UnsupportedFeature ("cannot emit function call (probably invalid signature)"))
                Span.ZERO)
            else
              pure (((emit_nops st (param_flags.length - args_len)).emit .ParamEnd).emitLabel
                exit_label)

termination_by structural fuel

/-- The zipped argument/parameter emission loop of `assemble_call`
(assembler.rs lines 417-426): short-circuit parameters are wrapped in a
`Skip` trampoline; the zip stops at the shorter list. -/
def assemble_call_args (fuel : Nat) (env : Env) (args : List Expr) (flags : List ParamFlags)
    (st : Asm) : Except Err Asm :=
  match fuel with
  | 0 => .error .Fuel
  | fuel + 1 =>
    match args, flags with
    | arg :: args, f :: flags =>
      if f.isShortCircuit then do
        let (st, skip_label) := st.newLabel
        let st ← assemble fuel env arg none (st.emit (.Skip skip_label))
        assemble_call_args fuel env args flags (st.emitLabel skip_label)
      else do
        let st ← assemble fuel env arg none st
        assemble_call_args fuel env args flags st
    | _, _ => .ok st

termination_by structural fuel

/-- Embeds `Assembler::assemble_intrinsic` (assembler.rs lines 455-612):
the opcode first, then every argument in order — except `NameOf`, which
returns without emitting its argument. -/
def assemble_intrinsic (fuel : Nat) (env : Env) (op : Intrinsic) (args : List Expr)
    (return_type : TypeId) (span : Span) (st : Asm) : Except Err Asm :=
  match fuel with
  | 0 => .error .Fuel
  | fuel + 1 =>
    match op with
    | .NameOf => intrinsic_name_of env args st
    | op => do
      let st ← intrinsic_op_instr env op args return_type st
      assemble_list fuel env args st

termination_by structural fuel

/-- Linearizes the `while peek / for case` nest of the `Switch` arm of
`assemble` (assembler.rs lines 171-187) into one pass over the case list:
`cur_body` is `some l` while inside a case group whose body label `l` was
already minted and not yet emitted (every case seen so far in the group
had an empty body), and `none` at a group boundary, where the loop mints
a fresh body label exactly as the outer `while` does before its `for`.
Returns the final `next_case` label together with the state. -/
def cases_loop (fuel : Nat) (env : Env) (exit_label : Nat)
    (cases : List (Expr × List Expr)) (next_case : Nat) (cur_body : Option Nat) (st : Asm) :
    Except Err (Asm × Nat) :=
  match fuel with
  | 0 => .error .Fuel
  | fuel + 1 =>
    match cases with
    | [] => .ok (st, next_case)
    | (matcher, body) :: rest =>
      let (st, body_label) :=
        match cur_body with
        | some l => (st, l)
        | none => st.newLabel
      let st := st.emitLabel next_case
      let (st, next') := st.newLabel
      let st := st.emit (.SwitchLabel next' body_label)
      do
        let st ← assemble fuel env matcher none st
        if body.all env.isEmptyExpr then
          cases_loop fuel env exit_label rest next' (some body_label) st
        else do
          let st ← assemble_seq fuel env body (some exit_label) (st.emitLabel body_label)
          cases_loop fuel env exit_label rest next' none st

termination_by structural fuel
end

/-- The labeled stream produced by `Assembler::from_body` (assembler.rs
lines 632-642) just before label resolution: the body's instructions with
the terminating `Nop` appended. -/
def from_body_asm (fuel : Nat) (env : Env) (seq : List Expr) : Except Err Asm := do
  let st ← assemble_seq fuel env seq none { instructions := [], labels := 0 }
  pure (st.emit .Nop)

/-- Modelled from the spec (§4.4 pass 1): `Code::iter` pairs every
instruction with its byte location, accumulated with the opcode size
function of the external bytecode module. -/
def with_locations (size : Instr Nat → Nat) : List (Instr Nat) → Nat → List (Nat × Instr Nat)
  | [], _ => []
  | i :: rest, loc => (loc, i) :: with_locations size rest (loc + size i)

/-- One step of the first pass of `Assembler::into_code`: a `Target`
records its location in the table (a label index out of range of the
table is a Rust index panic, modelled as `none`); every other instruction
leaves the table unchanged. -/
def target_update (locs : List Nat) (p : Nat × Instr Nat) : Option (List Nat) :=
  match p.2 with
  | .Target l => if l < locs.length then some (locs.set l p.1) else none
  | _ => some locs

/-- The first pass of `Assembler::into_code` (assembler.rs lines 615-623):
record the location of every `Target` in a table indexed by label, sized
by the label counter and initialized to location 0. -/
def collect_targets (labels : Nat) (pairs : List (Nat × Instr Nat)) : Option (List Nat) :=
  pairs.foldlM target_update (List.replicate labels 0)

/-- Modelled from the spec (§4.4 pass 2): `Instr::resolve_labels` of the
external bytecode module replaces every branch operand label with
`target_location - instruction_location`; a label outside the table is an
index panic, modelled as `none`. -/
def resolve_instr (locations : List Nat) (loc : Nat) (i : Instr Nat) : Option (Instr Int) :=
  if i.branchLabels.all (fun l => l < locations.length) then
    some (i.map fun l => ((locations.getD l 0 : Nat) : Int) - (loc : Int))
  else none

/-- The second pass of `Assembler::into_code`: resolve every remaining
instruction against the location table, failing on the first panic. -/
def resolve_all (locations : List Nat) : List (Nat × Instr Nat) → Option (List (Instr Int))
  | [] => some []
  | p :: rest =>
    match resolve_instr locations p.1 p.2 with
    | none => none
    | some i =>
      match resolve_all locations rest with
      | none => none
      | some is => some (i :: is)

/-- Embeds `Assembler::into_code` (assembler.rs lines 614-630): pass one
collects `Target` locations, pass two drops the `Target` entries and
resolves every branch operand. -/
def into_code (size : Instr Nat → Nat) (asm : Asm) : Option (List (Instr Int)) := do
  let pairs := with_locations size asm.instructions 0
  let locations ← collect_targets asm.labels pairs
  resolve_all locations (pairs.filter fun p => !p.2.isTarget)

/-- Number of `Target` pseudo-instructions in a stream. -/
def countTargets (code : List (Instr Nat)) : Nat :=
  code.countP fun i => i.isTarget

/-- Embeds `Assembler::from_body` (assembler.rs lines 632-642): assemble
the body, append the terminating `Nop`, resolve labels. -/
def from_body (fuel : Nat) (env : Env) (size : Instr Nat → Nat) (seq : List Expr) :
    Except Err (List (Instr Int)) := do
  let st ← from_body_asm fuel env seq
  match into_code size st with
  | none => .error (.Crash ("label resolution"))
  | some code => pure code

/-- Deprecation kinds (`diagnostics.rs::Deprecation`). -/
inductive Deprecation where
  | UnrelatedTypeEquals
  deriving DecidableEq, Repr

/-- Embeds `diagnostics.rs::Diagnostic`; the `peg::ExpectedSet` payload of
`SyntaxError` is opaque to the severity logic and modelled as a string. -/
inductive Diagnostic where
  | ReplaceMethodConflict (fn : Nat) (span : Span)
  | FieldConflict (span : Span)
  | Deprecation (kind : Deprecation) (span : Span)
  | UnusedLocal (span : Span)
  | MissingReturn (span : Span)
  | StatementFallthrough (span : Span)
  | InvalidUseOfTemporary (span : Span)
  | AddMethodConflict (span : Span)
  | NonClassRefDeprecation (span : Span)
  | ClassWithNoIndirectionDeprecation (span : Span)
  | SyntaxError (expected : String) (span : Span)
  | CompileError (cause : Cause) (span : Span)
  | CteError (msg : String) (span : Span)
  deriving DecidableEq, Repr

/-- Embeds `Diagnostic::is_fatal` (diagnostics.rs lines 110-123): the
negated match over the non-fatal kinds. -/
def Diagnostic.is_fatal : Diagnostic → Bool := fun d =>
  !(match d with
    | .ReplaceMethodConflict _ _ => true
    | .FieldConflict _ => true
    | .Deprecation _ _ => true
    | .UnusedLocal _ => true
    | .MissingReturn _ => true
    | .AddMethodConflict _ => true
    | .NonClassRefDeprecation _ => true
    | .ClassWithNoIndirectionDeprecation _ => true
    | _ => false)

/-- Log levels of the `log` crate as used by `Diagnostic::log`. -/
inductive LogLevel where
  | Error
  | Warn
  deriving DecidableEq, Repr

/-- Embeds the severity choice of `Diagnostic::log` (diagnostics.rs lines
67-73): fatal diagnostics are logged as errors, the rest as warnings (the
rendered text itself is presentation and is not modelled). -/
def Diagnostic.log (d : Diagnostic) : LogLevel :=
  if d.is_fatal then .Error else .Warn

/-- Does the instruction mark the location of label `lab`, i.e. is it
`Target lab`? -/
def Instr.targetsAt (lab : Nat) : Instr Nat → Bool
  | .Target x => decide (x = lab)
  | _ => false

/-- Number of `Target lab` pseudo-instructions in a stream. -/
def countT (code : List (Instr Nat)) (lab : Nat) : Nat :=
  code.countP (Instr.targetsAt lab)

/-- Every label occurring as a branch operand in a stream, with
multiplicity. -/
def opsOf (code : List (Instr Nat)) : List Nat :=
  code.flatMap Instr.branchLabels

/-- The label `lab` occurs in the stream only as the body-label operand of
`SwitchLabel` instructions (the shape of the dangling body labels of
switch case groups with no non-empty body). -/
def only_switch_body (code : List (Instr Nat)) (lab : Nat) : Bool :=
  code.all fun i =>
    match i with
    | .SwitchLabel next_case _ => decide (next_case ≠ lab)
    | i => decide (lab ∉ i.branchLabels)

/-- Label discipline of a freshly emitted instruction segment, given that
the label counter went from `lo` to `hi` while it was emitted and that
`exit` was the active break label (already minted before `lo`):
every `Target` is in the fresh range and unique, and every branch operand
is the exit label, or has exactly one `Target` in the segment, or is a
fresh label with no `Target` that occurs only as a `SwitchLabel`
body-label operand. -/
structure Good (lo hi : Nat) (exit : Option Nat) (code : List (Instr Nat)) : Prop where
  lo_le_hi : lo ≤ hi
  target_range : ∀ lab, 0 < countT code lab → lo ≤ lab ∧ lab < hi
  target_uniq : ∀ lab, countT code lab ≤ 1
  ops_ok : ∀ lab ∈ opsOf code, exit = some lab ∨ countT code lab = 1 ∨
    (countT code lab = 0 ∧ lo ≤ lab ∧ lab < hi ∧ only_switch_body code lab = true)

/-- One assembly step appended a `Good` segment and advanced the label
counter. -/
def AsmStep (exit : Option Nat) (st st' : Asm) : Prop :=
  st.labels ≤ st'.labels ∧
    ∃ code, st'.instructions = st.instructions ++ code ∧
      Good st.labels st'.labels exit code

/-- The result of `cases_loop`: the appended segment together with the
returned final `next_case` label.  `lo`/`hi` are the label counters
before and after the run. -/
structure CasesStep (lo hi : Nat) (exit_label next_case : Nat) (cur_body : Option Nat)
    (final_next : Nat) (code : List (Instr Nat)) : Prop where
  lo_le_hi : lo ≤ hi
  target_uniq : ∀ lab, countT code lab ≤ 1
  target_range : ∀ lab, 0 < countT code lab →
    lab = next_case ∨ cur_body = some lab ∨ (lo ≤ lab ∧ lab < hi)
  next_count : countT code next_case = 1
  final_range : lo ≤ final_next ∧ final_next < hi
  final_count : countT code final_next = 0
  ops_ok : ∀ lab ∈ opsOf code, lab = exit_label ∨ countT code lab = 1 ∨ lab = final_next ∨
    (countT code lab = 0 ∧ only_switch_body code lab = true ∧
      (cur_body = some lab ∨ (lo ≤ lab ∧ lab < hi)))

/-- The error value of the invalid-signature rejection of `assemble_call`
(assembler.rs lines 427-432). -/
def invalid_sig_err : Err :=
  .Compile (.UnsupportedFeature ("cannot emit function call (probably invalid signature)"))
    Span.ZERO

/-- Induction statement for `assemble` at a given fuel: a successful run
whose incoming exit label (if any) is already minted appends a `Good`
segment. -/
def StmtAssemble (fuel : Nat) : Prop :=
  ∀ env expr exit st st',
    (∀ e, exit = some e → e < st.labels) →
    assemble fuel env expr exit st = .ok st' → AsmStep exit st st'

/-- Induction statement for `assemble_seq`. -/
def StmtSeq (fuel : Nat) : Prop :=
  ∀ env seq exit st st',
    (∀ e, exit = some e → e < st.labels) →
    assemble_seq fuel env seq exit st = .ok st' → AsmStep exit st st'

/-- Induction statement for `assemble_list` (always run with no active
exit label). -/
def StmtList (fuel : Nat) : Prop :=
  ∀ env args st st',
    assemble_list fuel env args st = .ok st' → AsmStep none st st'

/-- Induction statement for `assemble_call`. -/
def StmtCall (fuel : Nat) : Prop :=
  ∀ env function_idx args force_static sp st st',
    assemble_call fuel env function_idx args force_static sp st = .ok st' →
    AsmStep none st st'

/-- Induction statement for `assemble_call_args`. -/
def StmtCallArgs (fuel : Nat) : Prop :=
  ∀ env args flags st st',
    assemble_call_args fuel env args flags st = .ok st' → AsmStep none st st'

/-- Induction statement for `assemble_intrinsic`. -/
def StmtIntrinsic (fuel : Nat) : Prop :=
  ∀ env op args return_type sp st st',
    assemble_intrinsic fuel env op args return_type sp st = .ok st' → AsmStep none st st'

/-- Induction statement for `cases_loop`: the incoming chain label, the
pending group body label and the exit label are minted, pairwise distinct
where it matters, and a successful run appends either nothing (no cases)
or a `CasesStep` segment. -/
def StmtCases (fuel : Nat) : Prop :=
  ∀ env exit_label cases next_case cur_body st st2 final_next,
    exit_label < st.labels → next_case < st.labels →
    (∀ b, cur_body = some b → b < st.labels ∧ b ≠ next_case ∧ b ≠ exit_label) →
    cases_loop fuel env exit_label cases next_case cur_body st = .ok (st2, final_next) →
    st.labels ≤ st2.labels ∧
      ∃ code, st2.instructions = st.instructions ++ code ∧
        ((st2 = st ∧ final_next = next_case ∧ code = []) ∨
          CasesStep st.labels st2.labels exit_label next_case cur_body final_next code)

/-- Conjunction of all induction statements at a given fuel. -/
def StmtAll (fuel : Nat) : Prop :=
  StmtAssemble fuel ∧ StmtSeq fuel ∧ StmtList fuel ∧ StmtCall fuel ∧
    StmtCallArgs fuel ∧ StmtIntrinsic fuel ∧ StmtCases fuel

/-- An oracle with every lookup defined, used to run the assembler on
concrete inputs: every expression has type `Variant`, every type interns
to index 0, and the pool lookups that concrete runs do not need are left
failing. -/
def trivialEnv : Env where
  typeOf := fun _ => some .Variant
  getTypeIndex := fun _ => some 0
  pretty := fun _ => some ("")
  stringsAdd := fun _ => 0
  namesAdd := fun _ => 0
  resourcesAdd := fun _ => 0
  tweakDbIdsAdd := fun _ => 0
  defName := fun _ => none
  enumMembers := fun _ => none
  function := fun _ => none
  parameter := fun _ => none
  definitionName := fun _ => none
  lookupLine := fun _ => none
  isEmptyExpr := fun _ => false
  isPrvalue := fun _ => false
  poolTypeIsStaticArray := fun _ => none

/-- The body of the C1 counterexample: a switch over `null` with a single
case whose body is empty, the shape whose `SwitchLabel` body label never
receives a `Target`. -/
def emptyCaseSwitch : List Expr :=
  [.Switch (.Null 0) [(.Null 0, [])] none 0]

/-- An oracle for running `emit_initializer` concretely: every primitive
index is named `Bool` and every enum has no members. -/
def boolPoolEnv : Env :=
  { trivialEnv with
    defName := fun _ => some TypeName.BOOL
    enumMembers := fun _ => some ([]) }

/-- An oracle for running the call encoder concretely: a single function
of two non-short-circuit parameters, virtual-eligible flags, a known name
index, and a type oracle under which `null` literals (and only they) have
a `ScriptRef` type. -/
def callEnv : Env :=
  { trivialEnv with
    typeOf := fun e =>
      match e with
      | .Null _ => some (.ScriptRef .Variant)
      | _ => some .Variant
    function := fun _ => some { flags := ⟨false, false, false⟩, parameters := [0, 1] }
    parameter := fun _ => some ⟨false⟩
    definitionName := fun _ => some 9 }

/-- The call oracle restricted to one declared parameter, for call sites
with surplus arguments. -/
def shortParamEnv : Env :=
  { callEnv with
    function := fun _ => some { flags := ⟨false, false, false⟩, parameters := [0] } }

/-- Restatement of the spec's per-argument rvalue-reference condition in
the spec's own words (§4.2 step 2), used to check the `invoke_flags`
computation against it: the argument's type is `ScriptRef<T>`, and the
argument is not a direct `AsRef(x)` intrinsic call whose operand `x` is
an l-value (not a prvalue). -/
def RvalueRefSpec (env : Env) (arg : Expr) : Prop :=
  (∃ t, env.typeOf arg = some (.ScriptRef t)) ∧
    ¬(∃ ret cargs sp x, arg = .Call (.Intrinsic .AsRef ret) cargs sp ∧
      cargs.head? = some x ∧ env.isPrvalue x = false)

theorem targetsAt_iff {lab : Nat} {i : Instr Nat} :
    Instr.targetsAt lab i = true ↔ i = .Target lab := by
  cases i <;> simp [Instr.targetsAt]

theorem countT_nil (lab : Nat) : countT [] lab = 0 := rfl

theorem targetsAt_false {i : Instr Nat} (h : ∀ x, i ≠ .Target x) (lab : Nat) :
    Instr.targetsAt lab i = false := by
  cases hb : Instr.targetsAt lab i
  · rfl
  · exact absurd (targetsAt_iff.mp hb) (h lab)

theorem countT_cons (i : Instr Nat) (l : List (Instr Nat)) (lab : Nat) :
    countT (i :: l) lab = countT l lab + (if Instr.targetsAt lab i then 1 else 0) := by
  simp [countT, List.countP_cons]

theorem countT_append (a b : List (Instr Nat)) (lab : Nat) :
    countT (a ++ b) lab = countT a lab + countT b lab := by
  simp [countT, List.countP_append]

theorem countT_target (x lab : Nat) :
    countT [.Target x] lab = if x = lab then 1 else 0 := by
  by_cases h : x = lab <;> simp [countT, List.countP_cons, Instr.targetsAt, h]

theorem countT_plain {i : Instr Nat} (h : ∀ x, i ≠ .Target x) (lab : Nat) :
    countT [i] lab = 0 := by
  simp [countT, List.countP_cons, targetsAt_false h lab]

theorem opsOf_nil : opsOf [] = [] := rfl

theorem opsOf_cons (i : Instr Nat) (l : List (Instr Nat)) :
    opsOf (i :: l) = i.branchLabels ++ opsOf l := rfl

theorem opsOf_append (a b : List (Instr Nat)) : opsOf (a ++ b) = opsOf a ++ opsOf b := by
  simp [opsOf]

theorem mem_opsOf {lab : Nat} {l : List (Instr Nat)} :
    lab ∈ opsOf l ↔ ∃ i ∈ l, lab ∈ i.branchLabels := by
  simp [opsOf]

theorem osb_append {a b : List (Instr Nat)} {lab : Nat} :
    only_switch_body (a ++ b) lab =
      (only_switch_body a lab && only_switch_body b lab) := by
  simp [only_switch_body, List.all_append]

theorem osb_of_not_mem {l : List (Instr Nat)} {lab : Nat} (h : lab ∉ opsOf l) :
    only_switch_body l lab = true := by
  induction l with
  | nil => rfl
  | cons i rest ih =>
    rw [opsOf_cons, List.mem_append] at h
    push_neg at h
    have hrest := ih h.2
    have hi : lab ∉ i.branchLabels := h.1
    simp only [only_switch_body, List.all_cons, Bool.and_eq_true]
    refine ⟨?_, by simpa [only_switch_body] using hrest⟩
    cases i <;> simp_all [Instr.branchLabels] <;> omega

theorem Good.nil {lo hi : Nat} (h : lo ≤ hi) (e : Option Nat) : Good lo hi e [] := by
  refine ⟨h, ?_, ?_, ?_⟩
  · intro lab h0
    simp [countT_nil] at h0
  · intro lab
    simp [countT_nil]
  · intro lab hmem
    simp [opsOf_nil] at hmem

theorem Good.countT_zero {lo hi : Nat} {e : Option Nat} {code : List (Instr Nat)}
    (g : Good lo hi e code) {lab : Nat} (h : lab < lo ∨ hi ≤ lab) : countT code lab = 0 := by
  by_contra h0
  have := g.target_range lab (Nat.pos_of_ne_zero h0)
  omega

theorem Good.ops_range {lo hi : Nat} {e : Option Nat} {code : List (Instr Nat)}
    (g : Good lo hi e code) {lab : Nat} (h : lab ∈ opsOf code) :
    e = some lab ∨ (lo ≤ lab ∧ lab < hi) := by
  rcases g.ops_ok lab h with h1 | h1 | h1
  · exact Or.inl h1
  · exact Or.inr (g.target_range lab (by omega))
  · exact Or.inr ⟨h1.2.1, h1.2.2.1⟩

theorem Good.mono {lo hi lo' hi' : Nat} {e : Option Nat} {code : List (Instr Nat)}
    (g : Good lo hi e code) (h1 : lo' ≤ lo) (h2 : hi ≤ hi') : Good lo' hi' e code := by
  have hlh := g.lo_le_hi
  refine ⟨by omega, ?_, g.target_uniq, ?_⟩
  · intro lab h0
    have := g.target_range lab h0
    omega
  · intro lab hmem
    rcases g.ops_ok lab hmem with h | h | h
    · exact Or.inl h
    · exact Or.inr (Or.inl h)
    · exact Or.inr (Or.inr ⟨h.1, by omega, by omega, h.2.2.2⟩)

theorem Good.weaken {lo hi : Nat} {code : List (Instr Nat)}
    (g : Good lo hi none code) (e : Option Nat) : Good lo hi e code := by
  refine ⟨g.lo_le_hi, g.target_range, g.target_uniq, ?_⟩
  intro lab hmem
  rcases g.ops_ok lab hmem with h | h | h
  · cases h
  · exact Or.inr (Or.inl h)
  · exact Or.inr (Or.inr h)

theorem Good.append {lo m hi : Nat} {e : Option Nat} {c1 c2 : List (Instr Nat)}
    (g1 : Good lo m e c1) (g2 : Good m hi e c2)
    (hexit : ∀ x, e = some x → x < lo) : Good lo hi e (c1 ++ c2) := by
  have hlm := g1.lo_le_hi
  have hmh := g2.lo_le_hi
  refine ⟨by omega, ?_, ?_, ?_⟩
  · intro lab h0
    rw [countT_append] at h0
    rcases Nat.lt_or_ge 0 (countT c1 lab) with h1 | h1
    · have := g1.target_range lab h1
      omega
    · have h2 : 0 < countT c2 lab := by omega
      have := g2.target_range lab h2
      omega
  · intro lab
    rw [countT_append]
    have u1 := g1.target_uniq lab
    have u2 := g2.target_uniq lab
    rcases Nat.eq_zero_or_pos (countT c1 lab) with h1 | h1
    · omega
    · have hb := g1.target_range lab h1
      have : countT c2 lab = 0 := g2.countT_zero (Or.inl hb.2)
      omega
  · intro lab hmem
    rw [opsOf_append, List.mem_append] at hmem
    rw [countT_append]
    rcases hmem with hmem | hmem
    · rcases g1.ops_ok lab hmem with h | h | h
      · exact Or.inl h
      · have hb := g1.target_range lab (by omega)
        have h2 : countT c2 lab = 0 := g2.countT_zero (Or.inl hb.2)
        exact Or.inr (Or.inl (by omega))
      · obtain ⟨hz, hlo, hhi, hosb⟩ := h
        have h2 : countT c2 lab = 0 := g2.countT_zero (Or.inl hhi)
        have hnm : lab ∉ opsOf c2 := by
          intro hmem2
          rcases g2.ops_range hmem2 with he | hb
          · have := hexit lab he
            omega
          · omega
        refine Or.inr (Or.inr ⟨by omega, hlo, by omega, ?_⟩)
        rw [osb_append, hosb, osb_of_not_mem hnm]
        rfl
    · rcases g2.ops_ok lab hmem with h | h | h
      · exact Or.inl h
      · have hb := g2.target_range lab (by omega)
        have h1 : countT c1 lab = 0 := g1.countT_zero (Or.inr hb.1)
        exact Or.inr (Or.inl (by omega))
      · obtain ⟨hz, hlo, hhi, hosb⟩ := h
        have h1 : countT c1 lab = 0 := g1.countT_zero (Or.inr hlo)
        have hnm : lab ∉ opsOf c1 := by
          intro hmem1
          rcases g1.ops_range hmem1 with he | hb
          · have := hexit lab he
            omega
          · omega
        refine Or.inr (Or.inr ⟨by omega, by omega, hhi, ?_⟩)
        rw [osb_append, hosb, osb_of_not_mem hnm]
        rfl

theorem exceptBind_ok {α β : Type} {x : Except Err α} {f : α → Except Err β} {b : β} :
    (x >>= f) = .ok b ↔ ∃ a, x = .ok a ∧ f a = .ok b := by
  cases x <;> simp [Bind.bind, Except.bind]

/-- C9: `is_fatal` is false exactly for the eight listed kinds,
`StatementFallthrough` and `InvalidUseOfTemporary` are fatal, and `log`
chooses warning severity exactly for the non-fatal kinds and error
severity for the fatal ones. -/
theorem c9_diagnostic_severity (d : Diagnostic) :
    (d.is_fatal = false ↔
      ((∃ f s, d = .ReplaceMethodConflict f s) ∨ (∃ s, d = .FieldConflict s) ∨
        (∃ k s, d = .Deprecation k s) ∨ (∃ s, d = .UnusedLocal s) ∨
        (∃ s, d = .MissingReturn s) ∨ (∃ s, d = .AddMethodConflict s) ∨
        (∃ s, d = .NonClassRefDeprecation s) ∨
        (∃ s, d = .ClassWithNoIndirectionDeprecation s))) ∧
    (∀ s, (Diagnostic.StatementFallthrough s).is_fatal = true) ∧
    (∀ s, (Diagnostic.InvalidUseOfTemporary s).is_fatal = true) ∧
    (d.log = .Warn ↔ d.is_fatal = false) ∧
    (d.log = .Error ↔ d.is_fatal = true) := by
  cases d <;> simp [Diagnostic.is_fatal, Diagnostic.log]
  exact ⟨Deprecation.UnrelatedTypeEquals, trivial⟩

/-- C8: a `Break` with an active exit label emits exactly `Jump` to that
label, and a `Break` with no active exit label is the unsupported-feature
compile error `Break`, emitting nothing. -/
theorem c8_break (fuel : Nat) (env : Env) (sp : Span) (l : Nat) (st : Asm) :
    assemble (fuel + 1) env (.Break sp) (some l) st = .ok (st.emit (.Jump l)) ∧
    assemble (fuel + 1) env (.Break sp) none st =
      .error (.Compile (.UnsupportedFeature ("Break")) sp) := by
  exact ⟨rfl, rfl⟩

/-- C7: the synthesized defaults for uninitialized locals: `Bool` gives
`Assign, Local, FalseConst`; `Ref` gives `Assign, Local, Null`; `WeakRef`
gives `Assign, Local, WeakRefNull`; a dynamic array gives
`ArrayClear(typeIdx)` then `Local(slot)`; an enum with no members emits
nothing. -/
theorem c7_default_initializers (env : Env) (slot p a e : Nat) (t : TypeId) (st : Asm) :
    (env.defName p = some TypeName.BOOL →
      emit_initializer env slot (.Prim p) st =
        .ok (((st.emit .Assign).emit (.Local slot)).emit .FalseConst)) ∧
    (emit_initializer env slot (.Ref t) st =
      .ok (((st.emit .Assign).emit (.Local slot)).emit .Null)) ∧
    (emit_initializer env slot (.WeakRef t) st =
      .ok (((st.emit .Assign).emit (.Local slot)).emit .WeakRefNull)) ∧
    (env.getTypeIndex (.Array t) = some a →
      emit_initializer env slot (.Array t) st =
        .ok ((st.emit (.ArrayClear a)).emit (.Local slot))) ∧
    (env.enumMembers e = some ([]) →
      emit_initializer env slot (.Enum e) st = .ok st) := by
  refine ⟨fun h => ?_, ?_, ?_, fun h => ?_, fun h => ?_⟩
  · simp [emit_initializer, get_initializer, h]
  · simp [emit_initializer, get_initializer]
  · simp [emit_initializer, get_initializer]
  · simp [emit_initializer, h]
  · simp [emit_initializer, get_initializer, h]

/-- Witness for C7 at a concrete oracle, slot and state. -/
theorem c7_default_initializers_witness :
    emit_initializer boolPoolEnv 4 (.Prim 0) { instructions := [], labels := 0 } =
      .ok { instructions := [.Assign, .Local 4, .FalseConst], labels := 0 } ∧
    emit_initializer boolPoolEnv 4 (.Enum 0) { instructions := [], labels := 0 } =
      .ok { instructions := [], labels := 0 } := by
  have h := c7_default_initializers boolPoolEnv 4 0 0 0 .Variant
    { instructions := [], labels := 0 }
  exact ⟨h.1 rfl, h.2.2.2.2 rfl⟩

theorem isTarget_map {A B : Type} (f : A → B) (i : Instr A) :
    (i.map f).isTarget = i.isTarget := by
  cases i <;> rfl

theorem resolve_instr_isTarget {locs : List Nat} {loc : Nat} {i : Instr Nat}
    {j : Instr Int} (h : resolve_instr locs loc i = some j) : j.isTarget = i.isTarget := by
  unfold resolve_instr at h
  split at h
  · cases h
    exact isTarget_map _ i
  · cases h

theorem resolve_all_length {locs : List Nat} :
    ∀ {ps : List (Nat × Instr Nat)} {out : List (Instr Int)},
      resolve_all locs ps = some out → out.length = ps.length := by
  intro ps
  induction ps with
  | nil =>
    intro out h
    cases h
    rfl
  | cons p rest ih =>
    intro out h
    unfold resolve_all at h
    cases hr : resolve_instr locs p.1 p.2 with
    | none => rw [hr] at h; cases h
    | some j =>
      rw [hr] at h
      cases ha : resolve_all locs rest with
      | none => rw [ha] at h; cases h
      | some js =>
        rw [ha] at h
        cases h
        simp [ih ha]

theorem resolve_all_mem {locs : List Nat} :
    ∀ {ps : List (Nat × Instr Nat)} {out : List (Instr Int)},
      resolve_all locs ps = some out →
      ∀ j ∈ out, ∃ p ∈ ps, resolve_instr locs p.1 p.2 = some j := by
  intro ps
  induction ps with
  | nil =>
    intro out h j hj
    cases h
    cases hj
  | cons p rest ih =>
    intro out h j hj
    unfold resolve_all at h
    cases hr : resolve_instr locs p.1 p.2 with
    | none => rw [hr] at h; cases h
    | some i =>
      rw [hr] at h
      cases ha : resolve_all locs rest with
      | none => rw [ha] at h; cases h
      | some js =>
        rw [ha] at h
        cases h
        rcases List.mem_cons.mp hj with hj | hj
        · exact ⟨p, List.mem_cons_self p rest, by rw [hr, hj]⟩
        · obtain ⟨q, hq, hres⟩ := ih ha j hj
          exact ⟨q, List.mem_cons_of_mem p hq, hres⟩

theorem with_locations_map_snd (size : Instr Nat → Nat) :
    ∀ (l : List (Instr Nat)) (n : Nat), (with_locations size l n).map Prod.snd = l := by
  intro l
  induction l with
  | nil => intro n; rfl
  | cons i rest ih =>
    intro n
    simp [with_locations, ih]

theorem countP_not_add {α : Type} (p : α → Bool) (l : List α) :
    l.countP (fun a => !(p a)) + l.countP p = l.length := by
  induction l with
  | nil => rfl
  | cons a t ih => by_cases h : p a <;> simp [List.countP_cons, h] <;> omega

/-- C2: whenever `into_code` resolves a labeled buffer, the resolved code
contains no `Target` pseudo-instructions and its length is the labeled
buffer's length minus the number of `Target` entries in it. -/
theorem c2_resolution_totality (size : Instr Nat → Nat) (asm : Asm)
    (resolved : List (Instr Int)) (h : into_code size asm = some resolved) :
    (∀ i ∈ resolved, i.isTarget = false) ∧
    resolved.length = asm.instructions.length - countTargets asm.instructions := by
  cases hcol : collect_targets asm.labels (with_locations size asm.instructions 0) with
  | none => simp [into_code, hcol] at h
  | some locs =>
    simp only [into_code, hcol, Option.bind_eq_bind, Option.some_bind] at h
    constructor
    · intro i hi
      obtain ⟨p, hp, hres⟩ := resolve_all_mem h i hi
      have hp2 := (List.mem_filter.mp hp).2
      have : p.2.isTarget = false := by
        cases hb : p.2.isTarget
        · rfl
        · rw [hb] at hp2; cases hp2
      rw [resolve_instr_isTarget hres, this]
    · have hlen := resolve_all_length h
      rw [hlen]
      have hfl : (List.filter (fun p => !p.2.isTarget)
          (with_locations size asm.instructions 0)).length =
          List.countP (fun p => !p.2.isTarget) (with_locations size asm.instructions 0) :=
        (List.countP_eq_length_filter _ _).symm
      rw [hfl]
      have hmap : List.countP (fun p : Nat × Instr Nat => !p.2.isTarget)
          (with_locations size asm.instructions 0) =
          List.countP (fun i : Instr Nat => !i.isTarget) asm.instructions := by
        conv_rhs => rw [← with_locations_map_snd size asm.instructions 0]
        rw [List.countP_map]
        rfl
      rw [hmap]
      have := countP_not_add (fun i : Instr Nat => i.isTarget) asm.instructions
      unfold countTargets
      omega

/-- Witness for C2 at a concrete buffer: one `Target`, one branch, one
plain instruction. -/
theorem c2_resolution_totality_witness :
    (∀ i ∈ [Instr.Jump (-1 : Int), Instr.Nop], i.isTarget = false) ∧
    ([Instr.Jump (-1 : Int), Instr.Nop]).length =
      ([Instr.Target 0, Instr.Jump 0, Instr.Nop] : List (Instr Nat)).length -
        countTargets [Instr.Target 0, Instr.Jump 0, Instr.Nop] :=
  c2_resolution_totality (fun _ => 1)
    { instructions := [.Target 0, .Jump 0, .Nop], labels := 1 }
    [Instr.Jump (-1 : Int), Instr.Nop] rfl

/-- C3 is false on the code: this buffer's `Jump` operand label `0` has no
matching `Target` (a dangling label), yet `into_code` produces resolved
code (resolving the label against location 0) instead of reporting any
error. -/
theorem c3_counterexample :
    (0 : Nat) ∈ opsOf [.Jump 0, .Nop] ∧ countT [.Jump 0, .Nop] 0 = 0 ∧
    into_code (fun _ => 1) { instructions := [.Jump 0, .Nop], labels := 1 } =
      some [.Jump (0 : Int), .Nop] := by
  refine ⟨?_, rfl, rfl⟩
  simp [opsOf, Instr.branchLabels]

theorem target_update_some {labels : Nat} {locs0 : List Nat} {p : Nat × Instr Nat}
    (hlen : locs0.length = labels) (h : ∀ x : Nat, p.2 = .Target x → x < labels) :
    ∃ locs1, target_update locs0 p = some locs1 ∧ locs1.length = labels := by
  unfold target_update
  split
  · next l heq =>
    have hx : l < labels := h l heq
    rw [if_pos (by omega)]
    exact ⟨_, rfl, by rw [List.length_set]; exact hlen⟩
  · exact ⟨locs0, rfl, hlen⟩

theorem collect_targets_some (labels : Nat) :
    ∀ (ps : List (Nat × Instr Nat)) (locs0 : List Nat), locs0.length = labels →
      (∀ p ∈ ps, ∀ x : Nat, p.2 = .Target x → x < labels) →
      ∃ locs, ps.foldlM target_update locs0 = some locs ∧ locs.length = labels := by
  intro ps
  induction ps with
  | nil =>
    intro locs0 hlen h
    exact ⟨locs0, rfl, hlen⟩
  | cons p rest ih =>
    intro locs0 hlen h
    obtain ⟨locs1, hl1, hlen1⟩ := target_update_some hlen
      (fun x hx => h p (List.mem_cons_self p rest) x hx)
    obtain ⟨locs, hfold, hlenf⟩ := ih locs1 hlen1
      (fun q hq x hx => h q (List.mem_cons_of_mem p hq) x hx)
    refine ⟨locs, ?_, hlenf⟩
    rw [List.foldlM_cons, hl1]
    exact hfold

theorem resolve_all_some (locs : List Nat) :
    ∀ (ps : List (Nat × Instr Nat)),
      (∀ p ∈ ps, ∀ l ∈ (p.2 : Instr Nat).branchLabels, l < locs.length) →
      ∃ out, resolve_all locs ps = some out := by
  intro ps
  induction ps with
  | nil => exact fun _ => ⟨[], rfl⟩
  | cons p rest ih =>
    intro h
    have h1 : resolve_instr locs p.1 p.2 =
        some (p.2.map fun l => ((locs.getD l 0 : Nat) : Int) - (p.1 : Int)) := by
      unfold resolve_instr
      rw [if_pos]
      simp only [List.all_eq_true, decide_eq_true_eq]
      exact fun l hl => h p (List.mem_cons_self p rest) l hl
    obtain ⟨out, hout⟩ := ih (fun q hq => h q (List.mem_cons_of_mem p hq))
    refine ⟨(p.2.map fun l => ((locs.getD l 0 : Nat) : Int) - (p.1 : Int)) :: out, ?_⟩
    unfold resolve_all
    rw [h1, hout]

/-- C3 amended: label resolution is total on label-counter-consistent
buffers whether or not labels dangle — a dangling branch operand resolves
against location 0 and no internal compiler error is reported. -/
theorem c3_amended_resolution_total (size : Instr Nat → Nat) (asm : Asm)
    (hT : ∀ i ∈ asm.instructions, ∀ x : Nat, i = .Target x → x < asm.labels)
    (hB : ∀ i ∈ asm.instructions, ∀ l ∈ i.branchLabels, l < asm.labels) :
    ∃ resolved, into_code size asm = some resolved := by
  have hmem : ∀ p ∈ with_locations size asm.instructions 0, p.2 ∈ asm.instructions := by
    intro p hp
    have := List.mem_map_of_mem Prod.snd hp
    rwa [with_locations_map_snd] at this
  obtain ⟨locs, hfold, hlen⟩ := collect_targets_some asm.labels
    (with_locations size asm.instructions 0) (List.replicate asm.labels 0)
    (List.length_replicate _ _)
    (fun p hp x hx => hT p.2 (hmem p hp) x hx)
  obtain ⟨out, hout⟩ := resolve_all_some locs
    ((with_locations size asm.instructions 0).filter fun p => !p.2.isTarget)
    (by
      intro p hp l hl
      have hpm := (List.mem_filter.mp hp).1
      rw [hlen]
      exact hB p.2 (hmem p hpm) l hl)
  refine ⟨out, ?_⟩
  have hcol : collect_targets asm.labels (with_locations size asm.instructions 0) = some locs :=
    hfold
  simp only [into_code, hcol, Option.bind_eq_bind, Option.some_bind]
  exact hout

/-- Witness for the amended C3 at the dangling-label buffer of the
counterexample. -/
theorem c3_amended_resolution_total_witness :
    ∃ resolved,
      into_code (fun _ => 1) { instructions := [.Jump 0, .Nop], labels := 1 } =
        some resolved := by
  refine c3_amended_resolution_total (fun _ => 1)
    { instructions := [.Jump 0, .Nop], labels := 1 } ?_ ?_
  · intro i hi x hx
    rcases List.mem_cons.mp hi with h | h
    · rw [h] at hx; cases hx
    · rcases List.mem_cons.mp h with h | h
      · rw [h] at hx; cases hx
      · cases h
  · intro i hi l hl
    rcases List.mem_cons.mp hi with h | h
    · rw [h] at hl
      simp [Instr.branchLabels] at hl
      show l < 1
      omega
    · rcases List.mem_cons.mp h with h | h
      · rw [h] at hl
        simp [Instr.branchLabels] at hl
      · cases h

theorem is_rvalue_ref_spec (env : Env) (a : Expr) :
    (is_rvalue_ref env a).getD false = true ↔ RvalueRefSpec env a := by
  cases htype : env.typeOf a with
  | none => simp [is_rvalue_ref, htype, RvalueRefSpec]
  | some t =>
    cases t <;> try (simp [is_rvalue_ref, htype, RvalueRefSpec]; done)
    next inner =>
    cases a <;> try (simp [is_rvalue_ref, htype, RvalueRefSpec]; done)
    next c cargs csp =>
    cases c <;> try (simp [is_rvalue_ref, htype, RvalueRefSpec]; done)
    next op ret =>
    cases op <;> try (simp [is_rvalue_ref, htype, RvalueRefSpec]; done)
    cases hx : cargs.head? with
    | none => simp [is_rvalue_ref, htype, RvalueRefSpec, hx]
    | some x =>
      cases hpx : env.isPrvalue x <;>
        simp [is_rvalue_ref, htype, RvalueRefSpec, hx, hpx]

theorem flags_go_testBit (env : Env) :
    ∀ (args : List Expr) (n flags out : Nat),
      compute_invoke_flags_go env n flags args = some out →
      ∀ k, out.testBit k =
        (flags.testBit k ||
          (decide (n ≤ k) &&
            (match args[k - n]? with
             | some a => (is_rvalue_ref env a).getD false
             | none => false))) := by
  intro args
  induction args with
  | nil =>
    intro n flags out h k
    cases h
    simp
  | cons a rest ih =>
    intro n flags out h k
    unfold compute_invoke_flags_go at h
    by_cases hrv : (is_rvalue_ref env a).getD false
    · rw [if_pos hrv] at h
      by_cases hn : 16 ≤ n
      · rw [if_pos hn] at h; cases h
      · rw [if_neg hn] at h
        have := ih (n + 1) (flags ||| (1 <<< n)) out h k
        rw [this]
        have hshift : (1 <<< n : Nat) = 2 ^ n := by
          rw [Nat.shiftLeft_eq, one_mul]
        rcases Nat.lt_trichotomy k n with hk | hk | hk
        · have h1 : (n ≤ k) = False := by simp; omega
          have h2 : (n + 1 ≤ k) = False := by simp; omega
          simp only [Nat.testBit_or, h1, h2, decide_False, Bool.false_and, Bool.or_false]
          rw [hshift, Nat.testBit_two_pow_of_ne (by omega), Bool.or_false]
        · subst hk
          have h1 : k - k = 0 := by omega
          simp only [Nat.testBit_or, h1, List.getElem?_cons_zero]
          rw [hshift, Nat.testBit_two_pow_self]
          simp [hrv]
        · have h1 : (n ≤ k) = True := by simp; omega
          have h2 : (n + 1 ≤ k) = True := by simp; omega
          have h3 : k - n = (k - (n + 1)) + 1 := by omega
          simp only [Nat.testBit_or, h1, h2, decide_True, Bool.true_and, h3,
            List.getElem?_cons_succ]
          rw [hshift, Nat.testBit_two_pow_of_ne (by omega), Bool.or_false]
    · rw [if_neg hrv] at h
      have := ih (n + 1) flags out h k
      rw [this]
      rcases Nat.lt_trichotomy k n with hk | hk | hk
      · have h1 : (n ≤ k) = False := by simp; omega
        have h2 : (n + 1 ≤ k) = False := by simp; omega
        simp [h1, h2]
      · subst hk
        have h1 : k - k = 0 := by omega
        have h2 : (k + 1 ≤ k) = False := by simp
        have hrvf : (is_rvalue_ref env a).getD false = false := by
          cases hb : (is_rvalue_ref env a).getD false
          · rfl
          · exact absurd hb hrv
        simp [h1, h2, hrvf]
      · have h1 : (n ≤ k) = True := by simp; omega
        have h2 : (n + 1 ≤ k) = True := by simp; omega
        have h3 : k - n = (k - (n + 1)) + 1 := by omega
        simp [h1, h2, h3]

/-- C4: the `invoke_flags` bitmask of a call site, whenever it is
computed without overflow, has bit `n` set exactly when argument `n`
exists, its type is `ScriptRef<T>`, and it is not a direct `AsRef(x)`
intrinsic call whose operand `x` is an l-value; arguments of any other
type (or whose type cannot be computed) leave their bit clear. -/
theorem c4_invoke_flags (env : Env) (args : List Expr) (flags : Nat)
    (h : compute_invoke_flags env args = some flags) :
    ∀ n, flags.testBit n = true ↔ ∃ a, args[n]? = some a ∧ RvalueRefSpec env a := by
  intro n
  have := flags_go_testBit env args 0 0 flags h n
  rw [this]
  simp only [Nat.zero_testBit, Bool.false_or, Nat.zero_le, decide_True, Bool.true_and,
    Nat.sub_zero]
  cases hn : args[n]? with
  | none =>
    simp only []
    constructor
    · intro h2; cases h2
    · rintro ⟨a, ha, -⟩
      cases ha
  | some a =>
    simp only []
    rw [is_rvalue_ref_spec]
    constructor
    · intro h2
      exact ⟨a, rfl, h2⟩
    · rintro ⟨b, hb, hspec⟩
      cases hb
      exact hspec

/-- Witness for C4 at a concrete call: a `ScriptRef`-typed first argument
and a plain second argument give the bitmask `0b01`. -/
theorem c4_invoke_flags_witness :
    (compute_invoke_flags callEnv [.Null 0, .This 0] = some 1) ∧
    (Nat.testBit 1 0 = true ↔
      ∃ a, ([Expr.Null 0, Expr.This 0][0]? = some a) ∧ RvalueRefSpec callEnv a) :=
  ⟨rfl, c4_invoke_flags callEnv [.Null 0, .This 0] 1 rfl 0⟩

theorem flags_go_overflow (env : Env) :
    ∀ (args : List Expr) (n flags : Nat),
      (∃ k a, args[k]? = some a ∧ 16 ≤ n + k ∧ (is_rvalue_ref env a).getD false = true) →
      compute_invoke_flags_go env n flags args = none := by
  intro args
  induction args with
  | nil =>
    rintro n flags ⟨k, a, hk, -, -⟩
    cases hk
  | cons b rest ih =>
    rintro n flags ⟨k, a, hk, hge, hrv⟩
    unfold compute_invoke_flags_go
    by_cases hb : (is_rvalue_ref env b).getD false
    · rw [if_pos hb]
      by_cases hn : 16 ≤ n
      · rw [if_pos hn]
      · rw [if_neg hn]
        apply ih
        cases k with
        | zero => omega
        | succ j =>
          rw [List.getElem?_cons_succ] at hk
          exact ⟨j, a, hk, by omega, hrv⟩
    · rw [if_neg hb]
      apply ih
      cases k with
      | zero =>
        rw [List.getElem?_cons_zero] at hk
        cases hk
        exact absurd hrv hb
      | succ j =>
        rw [List.getElem?_cons_succ] at hk
        exact ⟨j, a, hk, by omega, hrv⟩

theorem flags_go_total (env : Env) :
    ∀ (args : List Expr) (n flags : Nat),
      (∀ k a, args[k]? = some a → 16 ≤ n + k → (is_rvalue_ref env a).getD false = false) →
      ∃ out, compute_invoke_flags_go env n flags args = some out := by
  intro args
  induction args with
  | nil => exact fun n flags _ => ⟨flags, rfl⟩
  | cons b rest ih =>
    intro n flags h
    unfold compute_invoke_flags_go
    by_cases hb : (is_rvalue_ref env b).getD false
    · rw [if_pos hb]
      have hn : ¬(16 ≤ n) := by
        intro hge
        have := h 0 b (List.getElem?_cons_zero) (by omega)
        rw [this] at hb
        cases hb
      rw [if_neg hn]
      exact ih (n + 1) (flags ||| (1 <<< n))
        (fun k a hk hge => h (k + 1) a (by rw [List.getElem?_cons_succ]; exact hk) (by omega))
    · rw [if_neg hb]
      exact ih (n + 1) flags
        (fun k a hk hge => h (k + 1) a (by rw [List.getElem?_cons_succ]; exact hk) (by omega))

/-- C10: the `invoke_flags` computation is total only for rvalue-ref
arguments at positions 0 through 15: an rvalue-ref `ScriptRef` argument
at position 16 or beyond makes `assemble_call` abort with the left-shift
overflow panic instead of returning a compile error, and when no such
argument exists the bitmask computation succeeds. -/
theorem c10_invoke_flags_overflow (env : Env) (fn : Fn) (pf : List ParamFlags)
    (fuel function_idx : Nat) (args : List Expr) (force_static : Bool) (sp : Span) (st : Asm)
    (hfn : env.function function_idx = some fn)
    (hpf : params_lookup env fn.parameters = some pf) :
    ((∃ k a, args[k]? = some a ∧ 16 ≤ k ∧ (is_rvalue_ref env a).getD false = true) →
      assemble_call (fuel + 1) env function_idx args force_static sp st =
        .error (.Crash ("attempt to shift left with overflow"))) ∧
    ((∀ k a, args[k]? = some a → 16 ≤ k → (is_rvalue_ref env a).getD false = false) →
      ∃ out, compute_invoke_flags env args = some out) := by
  constructor
  · rintro ⟨k, a, hk, hge, hrv⟩
    have hnone : compute_invoke_flags env args = none :=
      flags_go_overflow env args 0 0 ⟨k, a, hk, by omega, hrv⟩
    simp [assemble_call, hfn, hpf, hnone]
  · intro h
    exact flags_go_total env args 0 0 (fun k a hk hge => h k a hk (by omega))

theorem emit_instructions (st : Asm) (i : Instr Nat) :
    (st.emit i).instructions = st.instructions ++ [i] := rfl

theorem emit_labels (st : Asm) (i : Instr Nat) : (st.emit i).labels = st.labels := rfl

theorem opsOf_single (i : Instr Nat) : opsOf [i] = i.branchLabels := by
  simp [opsOf]

theorem AsmStep.refl (e : Option Nat) (st : Asm) : AsmStep e st st :=
  ⟨Nat.le_refl _, [], by simp, Good.nil (Nat.le_refl _) e⟩

theorem AsmStep.relax {st st' : Asm} (h : AsmStep none st st') (e : Option Nat) :
    AsmStep e st st' := by
  obtain ⟨hl, code, hc, g⟩ := h
  exact ⟨hl, code, hc, g.weaken e⟩

theorem AsmStep.trans {e : Option Nat} {st1 st2 st3 : Asm}
    (hexit : ∀ x, e = some x → x < st1.labels)
    (h1 : AsmStep e st1 st2) (h2 : AsmStep e st2 st3) : AsmStep e st1 st3 := by
  obtain ⟨hl1, c1, hi1, g1⟩ := h1
  obtain ⟨hl2, c2, hi2, g2⟩ := h2
  exact ⟨Nat.le_trans hl1 hl2, c1 ++ c2, by rw [hi2, hi1, List.append_assoc],
    g1.append g2 hexit⟩

theorem AsmStep.of_plain {st st' : Asm} {code : List (Instr Nat)}
    (hlab : st'.labels = st.labels) (hins : st'.instructions = st.instructions ++ code)
    (hcount : ∀ lab, countT code lab = 0) (hops : opsOf code = []) (e : Option Nat) :
    AsmStep e st st' := by
  refine ⟨by omega, code, hins, by omega, ?_, fun lab => by rw [hcount lab]; omega, ?_⟩
  · intro lab h0
    rw [hcount lab] at h0
    omega
  · intro lab hmem
    rw [hops] at hmem
    cases hmem

/-- A single emitted instruction that is neither a `Target` nor a branch
is a plain assembly step. -/
theorem AsmStep.of_emit {st : Asm} {i : Instr Nat} (htarget : ∀ x, i ≠ .Target x)
    (hops : i.branchLabels = []) (e : Option Nat) : AsmStep e st (st.emit i) := by
  refine @AsmStep.of_plain st (st.emit i) [i] rfl rfl (countT_plain htarget) ?_ e
  rw [opsOf_single, hops]

/-- Count over a cons cell, split into the head singleton. -/
theorem countT_cons2 (i : Instr Nat) (l : List (Instr Nat)) (lab : Nat) :
    countT (i :: l) lab = (if Instr.targetsAt lab i then 1 else 0) + countT l lab := by
  simp [countT, List.countP_cons]
  omega

theorem osb_cons (i : Instr Nat) (l : List (Instr Nat)) (lab : Nat) :
    only_switch_body (i :: l) lab =
      (only_switch_body [i] lab && only_switch_body l lab) := by
  simp [only_switch_body]

theorem mem_opsOf_append {lab : Nat} {a b : List (Instr Nat)} :
    lab ∈ opsOf (a ++ b) ↔ lab ∈ opsOf a ∨ lab ∈ opsOf b := by
  rw [opsOf_append]
  exact List.mem_append

theorem Good.wrap {c h1 : Nat} {e : Option Nat} {code mid : List (Instr Nat)}
    (g : Good (c + 1) h1 e code) (B : Instr Nat) (hB : B.branchLabels = [c])
    (hBt : ∀ x, B ≠ .Target x)
    (hmid_t : ∀ lab, countT mid lab = 0) (hmid_o : opsOf mid = [])
    (hexit : ∀ x, e = some x → x < c) :
    Good c h1 e ([B] ++ code ++ mid ++ [.Target c]) := by
  have hch := g.lo_le_hi
  have hBc : ∀ lab, countT [B] lab = 0 := countT_plain hBt
  have hcount : ∀ lab, countT ([B] ++ code ++ mid ++ [.Target c]) lab =
      countT code lab + (if c = lab then 1 else 0) := by
    intro lab
    rw [countT_append, countT_append, countT_append, countT_target, hBc, hmid_t]
    omega
  have hops : ∀ lab, lab ∈ opsOf ([B] ++ code ++ mid ++ [.Target c]) ↔
      (lab = c ∨ lab ∈ opsOf code) := by
    intro lab
    rw [mem_opsOf_append, mem_opsOf_append, mem_opsOf_append, opsOf_single,
      opsOf_single, hB, hmid_o]
    simp [Instr.branchLabels]
  refine ⟨by omega, ?_, ?_, ?_⟩
  · intro lab h0
    rw [hcount] at h0
    by_cases hc : c = lab
    · exact ⟨by omega, by omega⟩
    · rw [if_neg hc] at h0
      obtain ⟨hx1, hx2⟩ := g.target_range lab (by omega)
      exact ⟨by omega, hx2⟩
  · intro lab
    rw [hcount]
    have hu := g.target_uniq lab
    by_cases hc : c = lab
    · have hz : countT code lab = 0 := g.countT_zero (Or.inl (by omega))
      rw [hz, if_pos hc]
    · rw [if_neg hc]
      omega
  · intro lab hmem
    rw [hops] at hmem
    rcases hmem with rfl | hmem
    · refine Or.inr (Or.inl ?_)
      have hz : countT code lab = 0 := g.countT_zero (Or.inl (by omega))
      rw [hcount, hz, if_pos rfl]
    · rcases g.ops_ok lab hmem with h | h | h
      · exact Or.inl h
      · refine Or.inr (Or.inl ?_)
        rw [hcount]
        have hb := g.target_range lab (by omega)
        rw [if_neg (by omega)]
        omega
      · obtain ⟨hz, hlo, hhi, hosb⟩ := h
        refine Or.inr (Or.inr ⟨?_, by omega, hhi, ?_⟩)
        · rw [hcount, if_neg (by omega)]
          omega
        · have h1 : only_switch_body [B] lab = true :=
            osb_of_not_mem (by rw [opsOf_single, hB]; simp; omega)
          have h2 : only_switch_body mid lab = true :=
            osb_of_not_mem (by rw [hmid_o]; simp)
          have h3 : only_switch_body [Instr.Target c] lab = true :=
            osb_of_not_mem (by rw [opsOf_single]; simp [Instr.branchLabels])
          rw [osb_append, osb_append, osb_append, h1, h2, h3, hosb]
          rfl

theorem Good.loop_wrap {c h2 : Nat} {code : List (Instr Nat)}
    (g : Good (c + 2) h2 (some c) code) (e : Option Nat) :
    Good c h2 e ([.Target (c + 1)] ++ [.JumpIfFalse c] ++ code ++
      [.Jump (c + 1)] ++ [.Target c]) := by
  have hch := g.lo_le_hi
  have hJ : ∀ lab, countT [Instr.JumpIfFalse c] lab = 0 :=
    countT_plain (fun x h => nomatch h)
  have hJ2 : ∀ lab, countT [Instr.Jump (c + 1)] lab = 0 :=
    countT_plain (fun x h => nomatch h)
  have hcount : ∀ lab, countT ([Instr.Target (c + 1)] ++ [Instr.JumpIfFalse c] ++ code ++
      [Instr.Jump (c + 1)] ++ [Instr.Target c]) lab =
      (if c + 1 = lab then 1 else 0) + countT code lab + (if c = lab then 1 else 0) := by
    intro lab
    rw [countT_append, countT_append, countT_append, countT_append,
      countT_target, countT_target, hJ, hJ2]
    omega
  have hops : ∀ lab, lab ∈ opsOf ([Instr.Target (c + 1)] ++ [Instr.JumpIfFalse c] ++ code ++
      [Instr.Jump (c + 1)] ++ [Instr.Target c]) ↔
      (lab = c ∨ lab = c + 1 ∨ lab ∈ opsOf code) := by
    intro lab
    rw [mem_opsOf_append, mem_opsOf_append, mem_opsOf_append, mem_opsOf_append,
      opsOf_single, opsOf_single, opsOf_single, opsOf_single]
    simp [Instr.branchLabels]
    tauto
  refine ⟨by omega, ?_, ?_, ?_⟩
  · intro lab h0
    rw [hcount] at h0
    by_cases hl1 : c + 1 = lab
    · exact ⟨by omega, by omega⟩
    · by_cases hl2 : c = lab
      · exact ⟨by omega, by omega⟩
      · rw [if_neg hl1, if_neg hl2] at h0
        obtain ⟨hx1, hx2⟩ := g.target_range lab (by omega)
        exact ⟨by omega, hx2⟩
  · intro lab
    rw [hcount]
    have hu := g.target_uniq lab
    by_cases hl1 : c + 1 = lab
    · have hz : countT code lab = 0 := g.countT_zero (Or.inl (by omega))
      rw [hz, if_pos hl1, if_neg (by omega)]
    · by_cases hl2 : c = lab
      · have hz : countT code lab = 0 := g.countT_zero (Or.inl (by omega))
        rw [hz, if_pos hl2, if_neg hl1]
      · rw [if_neg hl1, if_neg hl2]
        omega
  · intro lab hmem
    rw [hops] at hmem
    rcases hmem with hlc | hlc | hmem
    · refine Or.inr (Or.inl ?_)
      have hz : countT code lab = 0 := g.countT_zero (Or.inl (by omega))
      rw [hcount, hz, if_neg (by omega), if_pos (by omega)]
    · refine Or.inr (Or.inl ?_)
      have hz : countT code lab = 0 := g.countT_zero (Or.inl (by omega))
      rw [hcount, hz, if_pos (by omega), if_neg (by omega)]
    · rcases g.ops_ok lab hmem with h | h | h
      · have hlc : c = lab := Option.some.inj h
        refine Or.inr (Or.inl ?_)
        have hz : countT code lab = 0 := g.countT_zero (Or.inl (by omega))
        rw [hcount, hz, if_neg (by omega), if_pos (by omega)]
      · refine Or.inr (Or.inl ?_)
        obtain ⟨hx1, hx2⟩ := g.target_range lab (by omega)
        rw [hcount, if_neg (by omega), if_neg (by omega)]
        omega
      · obtain ⟨hz, hlo, hhi, hosb⟩ := h
        refine Or.inr (Or.inr ⟨?_, by omega, hhi, ?_⟩)
        · rw [hcount, hz, if_neg (by omega), if_neg (by omega)]
        · have o1 : only_switch_body [Instr.Target (c + 1)] lab = true :=
            osb_of_not_mem (by rw [opsOf_single]; simp [Instr.branchLabels])
          have o2 : only_switch_body [Instr.JumpIfFalse c] lab = true :=
            osb_of_not_mem (by rw [opsOf_single]; simp [Instr.branchLabels]; omega)
          have o3 : only_switch_body [Instr.Jump (c + 1)] lab = true :=
            osb_of_not_mem (by rw [opsOf_single]; simp [Instr.branchLabels]; omega)
          have o4 : only_switch_body [Instr.Target c] lab = true :=
            osb_of_not_mem (by rw [opsOf_single]; simp [Instr.branchLabels])
          rw [osb_append, osb_append, osb_append, osb_append, o1, o2, o3, o4, hosb]
          rfl

theorem Good.cond_wrap {c h2 h3 : Nat} {a b : List (Instr Nat)}
    (g12 : Good (c + 2) h2 none a) (g3 : Good h2 h3 none b) (e : Option Nat) :
    Good c h3 e ([.Conditional c (c + 1)] ++ a ++ [.Target c] ++ b ++
      [.Target (c + 1)]) := by
  have hch := g12.lo_le_hi
  have hch2 := g3.lo_le_hi
  have hC : ∀ lab, countT [Instr.Conditional c (c + 1)] lab = 0 :=
    countT_plain (fun x h => nomatch h)
  have hza : ∀ lab, (lab < c + 2 ∨ h2 ≤ lab) → countT a lab = 0 := fun lab h =>
    g12.countT_zero h
  have hzb : ∀ lab, (lab < h2 ∨ h3 ≤ lab) → countT b lab = 0 := fun lab h =>
    g3.countT_zero h
  have hcount : ∀ lab, countT ([Instr.Conditional c (c + 1)] ++ a ++ [Instr.Target c] ++
      b ++ [Instr.Target (c + 1)]) lab =
      countT a lab + (if c = lab then 1 else 0) + countT b lab +
        (if c + 1 = lab then 1 else 0) := by
    intro lab
    rw [countT_append, countT_append, countT_append, countT_append,
      countT_target, countT_target, hC]
    omega
  have hops : ∀ lab, lab ∈ opsOf ([Instr.Conditional c (c + 1)] ++ a ++ [Instr.Target c] ++
      b ++ [Instr.Target (c + 1)]) ↔
      (lab = c ∨ lab = c + 1 ∨ lab ∈ opsOf a ∨ lab ∈ opsOf b) := by
    intro lab
    rw [mem_opsOf_append, mem_opsOf_append, mem_opsOf_append, mem_opsOf_append,
      opsOf_single, opsOf_single, opsOf_single]
    simp [Instr.branchLabels]
    tauto
  refine ⟨by omega, ?_, ?_, ?_⟩
  · intro lab h0
    rw [hcount] at h0
    by_cases hl1 : c = lab
    · exact ⟨by omega, by omega⟩
    · by_cases hl2 : c + 1 = lab
      · exact ⟨by omega, by omega⟩
      · rw [if_neg hl1, if_neg hl2] at h0
        rcases Nat.eq_zero_or_pos (countT a lab) with hh | hh
        · obtain ⟨hx1, hx2⟩ := g3.target_range lab (by omega)
          exact ⟨by omega, hx2⟩
        · obtain ⟨hx1, hx2⟩ := g12.target_range lab hh
          exact ⟨by omega, by omega⟩
  · intro lab
    rw [hcount]
    have ua := g12.target_uniq lab
    have ub := g3.target_uniq lab
    by_cases hl1 : c = lab
    · rw [hza lab (Or.inl (by omega)), hzb lab (Or.inl (by omega)),
        if_pos hl1, if_neg (by omega)]
    · by_cases hl2 : c + 1 = lab
      · rw [hza lab (Or.inl (by omega)), hzb lab (Or.inl (by omega)),
          if_pos hl2, if_neg hl1]
      · rw [if_neg hl1, if_neg hl2]
        rcases Nat.eq_zero_or_pos (countT a lab) with hh | hh
        · omega
        · obtain ⟨hx1, hx2⟩ := g12.target_range lab hh
          have : countT b lab = 0 := hzb lab (Or.inl (by omega))
          omega
  · intro lab hmem
    rw [hops] at hmem
    rcases hmem with hlc | hlc | hmem | hmem
    · refine Or.inr (Or.inl ?_)
      rw [hcount, hza lab (Or.inl (by omega)), hzb lab (Or.inl (by omega)),
        if_pos (by omega), if_neg (by omega)]
    · refine Or.inr (Or.inl ?_)
      rw [hcount, hza lab (Or.inl (by omega)), hzb lab (Or.inl (by omega)),
        if_neg (by omega), if_pos (by omega)]
    · rcases g12.ops_ok lab hmem with h | h | h
      · cases h
      · refine Or.inr (Or.inl ?_)
        obtain ⟨hx1, hx2⟩ := g12.target_range lab (by omega)
        rw [hcount, if_neg (by omega), if_neg (by omega), hzb lab (Or.inl (by omega))]
        omega
      · obtain ⟨hz, hlo, hhi, hosb⟩ := h
        refine Or.inr (Or.inr ⟨?_, by omega, by omega, ?_⟩)
        · rw [hcount, hz, if_neg (by omega), if_neg (by omega),
            hzb lab (Or.inl (by omega))]
        · have o1 : only_switch_body [Instr.Conditional c (c + 1)] lab = true :=
            osb_of_not_mem (by rw [opsOf_single]; simp [Instr.branchLabels]; omega)
          have o2 : only_switch_body [Instr.Target c] lab = true :=
            osb_of_not_mem (by rw [opsOf_single]; simp [Instr.branchLabels])
          have o3 : only_switch_body [Instr.Target (c + 1)] lab = true :=
            osb_of_not_mem (by rw [opsOf_single]; simp [Instr.branchLabels])
          have o4 : only_switch_body b lab = true := by
            refine osb_of_not_mem ?_
            intro hmb
            rcases g3.ops_range hmb with hx | hx
            · cases hx
            · omega
          rw [osb_append, osb_append, osb_append, osb_append, o1, o2, o3, o4, hosb]
          rfl
    · rcases g3.ops_ok lab hmem with h | h | h
      · cases h
      · refine Or.inr (Or.inl ?_)
        obtain ⟨hx1, hx2⟩ := g3.target_range lab (by omega)
        rw [hcount, if_neg (by omega), if_neg (by omega), hza lab (Or.inr (by omega))]
        omega
      · obtain ⟨hz, hlo, hhi, hosb⟩ := h
        refine Or.inr (Or.inr ⟨?_, by omega, by omega, ?_⟩)
        · rw [hcount, hz, if_neg (by omega), if_neg (by omega),
            hza lab (Or.inr (by omega))]
        · have o1 : only_switch_body [Instr.Conditional c (c + 1)] lab = true :=
            osb_of_not_mem (by rw [opsOf_single]; simp [Instr.branchLabels]; omega)
          have o2 : only_switch_body [Instr.Target c] lab = true :=
            osb_of_not_mem (by rw [opsOf_single]; simp [Instr.branchLabels])
          have o3 : only_switch_body [Instr.Target (c + 1)] lab = true :=
            osb_of_not_mem (by rw [opsOf_single]; simp [Instr.branchLabels])
          have o4 : only_switch_body a lab = true := by
            refine osb_of_not_mem ?_
            intro hma
            rcases g12.ops_range hma with hx | hx
            · cases hx
            · omega
          rw [osb_append, osb_append, osb_append, osb_append, o1, o2, o3, o4, hosb]
          rfl

theorem Good.ifelse_wrap {c d h3 : Nat} {e : Option Nat} {a b : List (Instr Nat)}
    (g1 : Good (c + 1) d e a) (g2 : Good (d + 1) h3 e b)
    (hexit : ∀ x, e = some x → x < c) :
    Good c h3 e ([.JumpIfFalse c] ++ a ++ [.Jump d] ++ [.Target c] ++ b ++
      [.Target d]) := by
  have hch := g1.lo_le_hi
  have hch2 := g2.lo_le_hi
  have hJ : ∀ lab, countT [Instr.JumpIfFalse c] lab = 0 :=
    countT_plain (fun x h => nomatch h)
  have hJ2 : ∀ lab, countT [Instr.Jump d] lab = 0 :=
    countT_plain (fun x h => nomatch h)
  have hza : ∀ lab, (lab < c + 1 ∨ d ≤ lab) → countT a lab = 0 := fun lab h =>
    g1.countT_zero h
  have hzb : ∀ lab, (lab < d + 1 ∨ h3 ≤ lab) → countT b lab = 0 := fun lab h =>
    g2.countT_zero h
  have hcount : ∀ lab, countT ([Instr.JumpIfFalse c] ++ a ++ [Instr.Jump d] ++
      [Instr.Target c] ++ b ++ [Instr.Target d]) lab =
      countT a lab + (if c = lab then 1 else 0) + countT b lab +
        (if d = lab then 1 else 0) := by
    intro lab
    rw [countT_append, countT_append, countT_append, countT_append, countT_append,
      countT_target, countT_target, hJ, hJ2]
    omega
  have hops : ∀ lab, lab ∈ opsOf ([Instr.JumpIfFalse c] ++ a ++ [Instr.Jump d] ++
      [Instr.Target c] ++ b ++ [Instr.Target d]) ↔
      (lab = c ∨ lab = d ∨ lab ∈ opsOf a ∨ lab ∈ opsOf b) := by
    intro lab
    rw [mem_opsOf_append, mem_opsOf_append, mem_opsOf_append, mem_opsOf_append,
      mem_opsOf_append, opsOf_single, opsOf_single, opsOf_single, opsOf_single]
    simp [Instr.branchLabels]
    tauto
  refine ⟨by omega, ?_, ?_, ?_⟩
  · intro lab h0
    rw [hcount] at h0
    by_cases hl1 : c = lab
    · exact ⟨by omega, by omega⟩
    · by_cases hl2 : d = lab
      · exact ⟨by omega, by omega⟩
      · rw [if_neg hl1, if_neg hl2] at h0
        rcases Nat.eq_zero_or_pos (countT a lab) with hh | hh
        · obtain ⟨hx1, hx2⟩ := g2.target_range lab (by omega)
          exact ⟨by omega, hx2⟩
        · obtain ⟨hx1, hx2⟩ := g1.target_range lab hh
          exact ⟨by omega, by omega⟩
  · intro lab
    rw [hcount]
    have ua := g1.target_uniq lab
    have ub := g2.target_uniq lab
    by_cases hl1 : c = lab
    · rw [hza lab (Or.inl (by omega)), hzb lab (Or.inl (by omega)),
        if_pos hl1, if_neg (by omega)]
    · by_cases hl2 : d = lab
      · rw [hza lab (Or.inr (by omega)), hzb lab (Or.inl (by omega)),
          if_pos hl2, if_neg hl1]
      · rw [if_neg hl1, if_neg hl2]
        rcases Nat.eq_zero_or_pos (countT a lab) with hh | hh
        · omega
        · obtain ⟨hx1, hx2⟩ := g1.target_range lab hh
          have : countT b lab = 0 := hzb lab (Or.inl (by omega))
          omega
  · intro lab hmem
    rw [hops] at hmem
    rcases hmem with hlc | hlc | hmem | hmem
    · refine Or.inr (Or.inl ?_)
      rw [hcount, hza lab (Or.inl (by omega)), hzb lab (Or.inl (by omega)),
        if_pos (by omega), if_neg (by omega)]
    · refine Or.inr (Or.inl ?_)
      rw [hcount, hza lab (Or.inr (by omega)), hzb lab (Or.inl (by omega)),
        if_neg (by omega), if_pos (by omega)]
    · rcases g1.ops_ok lab hmem with h | h | h
      · exact Or.inl h
      · refine Or.inr (Or.inl ?_)
        obtain ⟨hx1, hx2⟩ := g1.target_range lab (by omega)
        rw [hcount, if_neg (by omega), if_neg (by omega), hzb lab (Or.inl (by omega))]
        omega
      · obtain ⟨hz, hlo, hhi, hosb⟩ := h
        refine Or.inr (Or.inr ⟨?_, by omega, by omega, ?_⟩)
        · rw [hcount, hz, if_neg (by omega), if_neg (by omega),
            hzb lab (Or.inl (by omega))]
        · have o1 : only_switch_body [Instr.JumpIfFalse c] lab = true :=
            osb_of_not_mem (by rw [opsOf_single]; simp [Instr.branchLabels]; omega)
          have o2 : only_switch_body [Instr.Jump d] lab = true :=
            osb_of_not_mem (by rw [opsOf_single]; simp [Instr.branchLabels]; omega)
          have o3 : only_switch_body [Instr.Target c] lab = true :=
            osb_of_not_mem (by rw [opsOf_single]; simp [Instr.branchLabels])
          have o4 : only_switch_body [Instr.Target d] lab = true :=
            osb_of_not_mem (by rw [opsOf_single]; simp [Instr.branchLabels])
          have o5 : only_switch_body b lab = true := by
            refine osb_of_not_mem ?_
            intro hmb
            rcases g2.ops_range hmb with hx | hx
            · have := hexit lab hx
              omega
            · omega
          rw [osb_append, osb_append, osb_append, osb_append, osb_append,
            o1, o2, o3, o4, o5, hosb]
          rfl
    · rcases g2.ops_ok lab hmem with h | h | h
      · exact Or.inl h
      · refine Or.inr (Or.inl ?_)
        obtain ⟨hx1, hx2⟩ := g2.target_range lab (by omega)
        rw [hcount, if_neg (by omega), if_neg (by omega), hza lab (Or.inr (by omega))]
        omega
      · obtain ⟨hz, hlo, hhi, hosb⟩ := h
        refine Or.inr (Or.inr ⟨?_, by omega, by omega, ?_⟩)
        · rw [hcount, hz, if_neg (by omega), if_neg (by omega),
            hza lab (Or.inr (by omega))]
        · have o1 : only_switch_body [Instr.JumpIfFalse c] lab = true :=
            osb_of_not_mem (by rw [opsOf_single]; simp [Instr.branchLabels]; omega)
          have o2 : only_switch_body [Instr.Jump d] lab = true :=
            osb_of_not_mem (by rw [opsOf_single]; simp [Instr.branchLabels]; omega)
          have o3 : only_switch_body [Instr.Target c] lab = true :=
            osb_of_not_mem (by rw [opsOf_single]; simp [Instr.branchLabels])
          have o4 : only_switch_body [Instr.Target d] lab = true :=
            osb_of_not_mem (by rw [opsOf_single]; simp [Instr.branchLabels])
          have o5 : only_switch_body a lab = true := by
            refine osb_of_not_mem ?_
            intro hma
            rcases g1.ops_range hma with hx | hx
            · have := hexit lab hx
              omega
            · omega
          rw [osb_append, osb_append, osb_append, osb_append, osb_append,
            o1, o2, o3, o4, o5, hosb]
          rfl

/-- Witness for C10: a 17-argument call whose last argument is an
rvalue `ScriptRef` aborts with the shift-overflow panic. -/
theorem c10_invoke_flags_overflow_witness :
    assemble_call 1 callEnv 0
      [.This 0, .This 0, .This 0, .This 0, .This 0, .This 0, .This 0, .This 0,
       .This 0, .This 0, .This 0, .This 0, .This 0, .This 0, .This 0, .This 0,
       .Null 0] false 0 { instructions := [], labels := 0 } =
      .error (.Crash ("attempt to shift left with overflow")) :=
  (c10_invoke_flags_overflow callEnv
      { flags := ⟨false, false, false⟩, parameters := [0, 1] } [⟨false⟩, ⟨false⟩] 0 0
      _ false 0 { instructions := [], labels := 0 } rfl rfl).1
    ⟨16, .Null 0, rfl, by omega, rfl⟩


theorem stmt_seq_succ (n : Nat) (ihA : StmtAssemble n) (ihS : StmtSeq n) :
    StmtSeq (n + 1) := by
  intro env seq exit st st' hexit h
  cases seq with
  | nil =>
    simp only [assemble_seq] at h
    cases h
    exact AsmStep.refl exit st
  | cons e rest =>
    simp only [assemble_seq] at h
    obtain ⟨st1, h1, h2⟩ := exceptBind_ok.mp h
    have A1 := ihA env e exit st st1 hexit h1
    have A2 := ihS env rest exit st1 st'
      (fun x hx => Nat.lt_of_lt_of_le (hexit x hx) A1.1) h2
    exact AsmStep.trans hexit A1 A2

theorem stmt_list_succ (n : Nat) (ihA : StmtAssemble n) (ihL : StmtList n) :
    StmtList (n + 1) := by
  intro env args st st' h
  cases args with
  | nil =>
    simp only [assemble_list] at h
    cases h
    exact AsmStep.refl none st
  | cons a rest =>
    simp only [assemble_list] at h
    obtain ⟨st1, h1, h2⟩ := exceptBind_ok.mp h
    have A1 := ihA env a none st st1 (fun x hx => nomatch hx) h1
    have A2 := ihL env rest st1 st' h2
    exact AsmStep.trans (fun x hx => nomatch hx) A1 A2


theorem stmt_call_args_succ (n : Nat) (ihA : StmtAssemble n) (ihCA : StmtCallArgs n) :
    StmtCallArgs (n + 1) := by
  intro env args flags st st' h
  cases args with
  | nil =>
    simp only [assemble_call_args] at h
    cases h
    exact AsmStep.refl none st
  | cons arg args =>
    cases flags with
    | nil =>
      simp only [assemble_call_args] at h
      cases h
      exact AsmStep.refl none st
    | cons f flags =>
      simp only [assemble_call_args] at h
      by_cases hsc : f.isShortCircuit
      · rw [if_pos hsc] at h
        simp only [Asm.newLabel] at h
        obtain ⟨st1, h1, h2⟩ := exceptBind_ok.mp h
        have A1 := ihA env arg none _ st1 (fun x hx => nomatch hx) h1
        have A2 := ihCA env args flags _ st' h2
        obtain ⟨hl1, code1, hi1, g1⟩ := A1
        obtain ⟨hl2, code2, hi2, g2⟩ := A2
        have hg1 : Good (st.labels + 1) st1.labels none code1 := g1
        have hwrap : Good st.labels st1.labels none
            ([Instr.Skip st.labels] ++ code1 ++ [] ++ [Instr.Target st.labels]) :=
          hg1.wrap (Instr.Skip st.labels) rfl (fun x hx => nomatch hx)
            (fun lab => rfl) rfl (fun x hx => nomatch hx)
        refine ⟨?_, ([Instr.Skip st.labels] ++ code1 ++ [] ++ [Instr.Target st.labels]) ++ code2,
          ?_, ?_⟩
        · simp only [emit_labels, Asm.emitLabel] at hl1 hl2 ⊢
          omega
        · rw [hi2]
          simp only [Asm.emitLabel, emit_instructions, hi1]
          simp [emit_instructions, List.append_assoc]
        · refine Good.append hwrap ?_ (fun x hx => nomatch hx)
          have heq : (st1.emitLabel st.labels).labels = st1.labels := rfl
          rw [← heq]
          exact g2
      · rw [if_neg hsc] at h
        obtain ⟨st1, h1, h2⟩ := exceptBind_ok.mp h
        have A1 := ihA env arg none st st1 (fun x hx => nomatch hx) h1
        have A2 := ihCA env args flags st1 st' h2
        exact AsmStep.trans (fun x hx => nomatch hx) A1 A2

theorem emit_nops_plain : ∀ (k : Nat) (st : Asm),
    (emit_nops st k).labels = st.labels ∧
    ∃ code, (emit_nops st k).instructions = st.instructions ++ code ∧
      (∀ lab, countT code lab = 0) ∧ opsOf code = [] := by
  intro k
  induction k with
  | zero =>
    intro st
    exact ⟨rfl, [], by simp [emit_nops], fun lab => rfl, rfl⟩
  | succ m ih =>
    intro st
    obtain ⟨hl, code, hc, hcnt, hops⟩ := ih (st.emit .Nop)
    have hnop : ∀ lab2, countT [Instr.Nop] lab2 = 0 :=
      countT_plain (fun x hx => nomatch hx)
    refine ⟨by simp only [emit_nops]; rw [hl]; rfl,
      [Instr.Nop] ++ code, by simp only [emit_nops]; rw [hc]; simp [emit_instructions], ?_, ?_⟩
    · intro lab
      rw [countT_append, hcnt, hnop]
    · rw [opsOf_append, hops, opsOf_single]
      rfl

theorem invoke_instr_shape {env : Env} {fidx : Nat} {fn : Fn} {force : Bool}
    {c line flags : Nat} {inv : Instr Nat}
    (h : invoke_instr env fidx fn force c line flags = some inv) :
    inv.branchLabels = [c] ∧ ∀ x, inv ≠ .Target x := by
  unfold invoke_instr at h
  split at h
  · cases hd : env.definitionName fidx with
    | none => rw [hd] at h; cases h
    | some name =>
      rw [hd] at h
      simp only [Option.map_some'] at h
      cases h
      exact ⟨rfl, fun x hx => nomatch hx⟩
  · cases h
    exact ⟨rfl, fun x hx => nomatch hx⟩

theorem stmt_call_succ (n : Nat) (ihCA : StmtCallArgs n) : StmtCall (n + 1) := by
  intro env fidx args force sp st st' h
  cases hfn : env.function fidx with
  | none => simp [assemble_call, hfn] at h
  | some fn =>
    cases hpf : params_lookup env fn.parameters with
    | none => simp [assemble_call, hfn, hpf] at h
    | some pf =>
      cases hfl : compute_invoke_flags env args with
      | none => simp [assemble_call, hfn, hpf, hfl] at h
      | some flags =>
        cases hinv : invoke_instr env fidx fn force st.labels
            ((env.lookupLine sp).getD 0) flags with
        | none => simp [assemble_call, hfn, hpf, hfl, Asm.newLabel, hinv] at h
        | some inv =>
          simp only [assemble_call, hfn, hpf, hfl, Asm.newLabel, hinv] at h
          obtain ⟨st1, h1, h2⟩ := exceptBind_ok.mp h
          by_cases hlen : pf.length < args.length
          · rw [if_pos hlen] at h2
            cases h2
          · rw [if_neg hlen] at h2
            have h2' : st' = ((emit_nops st1 (pf.length - args.length)).emit
                .ParamEnd).emitLabel st.labels := by
              cases h2
              rfl
            have A1 := ihCA env args pf _ st1 h1
            obtain ⟨hl1, code1, hi1, g1⟩ := A1
            obtain ⟨hnl, nops, hni, hncnt, hnops⟩ :=
              emit_nops_plain (pf.length - args.length) st1
            obtain ⟨hbl, hbt⟩ := invoke_instr_shape hinv
            have hg1 : Good (st.labels + 1) st1.labels none code1 := g1
            have hpe : ∀ lab2, countT [Instr.ParamEnd] lab2 = 0 :=
              countT_plain (fun x hx => nomatch hx)
            have hwrap : Good st.labels st1.labels none
                ([inv] ++ code1 ++ (nops ++ [Instr.ParamEnd]) ++ [Instr.Target st.labels]) :=
              hg1.wrap inv hbl hbt
                (fun lab => by rw [countT_append, hncnt, hpe])
                (by rw [opsOf_append, hnops, opsOf_single]; rfl)
                (fun x hx => nomatch hx)
            refine ⟨?_, [inv] ++ code1 ++ (nops ++ [Instr.ParamEnd]) ++ [Instr.Target st.labels],
              ?_, ?_⟩
            · rw [h2']
              simp only [Asm.emitLabel, emit_labels, hnl]
              simp only [emit_labels, emit_instructions] at hl1
              omega
            · rw [h2']
              simp only [Asm.emitLabel, emit_instructions, hni, hi1]
              simp [emit_instructions, List.append_assoc]
            · have hfinal : st'.labels = st1.labels := by
                rw [h2']
                simp only [Asm.emitLabel, emit_labels, hnl]
              rw [hfinal]
              exact hwrap


theorem intrinsic_name_of_shape {env : Env} {args : List Expr} {st st1 : Asm}
    (h : intrinsic_name_of env args st = .ok st1) :
    ∃ m, st1 = st.emit (.NameConst m) := by
  unfold intrinsic_name_of at h
  repeat' split at h
  all_goals (cases h <;> exact ⟨_, rfl⟩)

theorem intrinsic_op_instr_shape {env : Env} {op : Intrinsic} {args : List Expr}
    {ret : TypeId} {st st1 : Asm} (hop : op ≠ .NameOf)
    (h : intrinsic_op_instr env op args ret st = .ok st1) :
    ∃ i, st1 = st.emit i ∧ (∀ x, i ≠ .Target x) ∧ i.branchLabels = [] := by
  cases op
  case NameOf => exact absurd rfl hop
  all_goals simp only [intrinsic_op_instr] at h
  all_goals repeat' split at h
  all_goals (cases h <;> exact ⟨_, rfl, (fun x hx => nomatch hx), rfl⟩)

theorem stmt_intrinsic_succ (n : Nat) (ihL : StmtList n) : StmtIntrinsic (n + 1) := by
  intro env op args ret sp st st' h
  cases op
  case NameOf =>
    simp only [assemble_intrinsic] at h
    obtain ⟨m, rfl⟩ := intrinsic_name_of_shape h
    exact AsmStep.of_emit (fun x hx => by cases hx) (by rfl) none
  all_goals
    (simp only [assemble_intrinsic] at h
     obtain ⟨st1, h1, h2⟩ := exceptBind_ok.mp h
     obtain ⟨i, rfl, hti, hbi⟩ := intrinsic_op_instr_shape (fun hx => by cases hx) h1
     exact AsmStep.trans (fun x hx => nomatch hx) (AsmStep.of_emit hti hbi none)
       (ihL _ _ _ _ h2))

theorem get_initializer_plain {env : Env} {t : TypeId} {i : Instr Nat}
    (h : get_initializer env t = .ok (some i)) :
    (∀ x, i ≠ .Target x) ∧ i.branchLabels = [] := by
  cases t <;> simp only [get_initializer] at h
  case Prim idx =>
    rcases hdn : env.defName idx with _ | tp
    · simp only [hdn] at h
      cases h
    · rw [hdn] at h
      replace h := Except.ok.inj h
      rcases eq_or_ne tp TypeName.BOOL with h1 | h1
      · rw [if_pos h1] at h
        cases h
        exact ⟨(fun x hx => nomatch hx), rfl⟩
      rw [if_neg h1] at h
      rcases eq_or_ne tp TypeName.INT8 with h2 | h2
      · rw [if_pos h2] at h
        cases h
        exact ⟨(fun x hx => nomatch hx), rfl⟩
      rw [if_neg h2] at h
      rcases eq_or_ne tp TypeName.INT16 with h3 | h3
      · rw [if_pos h3] at h
        cases h
        exact ⟨(fun x hx => nomatch hx), rfl⟩
      rw [if_neg h3] at h
      rcases eq_or_ne tp TypeName.INT32 with h4 | h4
      · rw [if_pos h4] at h
        cases h
        exact ⟨(fun x hx => nomatch hx), rfl⟩
      rw [if_neg h4] at h
      rcases eq_or_ne tp TypeName.INT64 with h5 | h5
      · rw [if_pos h5] at h
        cases h
        exact ⟨(fun x hx => nomatch hx), rfl⟩
      rw [if_neg h5] at h
      rcases eq_or_ne tp TypeName.UINT8 with h6 | h6
      · rw [if_pos h6] at h
        cases h
        exact ⟨(fun x hx => nomatch hx), rfl⟩
      rw [if_neg h6] at h
      rcases eq_or_ne tp TypeName.UINT16 with h7 | h7
      · rw [if_pos h7] at h
        cases h
        exact ⟨(fun x hx => nomatch hx), rfl⟩
      rw [if_neg h7] at h
      rcases eq_or_ne tp TypeName.UINT32 with h8 | h8
      · rw [if_pos h8] at h
        cases h
        exact ⟨(fun x hx => nomatch hx), rfl⟩
      rw [if_neg h8] at h
      rcases eq_or_ne tp TypeName.UINT64 with h9 | h9
      · rw [if_pos h9] at h
        cases h
        exact ⟨(fun x hx => nomatch hx), rfl⟩
      rw [if_neg h9] at h
      rcases eq_or_ne tp TypeName.FLOAT with h10 | h10
      · rw [if_pos h10] at h
        cases h
        exact ⟨(fun x hx => nomatch hx), rfl⟩
      rw [if_neg h10] at h
      rcases eq_or_ne tp TypeName.DOUBLE with h11 | h11
      · rw [if_pos h11] at h
        cases h
        exact ⟨(fun x hx => nomatch hx), rfl⟩
      rw [if_neg h11] at h
      rcases eq_or_ne tp TypeName.STRING with h12 | h12
      · rw [if_pos h12] at h
        cases h
        exact ⟨(fun x hx => nomatch hx), rfl⟩
      rw [if_neg h12] at h
      rcases eq_or_ne tp TypeName.CNAME with h13 | h13
      · rw [if_pos h13] at h
        cases h
        exact ⟨(fun x hx => nomatch hx), rfl⟩
      rw [if_neg h13] at h
      rcases eq_or_ne tp TypeName.TWEAKDB_ID with h14 | h14
      · rw [if_pos h14] at h
        cases h
        exact ⟨(fun x hx => nomatch hx), rfl⟩
      rw [if_neg h14] at h
      rcases eq_or_ne tp TypeName.RESOURCE with h15 | h15
      · rw [if_pos h15] at h
        cases h
        exact ⟨(fun x hx => nomatch hx), rfl⟩
      rw [if_neg h15] at h
      cases h
  case Struct s =>
    cases h
    exact ⟨(fun x hx => nomatch hx), rfl⟩
  case Enum e1 =>
    rcases hdn : env.enumMembers e1 with _ | members
    · simp only [hdn] at h
      cases h
    · simp only [hdn] at h
      replace h := Except.ok.inj h
      rw [Option.map_eq_some'] at h
      obtain ⟨m, hm, h2⟩ := h
      cases h2
      exact ⟨(fun x hx => nomatch hx), rfl⟩
  case Ref t2 =>
    cases h
    exact ⟨(fun x hx => nomatch hx), rfl⟩
  case WeakRef t2 =>
    cases h
    exact ⟨(fun x hx => nomatch hx), rfl⟩
  all_goals cases h

theorem static_array_init_plain {instr : Instr Nat}
    (hti : ∀ x, instr ≠ .Target x) (hbi : instr.branchLabels = []) :
    ∀ (rem i slot ty_idx : Nat) (st : Asm),
      (static_array_init st slot ty_idx instr i rem).labels = st.labels ∧
      ∃ code, (static_array_init st slot ty_idx instr i rem).instructions =
        st.instructions ++ code ∧ (∀ lab, countT code lab = 0) ∧ opsOf code = [] := by
  intro rem
  induction rem with
  | zero =>
    intro i slot ty_idx st
    exact ⟨rfl, [], by simp [static_array_init], (fun lab => rfl), rfl⟩
  | succ r ih =>
    intro i slot ty_idx st
    obtain ⟨hl, code, hc, hcnt, hops⟩ := ih (i + 1) slot ty_idx
      (((((st.emit .Assign).emit (.StaticArrayElement ty_idx)).emit
        (.Local slot)).emit (.U32Const i)).emit instr)
    refine ⟨by simp only [static_array_init]; rw [hl]; rfl,
      [Instr.Assign, Instr.StaticArrayElement ty_idx, Instr.Local slot,
        Instr.U32Const i, instr] ++ code, ?_, ?_, ?_⟩
    · simp only [static_array_init]
      rw [hc]
      simp [emit_instructions, List.append_assoc]
    · intro lab
      rw [countT_append, hcnt]
      simp [countT, List.countP_cons, Instr.targetsAt, targetsAt_false hti]
    · rw [opsOf_append, hops, List.append_nil]
      simp only [opsOf_cons, opsOf_nil, hbi]
      rfl

theorem emit_initializer_step {env : Env} {slot : Nat} {t : TypeId} {st st' : Asm}
    (h : emit_initializer env slot t st = .ok st') (e : Option Nat) : AsmStep e st st' := by
  unfold emit_initializer at h
  split at h
  · split at h
    · cases h
    · rename_i ty_idx heq
      cases h
      refine @AsmStep.of_plain st ((st.emit (Instr.ArrayClear ty_idx)).emit (Instr.Local slot)) [Instr.ArrayClear ty_idx, Instr.Local slot] rfl ?_ ?_ ?_ e
      · simp [emit_instructions, List.append_assoc]
      · intro lab
        rfl
      · rfl
  · split at h
    · cases h
    · cases h
      exact AsmStep.refl e st
    · rename_i instr heq
      split at h
      · cases h
      · rename_i ty_idx heq2
        cases h
        obtain ⟨hti, hbi⟩ := get_initializer_plain heq
        obtain ⟨hl, code, hc, hcnt, hops⟩ := static_array_init_plain hti hbi _ 0 slot ty_idx st
        exact AsmStep.of_plain hl hc hcnt hops e
  · split at h
    · cases h
    · cases h
      exact AsmStep.refl e st
    · rename_i instr heq
      cases h
      obtain ⟨hti, hbi⟩ := get_initializer_plain heq
      refine @AsmStep.of_plain st (((st.emit Instr.Assign).emit (Instr.Local slot)).emit instr) [Instr.Assign, Instr.Local slot, instr] rfl ?_ ?_ ?_ e
      · simp [emit_instructions, List.append_assoc]
      · intro lab
        simp [countT, List.countP_cons, Instr.targetsAt, targetsAt_false hti]
      · simp only [opsOf_cons, opsOf_nil, hbi]
        rfl

theorem countT_pre (nc n b lab : Nat) :
    countT [.Target nc, .SwitchLabel n b] lab = if nc = lab then 1 else 0 := by
  by_cases h : nc = lab <;> simp [countT, List.countP_cons, Instr.targetsAt, h]

theorem opsOf_pre (nc n b : Nat) :
    opsOf [.Target nc, .SwitchLabel n b] = [n, b] := rfl

theorem osb_pre {n lab : Nat} (nc b : Nat) (h : n ≠ lab) :
    only_switch_body [.Target nc, .SwitchLabel n b] lab = true := by
  simp [only_switch_body, Instr.branchLabels, h]

theorem osb_target (x lab : Nat) :
    only_switch_body [.Target x] lab = true := by
  simp [only_switch_body, Instr.branchLabels]

theorem CasesStep.countT_outside {lo hi el nc : Nat} {cb : Option Nat} {fn : Nat}
    {code : List (Instr Nat)} (c : CasesStep lo hi el nc cb fn code) {lab : Nat}
    (h1 : lab ≠ nc) (h2 : cb ≠ some lab) (h3 : lab < lo ∨ hi ≤ lab) :
    countT code lab = 0 := by
  by_contra h0
  rcases c.target_range lab (Nat.pos_of_ne_zero h0) with h | h | h
  · exact h1 h
  · exact h2 h
  · omega

theorem Good.notMem_none {lo hi : Nat} {code : List (Instr Nat)}
    (g : Good lo hi none code) {lab : Nat} (h : lab < lo ∨ hi ≤ lab) :
    lab ∉ opsOf code := by
  intro hmem
  rcases g.ops_range hmem with hx | hx
  · cases hx
  · omega

theorem Good.notMem_some {lo hi el : Nat} {code : List (Instr Nat)}
    (g : Good lo hi (some el) code) {lab : Nat} (hne : lab ≠ el) (h : lab < lo ∨ hi ≤ lab) :
    lab ∉ opsOf code := by
  intro hmem
  rcases g.ops_range hmem with hx | hx
  · exact hne (Option.some.inj hx).symm
  · omega

/-- Gluing one empty-body iteration of `cases_loop` onto the rest of the
run: the `[Target next_case, SwitchLabel next' body_label]` prefix, the
matcher segment `M`, and the rest `R` assembled with the body label still
pending, form a `CasesStep` segment. -/
theorem CasesStep.glue_empty
    {lo lo_d hi_e hi exit_label next_case next' body_label final_next : Nat}
    {cur_body : Option Nat} {M R : List (Instr Nat)}
    (hex : exit_label < lo) (hnc : next_case < lo)
    (hlo_lod : lo ≤ lo_d) (hnext_lo : lo ≤ next') (hnext_lod : next' < lo_d)
    (hbl_lod : body_label < lo_d) (hbl_ne_next : body_label ≠ next')
    (hbl_ne_nc : body_label ≠ next_case) (hbl_ne_ex : body_label ≠ exit_label)
    (hbl_disj : cur_body = some body_label ∨ (cur_body = none ∧ lo ≤ body_label))
    (hgM : Good lo_d hi_e none M)
    (hR : (R = [] ∧ final_next = next' ∧ hi = hi_e) ∨
        CasesStep hi_e hi exit_label next' (some body_label) final_next R) :
    CasesStep lo hi exit_label next_case cur_body final_next
      ([.Target next_case, .SwitchLabel next' body_label] ++ (M ++ R)) := by
  have hMlo := hgM.lo_le_hi
  have hcnt : ∀ lab, countT ([.Target next_case, .SwitchLabel next' body_label] ++ (M ++ R)) lab
      = (if next_case = lab then 1 else 0) + countT M lab + countT R lab := by
    intro lab
    rw [countT_append, countT_append, countT_pre]
    exact (Nat.add_assoc _ _ _).symm
  have hops : ∀ lab, lab ∈ opsOf ([.Target next_case, .SwitchLabel next' body_label] ++ (M ++ R)) →
      lab = next' ∨ lab = body_label ∨ lab ∈ opsOf M ∨ lab ∈ opsOf R := by
    intro lab hmem
    rcases mem_opsOf_append.mp hmem with hx | hx
    · rw [opsOf_pre] at hx
      simp only [List.mem_cons, List.not_mem_nil, or_false] at hx
      rcases hx with hx | hx
      · exact Or.inl hx
      · exact Or.inr (Or.inl hx)
    · rcases mem_opsOf_append.mp hx with hy | hy
      · exact Or.inr (Or.inr (Or.inl hy))
      · exact Or.inr (Or.inr (Or.inr hy))
  have hosb : ∀ lab, next' ≠ lab → only_switch_body M lab = true →
      only_switch_body R lab = true →
      only_switch_body ([.Target next_case, .SwitchLabel next' body_label] ++ (M ++ R)) lab
        = true := by
    intro lab h1 h2 h3
    rw [osb_append, osb_append, osb_pre next_case body_label h1, h2, h3]
    rfl
  have hblM : body_label ∉ opsOf M := hgM.notMem_none (Or.inl hbl_lod)
  rcases hR with ⟨hRnil, hfn, hhi⟩ | hcs
  · subst hRnil
    refine ⟨by omega, ?_, ?_, ?_, ⟨by omega, by omega⟩, ?_, ?_⟩
    · intro lab
      rw [hcnt lab, countT_nil]
      by_cases h : next_case = lab
      · have e1 : countT M lab = 0 := hgM.countT_zero (Or.inl (by omega))
        rw [if_pos h]
        omega
      · have := hgM.target_uniq lab
        rw [if_neg h]
        omega
    · intro lab h0
      rw [hcnt lab, countT_nil] at h0
      by_cases h : next_case = lab
      · exact Or.inl h.symm
      · rw [if_neg h] at h0
        have := hgM.target_range lab (by omega)
        right; right; omega
    · have e1 : countT M next_case = 0 := hgM.countT_zero (Or.inl (by omega))
      rw [hcnt next_case, countT_nil, if_pos rfl]
      omega
    · have e1 : countT M final_next = 0 := hgM.countT_zero (Or.inl (by omega))
      rw [hcnt final_next, countT_nil, if_neg (by omega)]
      omega
    · intro lab hmem
      rcases hops lab hmem with h | h | h | h
      · right; right; left; omega
      · rw [h]
        right; right; right
        have e1 : countT M body_label = 0 := hgM.countT_zero (Or.inl (by omega))
        refine ⟨?_, ?_, ?_⟩
        · rw [hcnt body_label, countT_nil, if_neg (by omega)]
          omega
        · exact hosb body_label (by omega) (osb_of_not_mem hblM) rfl
        · rcases hbl_disj with hd | ⟨hd, hlo2⟩
          · exact Or.inl hd
          · right; exact ⟨hlo2, by omega⟩
      · rcases hgM.ops_ok lab h with h1 | h1 | ⟨h1, h2, h3, h4⟩
        · cases h1
        · have hr := hgM.target_range lab (by omega)
          right; left
          rw [hcnt lab, countT_nil, if_neg (by omega)]
          omega
        · right; right; right
          refine ⟨?_, ?_, ?_⟩
          · rw [hcnt lab, countT_nil, if_neg (by omega)]
            omega
          · exact hosb lab (by omega) h4 rfl
          · right; exact ⟨by omega, by omega⟩
      · rw [opsOf_nil] at h
        cases h
  · have hRlo := hcs.lo_le_hi
    obtain ⟨hfr1, hfr2⟩ := hcs.final_range
    have hRnext := hcs.next_count
    have hRz : ∀ lab, lab ≠ next' → body_label ≠ lab → (lab < hi_e ∨ hi ≤ lab) →
        countT R lab = 0 := by
      intro lab h1 h2 h3
      exact hcs.countT_outside h1 (fun hc => h2 (Option.some.inj hc)) h3
    refine ⟨by omega, ?_, ?_, ?_, ⟨by omega, by omega⟩, ?_, ?_⟩
    · intro lab
      rw [hcnt lab]
      by_cases h : next_case = lab
      · have e1 : countT M lab = 0 := hgM.countT_zero (Or.inl (by omega))
        have e2 : countT R lab = 0 := hRz lab (by omega) (by omega) (by omega)
        rw [if_pos h]
        omega
      · rw [if_neg h]
        by_cases hM : countT M lab = 0
        · have := hcs.target_uniq lab
          omega
        · have hr := hgM.target_range lab (by omega)
          have e2 : countT R lab = 0 := hRz lab (by omega) (by omega) (by omega)
          have := hgM.target_uniq lab
          omega
    · intro lab h0
      rw [hcnt lab] at h0
      by_cases h : next_case = lab
      · exact Or.inl h.symm
      · rw [if_neg h] at h0
        have h0' : 0 < countT M lab ∨ 0 < countT R lab := by omega
        rcases h0' with hM | hRp
        · have := hgM.target_range lab hM
          right; right; omega
        · rcases hcs.target_range lab hRp with h1 | h1 | h1
          · right; right; omega
          · have hb := Option.some.inj h1
            rcases hbl_disj with hd | ⟨hd, hlo2⟩
            · right; left; rw [hd, hb]
            · right; right; omega
          · right; right; omega
    · have e1 : countT M next_case = 0 := hgM.countT_zero (Or.inl (by omega))
      have e2 : countT R next_case = 0 := hRz next_case (by omega) (by omega) (by omega)
      rw [hcnt next_case, if_pos rfl]
      omega
    · have e1 : countT M final_next = 0 := hgM.countT_zero (Or.inr (by omega))
      have e2 := hcs.final_count
      rw [hcnt final_next, if_neg (by omega)]
      omega
    · intro lab hmem
      rcases hops lab hmem with h | h | h | h
      · rw [h]
        have e1 : countT M next' = 0 := hgM.countT_zero (Or.inl (by omega))
        right; left
        rw [hcnt next', if_neg (by omega)]
        omega
      · rw [h]
        have e1 : countT M body_label = 0 := hgM.countT_zero (Or.inl (by omega))
        have hu := hcs.target_uniq body_label
        by_cases hz : countT R body_label = 0
        · right; right; right
          refine ⟨?_, ?_, ?_⟩
          · rw [hcnt body_label, if_neg (by omega)]
            omega
          · refine hosb body_label (by omega) (osb_of_not_mem hblM) ?_
            by_cases hmemR : body_label ∈ opsOf R
            · rcases hcs.ops_ok body_label hmemR with h1 | h1 | h1 | h1
              · omega
              · omega
              · omega
              · exact h1.2.1
            · exact osb_of_not_mem hmemR
          · rcases hbl_disj with hd | ⟨hd, hlo2⟩
            · exact Or.inl hd
            · right; exact ⟨hlo2, by omega⟩
        · right; left
          rw [hcnt body_label, if_neg (by omega)]
          omega
      · rcases hgM.ops_ok lab h with h1 | h1 | ⟨h1, h2, h3, h4⟩
        · cases h1
        · have hr := hgM.target_range lab (by omega)
          have e2 : countT R lab = 0 := hRz lab (by omega) (by omega) (by omega)
          right; left
          rw [hcnt lab, if_neg (by omega)]
          omega
        · right; right; right
          have e2 : countT R lab = 0 := hRz lab (by omega) (by omega) (by omega)
          refine ⟨?_, ?_, ?_⟩
          · rw [hcnt lab, if_neg (by omega)]
            omega
          · refine hosb lab (by omega) h4 ?_
            by_cases hmemR : lab ∈ opsOf R
            · rcases hcs.ops_ok lab hmemR with hh | hh | hh | hh
              · omega
              · rcases hcs.target_range lab (by omega) with hq | hq | hq
                · omega
                · have := Option.some.inj hq
                  omega
                · omega
              · omega
              · exact hh.2.1
            · exact osb_of_not_mem hmemR
          · right; exact ⟨by omega, by omega⟩
      · rcases hcs.ops_ok lab h with h1 | h1 | h1 | ⟨h1, h2, h3⟩
        · exact Or.inl h1
        · right; left
          rcases hcs.target_range lab (by omega) with hq | hq | hq
          · have e1 : countT M lab = 0 := hgM.countT_zero (Or.inl (by omega))
            rw [hcnt lab, if_neg (by omega)]
            omega
          · have hb := Option.some.inj hq
            have e1 : countT M lab = 0 := hgM.countT_zero (Or.inl (by omega))
            rw [hcnt lab, if_neg (by omega)]
            omega
          · have e1 : countT M lab = 0 := hgM.countT_zero (Or.inr (by omega))
            rw [hcnt lab, if_neg (by omega)]
            omega
        · right; right; left; exact h1
        · rcases h3 with hq | hq
          · have hb := Option.some.inj hq
            rw [← hb] at h1 h2 ⊢
            right; right; right
            have e1 : countT M body_label = 0 := hgM.countT_zero (Or.inl (by omega))
            refine ⟨?_, ?_, ?_⟩
            · rw [hcnt body_label, if_neg (by omega)]
              omega
            · exact hosb body_label (by omega) (osb_of_not_mem hblM) h2
            · rcases hbl_disj with hd | ⟨hd, hlo2⟩
              · exact Or.inl hd
              · right; exact ⟨hlo2, by omega⟩
          · right; right; right
            have e1 : countT M lab = 0 := hgM.countT_zero (Or.inr (by omega))
            refine ⟨?_, ?_, ?_⟩
            · rw [hcnt lab, if_neg (by omega)]
              omega
            · refine hosb lab (by omega) (osb_of_not_mem (hgM.notMem_none (Or.inr (by omega)))) h2
            · right; exact ⟨by omega, by omega⟩

/-- Gluing one non-empty-body iteration of `cases_loop` onto the rest of
the run: the `[Target next_case, SwitchLabel next' body_label]` prefix,
the matcher segment `M`, the emitted `Target body_label`, the body
segment `B` (assembled with the switch exit label active) and the rest
`R` form a `CasesStep` segment. -/
theorem CasesStep.glue_body
    {lo lo_d hi_e hi_f hi exit_label next_case next' body_label final_next : Nat}
    {cur_body : Option Nat} {M B R : List (Instr Nat)}
    (hex : exit_label < lo) (hnc : next_case < lo)
    (hlo_lod : lo ≤ lo_d) (hnext_lo : lo ≤ next') (hnext_lod : next' < lo_d)
    (hbl_lod : body_label < lo_d) (hbl_ne_next : body_label ≠ next')
    (hbl_ne_nc : body_label ≠ next_case) (hbl_ne_ex : body_label ≠ exit_label)
    (hbl_disj : cur_body = some body_label ∨ (cur_body = none ∧ lo ≤ body_label))
    (hgM : Good lo_d hi_e none M)
    (hgB : Good hi_e hi_f (some exit_label) B)
    (hR : (R = [] ∧ final_next = next' ∧ hi = hi_f) ∨
        CasesStep hi_f hi exit_label next' none final_next R) :
    CasesStep lo hi exit_label next_case cur_body final_next
      ([.Target next_case, .SwitchLabel next' body_label] ++
        (M ++ ([.Target body_label] ++ (B ++ R)))) := by
  have hMlo := hgM.lo_le_hi
  have hBlo := hgB.lo_le_hi
  have hcnt : ∀ lab, countT ([.Target next_case, .SwitchLabel next' body_label] ++
        (M ++ ([.Target body_label] ++ (B ++ R)))) lab
      = (if next_case = lab then 1 else 0) + (countT M lab +
          ((if body_label = lab then 1 else 0) + (countT B lab + countT R lab))) := by
    intro lab
    rw [countT_append, countT_append, countT_append, countT_append, countT_pre,
      countT_target]
  have hops : ∀ lab, lab ∈ opsOf ([.Target next_case, .SwitchLabel next' body_label] ++
        (M ++ ([.Target body_label] ++ (B ++ R)))) →
      lab = next' ∨ lab = body_label ∨ lab ∈ opsOf M ∨ lab ∈ opsOf B ∨ lab ∈ opsOf R := by
    intro lab hmem
    rcases mem_opsOf_append.mp hmem with hx | hx
    · rw [opsOf_pre] at hx
      simp only [List.mem_cons, List.not_mem_nil, or_false] at hx
      rcases hx with hx | hx
      · exact Or.inl hx
      · exact Or.inr (Or.inl hx)
    · rcases mem_opsOf_append.mp hx with hy | hy
      · exact Or.inr (Or.inr (Or.inl hy))
      · rcases mem_opsOf_append.mp hy with hz | hz
        · simp [opsOf, Instr.branchLabels] at hz
        · rcases mem_opsOf_append.mp hz with hw | hw
          · exact Or.inr (Or.inr (Or.inr (Or.inl hw)))
          · exact Or.inr (Or.inr (Or.inr (Or.inr hw)))
  have hosb : ∀ lab, next' ≠ lab → only_switch_body M lab = true →
      only_switch_body B lab = true → only_switch_body R lab = true →
      only_switch_body ([.Target next_case, .SwitchLabel next' body_label] ++
        (M ++ ([.Target body_label] ++ (B ++ R)))) lab = true := by
    intro lab h1 h2 h3 h4
    rw [osb_append, osb_append, osb_append, osb_append,
      osb_pre next_case body_label h1, osb_target body_label lab, h2, h3, h4]
    rfl
  have hblM : body_label ∉ opsOf M := hgM.notMem_none (Or.inl hbl_lod)
  rcases hR with ⟨hRnil, hfn, hhi⟩ | hcs
  · subst hRnil
    refine ⟨by omega, ?_, ?_, ?_, ⟨by omega, by omega⟩, ?_, ?_⟩
    · intro lab
      rw [hcnt lab, countT_nil]
      by_cases h1 : next_case = lab
      · have e1 : countT M lab = 0 := hgM.countT_zero (Or.inl (by omega))
        have e2 : countT B lab = 0 := hgB.countT_zero (Or.inl (by omega))
        rw [if_pos h1, if_neg (by omega)]
        omega
      · rw [if_neg h1]
        by_cases h2 : body_label = lab
        · have e1 : countT M lab = 0 := hgM.countT_zero (Or.inl (by omega))
          have e2 : countT B lab = 0 := hgB.countT_zero (Or.inl (by omega))
          rw [if_pos h2]
          omega
        · rw [if_neg h2]
          by_cases hM : countT M lab = 0
          · have := hgB.target_uniq lab
            omega
          · have hrM := hgM.target_range lab (by omega)
            have e2 : countT B lab = 0 := hgB.countT_zero (Or.inl (by omega))
            have := hgM.target_uniq lab
            omega
    · intro lab h0
      rw [hcnt lab, countT_nil] at h0
      by_cases h : next_case = lab
      · exact Or.inl h.symm
      · rw [if_neg h] at h0
        by_cases h2 : body_label = lab
        · rcases hbl_disj with hd | ⟨hd, hlo2⟩
          · right; left; rw [hd, h2]
          · right; right; omega
        · rw [if_neg h2] at h0
          have h0' : 0 < countT M lab ∨ 0 < countT B lab := by omega
          rcases h0' with hM | hB
          · have := hgM.target_range lab hM
            right; right; omega
          · have := hgB.target_range lab hB
            right; right; omega
    · have e1 : countT M next_case = 0 := hgM.countT_zero (Or.inl (by omega))
      have e2 : countT B next_case = 0 := hgB.countT_zero (Or.inl (by omega))
      rw [hcnt next_case, countT_nil, if_pos rfl, if_neg (by omega)]
      omega
    · have e1 : countT M final_next = 0 := hgM.countT_zero (Or.inl (by omega))
      have e2 : countT B final_next = 0 := hgB.countT_zero (Or.inl (by omega))
      rw [hcnt final_next, countT_nil, if_neg (by omega), if_neg (by omega)]
      omega
    · intro lab hmem
      rcases hops lab hmem with h | h | h | h | h
      · rw [h]
        right; right; left
        omega
      · rw [h]
        right; left
        have e1 : countT M body_label = 0 := hgM.countT_zero (Or.inl (by omega))
        have e2 : countT B body_label = 0 := hgB.countT_zero (Or.inl (by omega))
        rw [hcnt body_label, countT_nil, if_neg (by omega), if_pos rfl]
        omega
      · rcases hgM.ops_ok lab h with h1 | h1 | ⟨h1, h2, h3, h4⟩
        · cases h1
        · have hr := hgM.target_range lab (by omega)
          have e2 : countT B lab = 0 := hgB.countT_zero (Or.inl (by omega))
          right; left
          rw [hcnt lab, countT_nil, if_neg (by omega), if_neg (by omega)]
          omega
        · right; right; right
          have e2 : countT B lab = 0 := hgB.countT_zero (Or.inl (by omega))
          refine ⟨?_, ?_, ?_⟩
          · rw [hcnt lab, countT_nil, if_neg (by omega), if_neg (by omega)]
            omega
          · refine hosb lab (by omega) h4
              (osb_of_not_mem (hgB.notMem_some (by omega) (Or.inl (by omega)))) rfl
          · right; exact ⟨by omega, by omega⟩
      · rcases hgB.ops_ok lab h with h1 | h1 | ⟨h1, h2, h3, h4⟩
        · exact Or.inl (Option.some.inj h1).symm
        · have hr := hgB.target_range lab (by omega)
          have e1 : countT M lab = 0 := hgM.countT_zero (Or.inr (by omega))
          right; left
          rw [hcnt lab, countT_nil, if_neg (by omega), if_neg (by omega)]
          omega
        · right; right; right
          have e1 : countT M lab = 0 := hgM.countT_zero (Or.inr (by omega))
          refine ⟨?_, ?_, ?_⟩
          · rw [hcnt lab, countT_nil, if_neg (by omega), if_neg (by omega)]
            omega
          · refine hosb lab (by omega)
              (osb_of_not_mem (hgM.notMem_none (Or.inr (by omega)))) h4 rfl
          · right; exact ⟨by omega, by omega⟩
      · rw [opsOf_nil] at h
        cases h
  · have hRlo := hcs.lo_le_hi
    obtain ⟨hfr1, hfr2⟩ := hcs.final_range
    have hRnext := hcs.next_count
    have hRz : ∀ lab, lab ≠ next' → (lab < hi_f ∨ hi ≤ lab) → countT R lab = 0 := by
      intro lab h1 h3
      exact hcs.countT_outside h1 (fun hc => nomatch hc) h3
    refine ⟨by omega, ?_, ?_, ?_, ⟨by omega, by omega⟩, ?_, ?_⟩
    · intro lab
      rw [hcnt lab]
      by_cases h1 : next_case = lab
      · have e1 : countT M lab = 0 := hgM.countT_zero (Or.inl (by omega))
        have e2 : countT B lab = 0 := hgB.countT_zero (Or.inl (by omega))
        have e3 : countT R lab = 0 := hRz lab (by omega) (by omega)
        rw [if_pos h1, if_neg (by omega)]
        omega
      · rw [if_neg h1]
        by_cases h2 : body_label = lab
        · have e1 : countT M lab = 0 := hgM.countT_zero (Or.inl (by omega))
          have e2 : countT B lab = 0 := hgB.countT_zero (Or.inl (by omega))
          have e3 : countT R lab = 0 := hRz lab (by omega) (by omega)
          rw [if_pos h2]
          omega
        · rw [if_neg h2]
          by_cases hM : countT M lab = 0
          · by_cases hB : countT B lab = 0
            · have := hcs.target_uniq lab
              omega
            · have hrB := hgB.target_range lab (by omega)
              have e3 : countT R lab = 0 := hRz lab (by omega) (by omega)
              have := hgB.target_uniq lab
              omega
          · have hrM := hgM.target_range lab (by omega)
            have e2 : countT B lab = 0 := hgB.countT_zero (Or.inl (by omega))
            have e3 : countT R lab = 0 := hRz lab (by omega) (by omega)
            have := hgM.target_uniq lab
            omega
    · intro lab h0
      rw [hcnt lab] at h0
      by_cases h : next_case = lab
      · exact Or.inl h.symm
      · rw [if_neg h] at h0
        by_cases h2 : body_label = lab
        · rcases hbl_disj with hd | ⟨hd, hlo2⟩
          · right; left; rw [hd, h2]
          · right; right; omega
        · rw [if_neg h2] at h0
          have h0' : 0 < countT M lab ∨ 0 < countT B lab ∨ 0 < countT R lab := by omega
          rcases h0' with hM | hB | hRp
          · have := hgM.target_range lab hM
            right; right; omega
          · have := hgB.target_range lab hB
            right; right; omega
          · rcases hcs.target_range lab hRp with h1 | h1 | h1
            · right; right; omega
            · cases h1
            · right; right; omega
    · have e1 : countT M next_case = 0 := hgM.countT_zero (Or.inl (by omega))
      have e2 : countT B next_case = 0 := hgB.countT_zero (Or.inl (by omega))
      have e3 : countT R next_case = 0 := hRz next_case (by omega) (by omega)
      rw [hcnt next_case, if_pos rfl, if_neg (by omega)]
      omega
    · have e1 : countT M final_next = 0 := hgM.countT_zero (Or.inr (by omega))
      have e2 : countT B final_next = 0 := hgB.countT_zero (Or.inr (by omega))
      have e3 := hcs.final_count
      rw [hcnt final_next, if_neg (by omega), if_neg (by omega)]
      omega
    · intro lab hmem
      rcases hops lab hmem with h | h | h | h | h
      · rw [h]
        have e1 : countT M next' = 0 := hgM.countT_zero (Or.inl (by omega))
        have e2 : countT B next' = 0 := hgB.countT_zero (Or.inl (by omega))
        right; left
        rw [hcnt next', if_neg (by omega), if_neg (by omega)]
        omega
      · rw [h]
        right; left
        have e1 : countT M body_label = 0 := hgM.countT_zero (Or.inl (by omega))
        have e2 : countT B body_label = 0 := hgB.countT_zero (Or.inl (by omega))
        have e3 : countT R body_label = 0 := hRz body_label (by omega) (by omega)
        rw [hcnt body_label, if_neg (by omega), if_pos rfl]
        omega
      · rcases hgM.ops_ok lab h with h1 | h1 | ⟨h1, h2, h3, h4⟩
        · cases h1
        · have hr := hgM.target_range lab (by omega)
          have e2 : countT B lab = 0 := hgB.countT_zero (Or.inl (by omega))
          have e3 : countT R lab = 0 := hRz lab (by omega) (by omega)
          right; left
          rw [hcnt lab, if_neg (by omega), if_neg (by omega)]
          omega
        · right; right; right
          have e2 : countT B lab = 0 := hgB.countT_zero (Or.inl (by omega))
          have e3 : countT R lab = 0 := hRz lab (by omega) (by omega)
          refine ⟨?_, ?_, ?_⟩
          · rw [hcnt lab, if_neg (by omega), if_neg (by omega)]
            omega
          · refine hosb lab (by omega) h4
              (osb_of_not_mem (hgB.notMem_some (by omega) (Or.inl (by omega)))) ?_
            by_cases hmemR : lab ∈ opsOf R
            · rcases hcs.ops_ok lab hmemR with hh | hh | hh | hh
              · omega
              · rcases hcs.target_range lab (by omega) with hq | hq | hq
                · omega
                · cases hq
                · omega
              · omega
              · exact hh.2.1
            · exact osb_of_not_mem hmemR
          · right; exact ⟨by omega, by omega⟩
      · rcases hgB.ops_ok lab h with h1 | h1 | ⟨h1, h2, h3, h4⟩
        · exact Or.inl (Option.some.inj h1).symm
        · have hr := hgB.target_range lab (by omega)
          have e1 : countT M lab = 0 := hgM.countT_zero (Or.inr (by omega))
          have e3 : countT R lab = 0 := hRz lab (by omega) (by omega)
          right; left
          rw [hcnt lab, if_neg (by omega), if_neg (by omega)]
          omega
        · right; right; right
          have e1 : countT M lab = 0 := hgM.countT_zero (Or.inr (by omega))
          have e3 : countT R lab = 0 := hRz lab (by omega) (by omega)
          refine ⟨?_, ?_, ?_⟩
          · rw [hcnt lab, if_neg (by omega), if_neg (by omega)]
            omega
          · refine hosb lab (by omega)
              (osb_of_not_mem (hgM.notMem_none (Or.inr (by omega)))) h4 ?_
            by_cases hmemR : lab ∈ opsOf R
            · rcases hcs.ops_ok lab hmemR with hh | hh | hh | hh
              · omega
              · rcases hcs.target_range lab (by omega) with hq | hq | hq
                · omega
                · cases hq
                · omega
              · omega
              · exact hh.2.1
            · exact osb_of_not_mem hmemR
          · right; exact ⟨by omega, by omega⟩
      · rcases hcs.ops_ok lab h with h1 | h1 | h1 | ⟨h1, h2, h3⟩
        · exact Or.inl h1
        · right; left
          rcases hcs.target_range lab (by omega) with hq | hq | hq
          · have e1 : countT M lab = 0 := hgM.countT_zero (Or.inl (by omega))
            have e2 : countT B lab = 0 := hgB.countT_zero (Or.inl (by omega))
            rw [hcnt lab, if_neg (by omega), if_neg (by omega)]
            omega
          · cases hq
          · have e1 : countT M lab = 0 := hgM.countT_zero (Or.inr (by omega))
            have e2 : countT B lab = 0 := hgB.countT_zero (Or.inr (by omega))
            rw [hcnt lab, if_neg (by omega), if_neg (by omega)]
            omega
        · right; right; left; exact h1
        · rcases h3 with hq | hq
          · cases hq
          · right; right; right
            have e1 : countT M lab = 0 := hgM.countT_zero (Or.inr (by omega))
            have e2 : countT B lab = 0 := hgB.countT_zero (Or.inr (by omega))
            refine ⟨?_, ?_, ?_⟩
            · rw [hcnt lab, if_neg (by omega), if_neg (by omega)]
              omega
            · refine hosb lab (by omega)
                (osb_of_not_mem (hgM.notMem_none (Or.inr (by omega))))
                (osb_of_not_mem (hgB.notMem_some (by omega) (Or.inr (by omega)))) h2
            · right; exact ⟨by omega, by omega⟩

theorem stmt_cases_succ (n : Nat) (ihA : StmtAssemble n) (ihS : StmtSeq n)
    (ihC : StmtCases n) : StmtCases (n + 1) := by
  intro env exit_label cs next_case cur_body st st2 final_next hex hnc hcb h
  cases cs with
  | nil =>
    simp only [cases_loop] at h
    cases h
    exact ⟨Nat.le_refl _, [], by simp, Or.inl ⟨rfl, rfl, rfl⟩⟩
  | cons hd rest =>
    obtain ⟨matcher, body⟩ := hd
    cases cur_body with
    | some l =>
      obtain ⟨c1, c2, c3⟩ := hcb l rfl
      simp only [cases_loop, Asm.newLabel, Asm.emitLabel, emit_labels] at h
      obtain ⟨st_e, hM, h2⟩ := exceptBind_ok.mp h
      obtain ⟨hle, M, hMins, hgM⟩ :=
        ihA env matcher none _ st_e (fun x hx => nomatch hx) hM
      have hle' : st.labels + 1 ≤ st_e.labels := hle
      have hgM' : Good (st.labels + 1) st_e.labels none M := hgM
      have hMins' : st_e.instructions =
          st.instructions ++ ([.Target next_case, .SwitchLabel st.labels l] ++ M) := by
        rw [hMins]
        simp [emit_instructions, List.append_assoc]
      cases hbody : body.all env.isEmptyExpr with
      | true =>
        rw [if_pos hbody] at h2
        obtain ⟨hle2, R, hRins, hRalt⟩ :=
          ihC env exit_label rest st.labels (some l) st_e st2 final_next
            (by omega) (by omega)
            (fun b hb => by obtain rfl := Option.some.inj hb; exact ⟨by omega, by omega, c3⟩)
            h2
        refine ⟨by omega,
          [Instr.Target next_case, Instr.SwitchLabel st.labels l] ++ (M ++ R), ?_, Or.inr ?_⟩
        · rw [hRins, hMins']
          simp [List.append_assoc]
        · rcases hRalt with ⟨hst, hfn, hR0⟩ | hcsR
          · exact CasesStep.glue_empty hex hnc (by omega) (Nat.le_refl _) (by omega)
              (by omega) (by omega) (by omega) c3 (Or.inl rfl) hgM'
              (Or.inl ⟨hR0, hfn, by rw [hst]⟩)
          · exact CasesStep.glue_empty hex hnc (by omega) (Nat.le_refl _) (by omega)
              (by omega) (by omega) (by omega) c3 (Or.inl rfl) hgM' (Or.inr hcsR)
      | false =>
        rw [if_neg (by rw [hbody]; exact (fun hc => nomatch hc))] at h2
        obtain ⟨st_f, hB, h3⟩ := exceptBind_ok.mp h2
        obtain ⟨hleB, B, hBins, hgB⟩ :=
          ihS env body (some exit_label) _ st_f
            (fun x hx => by
              obtain rfl := Option.some.inj hx
              show exit_label < st_e.labels
              omega)
            hB
        have hleB' : st_e.labels ≤ st_f.labels := hleB
        have hgB' : Good st_e.labels st_f.labels (some exit_label) B := hgB
        have hBins' : st_f.instructions = st_e.instructions ++ ([Instr.Target l] ++ B) := by
          rw [hBins]
          simp [emit_instructions, List.append_assoc]
        obtain ⟨hle2, R, hRins, hRalt⟩ :=
          ihC env exit_label rest st.labels none st_f st2 final_next
            (by omega) (by omega) (fun b hb => nomatch hb) h3
        refine ⟨by omega,
          [Instr.Target next_case, Instr.SwitchLabel st.labels l] ++
            (M ++ ([Instr.Target l] ++ (B ++ R))), ?_, Or.inr ?_⟩
        · rw [hRins, hBins', hMins']
          simp [List.append_assoc]
        · rcases hRalt with ⟨hst, hfn, hR0⟩ | hcsR
          · exact CasesStep.glue_body hex hnc (by omega) (Nat.le_refl _) (by omega)
              (by omega) (by omega) (by omega) c3 (Or.inl rfl) hgM' hgB'
              (Or.inl ⟨hR0, hfn, by rw [hst]⟩)
          · exact CasesStep.glue_body hex hnc (by omega) (Nat.le_refl _) (by omega)
              (by omega) (by omega) (by omega) c3 (Or.inl rfl) hgM' hgB' (Or.inr hcsR)
    | none =>
      simp only [cases_loop, Asm.newLabel, Asm.emitLabel, emit_labels] at h
      obtain ⟨st_e, hM, h2⟩ := exceptBind_ok.mp h
      obtain ⟨hle, M, hMins, hgM⟩ :=
        ihA env matcher none _ st_e (fun x hx => nomatch hx) hM
      have hle' : st.labels + 2 ≤ st_e.labels := hle
      have hgM' : Good (st.labels + 2) st_e.labels none M := hgM
      have hMins' : st_e.instructions =
          st.instructions ++
            ([.Target next_case, .SwitchLabel (st.labels + 1) st.labels] ++ M) := by
        rw [hMins]
        simp [emit_instructions, List.append_assoc]
      cases hbody : body.all env.isEmptyExpr with
      | true =>
        rw [if_pos hbody] at h2
        obtain ⟨hle2, R, hRins, hRalt⟩ :=
          ihC env exit_label rest (st.labels + 1) (some st.labels) st_e st2 final_next
            (by omega) (by omega)
            (fun b hb => by obtain rfl := Option.some.inj hb; exact ⟨by omega, by omega, by omega⟩)
            h2
        refine ⟨by omega,
          [Instr.Target next_case, Instr.SwitchLabel (st.labels + 1) st.labels] ++ (M ++ R),
          ?_, Or.inr ?_⟩
        · rw [hRins, hMins']
          simp [List.append_assoc]
        · rcases hRalt with ⟨hst, hfn, hR0⟩ | hcsR
          · exact CasesStep.glue_empty hex hnc (by omega) (by omega) (by omega)
              (by omega) (by omega) (by omega) (by omega) (Or.inr ⟨rfl, Nat.le_refl _⟩) hgM'
              (Or.inl ⟨hR0, hfn, by rw [hst]⟩)
          · exact CasesStep.glue_empty hex hnc (by omega) (by omega) (by omega)
              (by omega) (by omega) (by omega) (by omega) (Or.inr ⟨rfl, Nat.le_refl _⟩) hgM'
              (Or.inr hcsR)
      | false =>
        rw [if_neg (by rw [hbody]; exact (fun hc => nomatch hc))] at h2
        obtain ⟨st_f, hB, h3⟩ := exceptBind_ok.mp h2
        obtain ⟨hleB, B, hBins, hgB⟩ :=
          ihS env body (some exit_label) _ st_f
            (fun x hx => by
              obtain rfl := Option.some.inj hx
              show exit_label < st_e.labels
              omega)
            hB
        have hleB' : st_e.labels ≤ st_f.labels := hleB
        have hgB' : Good st_e.labels st_f.labels (some exit_label) B := hgB
        have hBins' : st_f.instructions =
            st_e.instructions ++ ([Instr.Target st.labels] ++ B) := by
          rw [hBins]
          simp [emit_instructions, List.append_assoc]
        obtain ⟨hle2, R, hRins, hRalt⟩ :=
          ihC env exit_label rest (st.labels + 1) none st_f st2 final_next
            (by omega) (by omega) (fun b hb => nomatch hb) h3
        refine ⟨by omega,
          [Instr.Target next_case, Instr.SwitchLabel (st.labels + 1) st.labels] ++
            (M ++ ([Instr.Target st.labels] ++ (B ++ R))), ?_, Or.inr ?_⟩
        · rw [hRins, hBins', hMins']
          simp [List.append_assoc]
        · rcases hRalt with ⟨hst, hfn, hR0⟩ | hcsR
          · exact CasesStep.glue_body hex hnc (by omega) (by omega) (by omega)
              (by omega) (by omega) (by omega) (by omega) (Or.inr ⟨rfl, Nat.le_refl _⟩)
              hgM' hgB' (Or.inl ⟨hR0, hfn, by rw [hst]⟩)
          · exact CasesStep.glue_body hex hnc (by omega) (by omega) (by omega)
              (by omega) (by omega) (by omega) (by omega) (Or.inr ⟨rfl, Nat.le_refl _⟩)
              hgM' hgB' (Or.inr hcsR)

/-- The `Switch` arm of `assemble` (with a default group): the `Switch`
header referencing the first-case label, the scrutinee segment `S`, the
first-case `Target`, the `cases_loop` segment `C`, the final chain
`Target`, the `SwitchDefault` marker, the default segment `D` and the
exit `Target` form a `Good` segment with no outer-exit references. -/
theorem Good.switch_wrap
    {c0 hi_s hi_c hi_d r2 : Nat} {S C D : List (Instr Nat)} (ty : Nat)
    (hgS : Good (c0 + 3) hi_s none S)
    (hC : (C = [] ∧ r2 = c0 + 1 ∧ hi_c = hi_s) ∨
        CasesStep hi_s hi_c (c0 + 2) (c0 + 1) none r2 C)
    (hhic : hi_s ≤ hi_c)
    (hgD : Good hi_c hi_d (some (c0 + 2)) D) :
    Good c0 hi_d none
      ([.Switch ty c0] ++ (S ++ ([.Target c0] ++ (C ++ ([.Target r2] ++
        ([.SwitchDefault] ++ (D ++ [.Target (c0 + 2)]))))))) := by
  have hS1 := hgS.lo_le_hi
  have hD1 := hgD.lo_le_hi
  have hcnt : ∀ lab, countT ([.Switch ty c0] ++ (S ++ ([.Target c0] ++ (C ++ ([.Target r2] ++
        ([.SwitchDefault] ++ (D ++ [.Target (c0 + 2)]))))))) lab =
      countT S lab + ((if c0 = lab then 1 else 0) + (countT C lab +
        ((if r2 = lab then 1 else 0) + (countT D lab +
          (if c0 + 2 = lab then 1 else 0))))) := by
    intro lab
    have h1 : countT [Instr.Switch ty c0] lab = 0 := countT_plain (fun x hx => by cases hx) lab
    have h2 : countT [Instr.SwitchDefault] lab = 0 := countT_plain (fun x hx => by cases hx) lab
    rw [countT_append, countT_append, countT_append, countT_append, countT_append,
      countT_append, countT_append, countT_target, countT_target, countT_target, h1, h2]
    generalize (if c0 = lab then 1 else 0) = x1
    generalize (if r2 = lab then 1 else 0) = x2
    generalize (if c0 + 2 = lab then 1 else 0) = x3
    omega
  have hops : ∀ lab, lab ∈ opsOf ([.Switch ty c0] ++ (S ++ ([.Target c0] ++ (C ++
        ([.Target r2] ++ ([.SwitchDefault] ++ (D ++ [.Target (c0 + 2)]))))))) →
      lab = c0 ∨ lab ∈ opsOf S ∨ lab ∈ opsOf C ∨ lab ∈ opsOf D := by
    intro lab hmem
    rcases mem_opsOf_append.mp hmem with hx | hx
    · left
      simpa [opsOf, Instr.branchLabels] using hx
    · rcases mem_opsOf_append.mp hx with hy | hy
      · right; left; exact hy
      · rcases mem_opsOf_append.mp hy with hz | hz
        · simp [opsOf, Instr.branchLabels] at hz
        · rcases mem_opsOf_append.mp hz with hw | hw
          · right; right; left; exact hw
          · rcases mem_opsOf_append.mp hw with hv | hv
            · simp [opsOf, Instr.branchLabels] at hv
            · rcases mem_opsOf_append.mp hv with hu | hu
              · simp [opsOf, Instr.branchLabels] at hu
              · rcases mem_opsOf_append.mp hu with ht | ht
                · right; right; right; exact ht
                · simp [opsOf, Instr.branchLabels] at ht
  have hosb : ∀ lab, lab ≠ c0 → only_switch_body S lab = true →
      only_switch_body C lab = true → only_switch_body D lab = true →
      only_switch_body ([.Switch ty c0] ++ (S ++ ([.Target c0] ++ (C ++ ([.Target r2] ++
        ([.SwitchDefault] ++ (D ++ [.Target (c0 + 2)]))))))) lab = true := by
    intro lab h1 h2 h3 h4
    have s1 : only_switch_body [Instr.Switch ty c0] lab = true := by
      simp [only_switch_body, Instr.branchLabels] <;> omega
    have s2 : only_switch_body [Instr.SwitchDefault] lab = true := by
      simp [only_switch_body, Instr.branchLabels]
    rw [osb_append, osb_append, osb_append, osb_append, osb_append, osb_append,
      osb_append, s1, s2, osb_target, osb_target, osb_target, h2, h3, h4]
    rfl
  have hCu : ∀ lab, countT C lab ≤ 1 := by
    rcases hC with ⟨hCnil, h2, h3⟩ | hcs
    · intro lab
      rw [hCnil, countT_nil]
      omega
    · exact hcs.target_uniq
  have hCr : ∀ lab, 0 < countT C lab → lab = c0 + 1 ∨ (hi_s ≤ lab ∧ lab < hi_c) := by
    rcases hC with ⟨hCnil, h2, h3⟩ | hcs
    · intro lab h0
      rw [hCnil, countT_nil] at h0
      omega
    · intro lab h0
      rcases hcs.target_range lab h0 with h | h | h
      · exact Or.inl h
      · cases h
      · exact Or.inr h
  have hCz : ∀ lab, lab ≠ c0 + 1 → (lab < hi_s ∨ hi_c ≤ lab) → countT C lab = 0 := by
    intro lab h1 h2
    by_contra h0
    rcases hCr lab (Nat.pos_of_ne_zero h0) with h | h <;> omega
  have hr2lt : r2 < hi_c ∧ (r2 = c0 + 1 ∨ hi_s ≤ r2) := by
    rcases hC with ⟨hCnil, h2, h3⟩ | hcs
    · exact ⟨by omega, Or.inl h2⟩
    · obtain ⟨a, b⟩ := hcs.final_range
      exact ⟨b, Or.inr a⟩
  obtain ⟨hr2a, hr2b⟩ := hr2lt
  have hfc : countT C r2 = 0 := by
    rcases hC with ⟨hCnil, h2, h3⟩ | hcs
    · rw [hCnil, countT_nil]
    · exact hcs.final_count
  have hCops : ∀ lab, lab ∈ opsOf C → lab = c0 + 2 ∨ countT C lab = 1 ∨ lab = r2 ∨
      (countT C lab = 0 ∧ only_switch_body C lab = true ∧ hi_s ≤ lab ∧ lab < hi_c) := by
    rcases hC with ⟨hCnil, h2, h3⟩ | hcs
    · intro lab h
      rw [hCnil, opsOf_nil] at h
      cases h
    · intro lab h
      rcases hcs.ops_ok lab h with h1 | h1 | h1 | ⟨h1, h2, h3⟩
      · exact Or.inl h1
      · exact Or.inr (Or.inl h1)
      · exact Or.inr (Or.inr (Or.inl h1))
      · rcases h3 with hq | hq
        · cases hq
        · exact Or.inr (Or.inr (Or.inr ⟨h1, h2, hq.1, hq.2⟩))
  have hCnot_hi : ∀ lab, hi_c ≤ lab → lab ∉ opsOf C := by
    intro lab hge hmem
    rcases hCops lab hmem with h | h | h | ⟨h1, h2, h3, h4⟩
    · omega
    · rcases hCr lab (by omega) with h' | h' <;> omega
    · omega
    · omega
  have hCnot_low : ∀ lab, c0 + 2 < lab → lab < hi_s → lab ∉ opsOf C := by
    intro lab hgt hlt hmem
    rcases hCops lab hmem with h | h | h | ⟨h1, h2, h3, h4⟩
    · omega
    · rcases hCr lab (by omega) with h' | h' <;> omega
    · rcases hr2b with hq | hq <;> omega
    · omega
  refine ⟨by omega, ?_, ?_, ?_⟩
  · intro lab h0
    rw [hcnt lab] at h0
    by_cases e1 : c0 = lab
    · omega
    · rw [if_neg e1] at h0
      by_cases e2 : r2 = lab
      · rcases hr2b with hq | hq <;> omega
      · rw [if_neg e2] at h0
        by_cases e3 : c0 + 2 = lab
        · omega
        · rw [if_neg e3] at h0
          have h0' : 0 < countT S lab ∨ 0 < countT C lab ∨ 0 < countT D lab := by omega
          rcases h0' with hp | hp | hp
          · have := hgS.target_range lab hp
            omega
          · rcases hCr lab hp with h | h <;> omega
          · have := hgD.target_range lab hp
            omega
  · intro lab
    rw [hcnt lab]
    by_cases e1 : c0 = lab
    · have z1 : countT S lab = 0 := hgS.countT_zero (Or.inl (by omega))
      have z2 : countT C lab = 0 := hCz lab (by omega) (Or.inl (by omega))
      have z3 : countT D lab = 0 := hgD.countT_zero (Or.inl (by omega))
      rw [if_pos e1, if_neg (by rcases hr2b with hq | hq <;> omega), if_neg (by omega)]
      omega
    · rw [if_neg e1]
      by_cases e2 : r2 = lab
      · have z1 : countT S lab = 0 := by
          rcases hr2b with h | h
          · exact hgS.countT_zero (Or.inl (by omega))
          · exact hgS.countT_zero (Or.inr (by omega))
        have z2 : countT C lab = 0 := by rw [← e2]; exact hfc
        have z3 : countT D lab = 0 := hgD.countT_zero (Or.inl (by omega))
        rw [if_pos e2, if_neg (by rcases hr2b with hq | hq <;> omega)]
        omega
      · rw [if_neg e2]
        by_cases e3 : c0 + 2 = lab
        · have z1 : countT S lab = 0 := hgS.countT_zero (Or.inl (by omega))
          have z2 : countT C lab = 0 := hCz lab (by omega) (Or.inl (by omega))
          have z3 : countT D lab = 0 := hgD.countT_zero (Or.inl (by omega))
          rw [if_pos e3]
          omega
        · rw [if_neg e3]
          by_cases hs : countT S lab = 0
          · by_cases hcc : countT C lab = 0
            · have := hgD.target_uniq lab
              omega
            · rcases hCr lab (by omega) with h | h
              · have z3 : countT D lab = 0 := hgD.countT_zero (Or.inl (by omega))
                have := hCu lab
                omega
              · have z3 : countT D lab = 0 := hgD.countT_zero (Or.inl (by omega))
                have := hCu lab
                omega
          · have hrS := hgS.target_range lab (by omega)
            have z2 : countT C lab = 0 := hCz lab (by omega) (Or.inl (by omega))
            have z3 : countT D lab = 0 := hgD.countT_zero (Or.inl (by omega))
            have := hgS.target_uniq lab
            omega
  · intro lab hmem
    rcases hops lab hmem with h | h | h | h
    · rw [h]
      right; left
      have z1 : countT S c0 = 0 := hgS.countT_zero (Or.inl (by omega))
      have z2 : countT C c0 = 0 := hCz c0 (by omega) (Or.inl (by omega))
      have z3 : countT D c0 = 0 := hgD.countT_zero (Or.inl (by omega))
      rw [hcnt c0, if_pos rfl, if_neg (by rcases hr2b with hq | hq <;> omega),
        if_neg (by omega)]
      omega
    · rcases hgS.ops_ok lab h with h1 | h1 | ⟨h1, h2, h3, h4⟩
      · cases h1
      · have hr := hgS.target_range lab (by omega)
        have z2 : countT C lab = 0 := hCz lab (by omega) (Or.inl (by omega))
        have z3 : countT D lab = 0 := hgD.countT_zero (Or.inl (by omega))
        right; left
        rw [hcnt lab, if_neg (by omega), if_neg (by rcases hr2b with hq | hq <;> omega),
          if_neg (by omega)]
        omega
      · right; right
        have z2 : countT C lab = 0 := hCz lab (by omega) (Or.inl (by omega))
        have z3 : countT D lab = 0 := hgD.countT_zero (Or.inl (by omega))
        refine ⟨?_, by omega, by omega, ?_⟩
        · rw [hcnt lab, if_neg (by omega), if_neg (by rcases hr2b with hq | hq <;> omega),
            if_neg (by omega)]
          omega
        · refine hosb lab (by omega) h4 (osb_of_not_mem (hCnot_low lab (by omega) (by omega)))
            (osb_of_not_mem (hgD.notMem_some (by omega) (Or.inl (by omega))))
    · rcases hCops lab h with h1 | h1 | h1 | ⟨h1, h2, h3, h4⟩
      · rw [h1]
        right; left
        have z1 : countT S (c0 + 2) = 0 := hgS.countT_zero (Or.inl (by omega))
        have z2 : countT C (c0 + 2) = 0 := hCz (c0 + 2) (by omega) (Or.inl (by omega))
        have z3 : countT D (c0 + 2) = 0 := hgD.countT_zero (Or.inl (by omega))
        rw [hcnt (c0 + 2), if_neg (by omega), if_neg (by rcases hr2b with hq | hq <;> omega),
          if_pos rfl]
        omega
      · right; left
        by_cases hr : r2 = lab
        · rw [hr] at hfc
          omega
        · rcases hCr lab (by omega) with hq | hq
          · have z1 : countT S lab = 0 := hgS.countT_zero (Or.inl (by omega))
            have z3 : countT D lab = 0 := hgD.countT_zero (Or.inl (by omega))
            rw [hcnt lab, if_neg (by omega), if_neg hr, if_neg (by omega)]
            omega
          · have z1 : countT S lab = 0 := hgS.countT_zero (Or.inr (by omega))
            have z3 : countT D lab = 0 := hgD.countT_zero (Or.inl (by omega))
            rw [hcnt lab, if_neg (by omega), if_neg hr, if_neg (by omega)]
            omega
      · rw [h1]
        right; left
        have z1 : countT S r2 = 0 := by
          rcases hr2b with hq | hq
          · exact hgS.countT_zero (Or.inl (by omega))
          · exact hgS.countT_zero (Or.inr (by omega))
        have z3 : countT D r2 = 0 := hgD.countT_zero (Or.inl (by omega))
        rw [hcnt r2, if_neg (by rcases hr2b with hq | hq <;> omega), if_pos rfl,
          if_neg (by rcases hr2b with hq | hq <;> omega)]
        omega
      · by_cases hr : r2 = lab
        · right; left
          have z1 : countT S lab = 0 := hgS.countT_zero (Or.inr (by omega))
          have z3 : countT D lab = 0 := hgD.countT_zero (Or.inl (by omega))
          rw [hcnt lab, if_neg (by omega), if_pos hr, if_neg (by omega)]
          omega
        · right; right
          have z1 : countT S lab = 0 := hgS.countT_zero (Or.inr (by omega))
          have z3 : countT D lab = 0 := hgD.countT_zero (Or.inl (by omega))
          refine ⟨?_, by omega, by omega, ?_⟩
          · rw [hcnt lab, if_neg (by omega), if_neg hr, if_neg (by omega)]
            omega
          · exact hosb lab (by omega) (osb_of_not_mem (hgS.notMem_none (Or.inr (by omega))))
              h2 (osb_of_not_mem (hgD.notMem_some (by omega) (Or.inl (by omega))))
    · rcases hgD.ops_ok lab h with h1 | h1 | ⟨h1, h2, h3, h4⟩
      · have hl := (Option.some.inj h1).symm
        rw [hl]
        right; left
        have z1 : countT S (c0 + 2) = 0 := hgS.countT_zero (Or.inl (by omega))
        have z2 : countT C (c0 + 2) = 0 := hCz (c0 + 2) (by omega) (Or.inl (by omega))
        have z3 : countT D (c0 + 2) = 0 := hgD.countT_zero (Or.inl (by omega))
        rw [hcnt (c0 + 2), if_neg (by omega), if_neg (by rcases hr2b with hq | hq <;> omega),
          if_pos rfl]
        omega
      · have hr := hgD.target_range lab (by omega)
        have z1 : countT S lab = 0 := hgS.countT_zero (Or.inr (by omega))
        have z2 : countT C lab = 0 := hCz lab (by omega) (Or.inr (by omega))
        right; left
        rw [hcnt lab, if_neg (by omega), if_neg (by omega), if_neg (by omega)]
        omega
      · right; right
        have z1 : countT S lab = 0 := hgS.countT_zero (Or.inr (by omega))
        have z2 : countT C lab = 0 := hCz lab (by omega) (Or.inr (by omega))
        refine ⟨?_, by omega, by omega, ?_⟩
        · rw [hcnt lab, if_neg (by omega), if_neg (by omega), if_neg (by omega)]
          omega
        · exact hosb lab (by omega) (osb_of_not_mem (hgS.notMem_none (Or.inr (by omega))))
            (osb_of_not_mem (hCnot_hi lab (by omega))) h4

/-- The `Switch` arm of `assemble` with no default group: same shape
without the `SwitchDefault` marker and the default segment. -/
theorem Good.switch_wrap_nodef
    {c0 hi_s hi_c r2 : Nat} {S C : List (Instr Nat)} (ty : Nat)
    (hgS : Good (c0 + 3) hi_s none S)
    (hC : (C = [] ∧ r2 = c0 + 1 ∧ hi_c = hi_s) ∨
        CasesStep hi_s hi_c (c0 + 2) (c0 + 1) none r2 C)
    (hhic : hi_s ≤ hi_c) :
    Good c0 hi_c none
      ([.Switch ty c0] ++ (S ++ ([.Target c0] ++ (C ++ ([.Target r2] ++
        [.Target (c0 + 2)]))))) := by
  have hS1 := hgS.lo_le_hi
  have hcnt : ∀ lab, countT ([.Switch ty c0] ++ (S ++ ([.Target c0] ++ (C ++ ([.Target r2] ++
        [.Target (c0 + 2)]))))) lab =
      countT S lab + ((if c0 = lab then 1 else 0) + (countT C lab +
        ((if r2 = lab then 1 else 0) + (if c0 + 2 = lab then 1 else 0)))) := by
    intro lab
    have h1 : countT [Instr.Switch ty c0] lab = 0 := countT_plain (fun x hx => by cases hx) lab
    rw [countT_append, countT_append, countT_append, countT_append, countT_append,
      countT_target, countT_target, countT_target, h1]
    generalize (if c0 = lab then 1 else 0) = x1
    generalize (if r2 = lab then 1 else 0) = x2
    generalize (if c0 + 2 = lab then 1 else 0) = x3
    omega
  have hops : ∀ lab, lab ∈ opsOf ([.Switch ty c0] ++ (S ++ ([.Target c0] ++ (C ++
        ([.Target r2] ++ [.Target (c0 + 2)]))))) →
      lab = c0 ∨ lab ∈ opsOf S ∨ lab ∈ opsOf C := by
    intro lab hmem
    rcases mem_opsOf_append.mp hmem with hx | hx
    · left
      simpa [opsOf, Instr.branchLabels] using hx
    · rcases mem_opsOf_append.mp hx with hy | hy
      · right; left; exact hy
      · rcases mem_opsOf_append.mp hy with hz | hz
        · simp [opsOf, Instr.branchLabels] at hz
        · rcases mem_opsOf_append.mp hz with hw | hw
          · right; right; exact hw
          · rcases mem_opsOf_append.mp hw with hv | hv
            · simp [opsOf, Instr.branchLabels] at hv
            · simp [opsOf, Instr.branchLabels] at hv
  have hosb : ∀ lab, lab ≠ c0 → only_switch_body S lab = true →
      only_switch_body C lab = true →
      only_switch_body ([.Switch ty c0] ++ (S ++ ([.Target c0] ++ (C ++ ([.Target r2] ++
        [.Target (c0 + 2)]))))) lab = true := by
    intro lab h1 h2 h3
    have s1 : only_switch_body [Instr.Switch ty c0] lab = true := by
      simp [only_switch_body, Instr.branchLabels] <;> omega
    rw [osb_append, osb_append, osb_append, osb_append, osb_append,
      s1, osb_target, osb_target, osb_target, h2, h3]
    rfl
  have hCu : ∀ lab, countT C lab ≤ 1 := by
    rcases hC with ⟨hCnil, h2, h3⟩ | hcs
    · intro lab
      rw [hCnil, countT_nil]
      omega
    · exact hcs.target_uniq
  have hCr : ∀ lab, 0 < countT C lab → lab = c0 + 1 ∨ (hi_s ≤ lab ∧ lab < hi_c) := by
    rcases hC with ⟨hCnil, h2, h3⟩ | hcs
    · intro lab h0
      rw [hCnil, countT_nil] at h0
      omega
    · intro lab h0
      rcases hcs.target_range lab h0 with h | h | h
      · exact Or.inl h
      · cases h
      · exact Or.inr h
  have hCz : ∀ lab, lab ≠ c0 + 1 → (lab < hi_s ∨ hi_c ≤ lab) → countT C lab = 0 := by
    intro lab h1 h2
    by_contra h0
    rcases hCr lab (Nat.pos_of_ne_zero h0) with h | h <;> omega
  have hr2lt : r2 < hi_c ∧ (r2 = c0 + 1 ∨ hi_s ≤ r2) := by
    rcases hC with ⟨hCnil, h2, h3⟩ | hcs
    · exact ⟨by omega, Or.inl h2⟩
    · obtain ⟨a, b⟩ := hcs.final_range
      exact ⟨b, Or.inr a⟩
  obtain ⟨hr2a, hr2b⟩ := hr2lt
  have hfc : countT C r2 = 0 := by
    rcases hC with ⟨hCnil, h2, h3⟩ | hcs
    · rw [hCnil, countT_nil]
    · exact hcs.final_count
  have hCops : ∀ lab, lab ∈ opsOf C → lab = c0 + 2 ∨ countT C lab = 1 ∨ lab = r2 ∨
      (countT C lab = 0 ∧ only_switch_body C lab = true ∧ hi_s ≤ lab ∧ lab < hi_c) := by
    rcases hC with ⟨hCnil, h2, h3⟩ | hcs
    · intro lab h
      rw [hCnil, opsOf_nil] at h
      cases h
    · intro lab h
      rcases hcs.ops_ok lab h with h1 | h1 | h1 | ⟨h1, h2, h3⟩
      · exact Or.inl h1
      · exact Or.inr (Or.inl h1)
      · exact Or.inr (Or.inr (Or.inl h1))
      · rcases h3 with hq | hq
        · cases hq
        · exact Or.inr (Or.inr (Or.inr ⟨h1, h2, hq.1, hq.2⟩))
  have hCnot_low : ∀ lab, c0 + 2 < lab → lab < hi_s → lab ∉ opsOf C := by
    intro lab hgt hlt hmem
    rcases hCops lab hmem with h | h | h | ⟨h1, h2, h3, h4⟩
    · omega
    · rcases hCr lab (by omega) with h' | h' <;> omega
    · rcases hr2b with hq | hq <;> omega
    · omega
  refine ⟨by omega, ?_, ?_, ?_⟩
  · intro lab h0
    rw [hcnt lab] at h0
    by_cases e1 : c0 = lab
    · omega
    · rw [if_neg e1] at h0
      by_cases e2 : r2 = lab
      · rcases hr2b with hq | hq <;> omega
      · rw [if_neg e2] at h0
        by_cases e3 : c0 + 2 = lab
        · omega
        · rw [if_neg e3] at h0
          have h0' : 0 < countT S lab ∨ 0 < countT C lab := by omega
          rcases h0' with hp | hp
          · have := hgS.target_range lab hp
            omega
          · rcases hCr lab hp with h | h <;> omega
  · intro lab
    rw [hcnt lab]
    by_cases e1 : c0 = lab
    · have z1 : countT S lab = 0 := hgS.countT_zero (Or.inl (by omega))
      have z2 : countT C lab = 0 := hCz lab (by omega) (Or.inl (by omega))
      rw [if_pos e1, if_neg (by rcases hr2b with hq | hq <;> omega), if_neg (by omega)]
      omega
    · rw [if_neg e1]
      by_cases e2 : r2 = lab
      · have z1 : countT S lab = 0 := by
          rcases hr2b with h | h
          · exact hgS.countT_zero (Or.inl (by omega))
          · exact hgS.countT_zero (Or.inr (by omega))
        have z2 : countT C lab = 0 := by rw [← e2]; exact hfc
        rw [if_pos e2, if_neg (by rcases hr2b with hq | hq <;> omega)]
        omega
      · rw [if_neg e2]
        by_cases e3 : c0 + 2 = lab
        · have z1 : countT S lab = 0 := hgS.countT_zero (Or.inl (by omega))
          have z2 : countT C lab = 0 := hCz lab (by omega) (Or.inl (by omega))
          rw [if_pos e3]
          omega
        · rw [if_neg e3]
          by_cases hs : countT S lab = 0
          · have := hCu lab
            omega
          · have hrS := hgS.target_range lab (by omega)
            have z2 : countT C lab = 0 := hCz lab (by omega) (Or.inl (by omega))
            have := hgS.target_uniq lab
            omega
  · intro lab hmem
    rcases hops lab hmem with h | h | h
    · rw [h]
      right; left
      have z1 : countT S c0 = 0 := hgS.countT_zero (Or.inl (by omega))
      have z2 : countT C c0 = 0 := hCz c0 (by omega) (Or.inl (by omega))
      rw [hcnt c0, if_pos rfl, if_neg (by rcases hr2b with hq | hq <;> omega),
        if_neg (by omega)]
      omega
    · rcases hgS.ops_ok lab h with h1 | h1 | ⟨h1, h2, h3, h4⟩
      · cases h1
      · have hr := hgS.target_range lab (by omega)
        have z2 : countT C lab = 0 := hCz lab (by omega) (Or.inl (by omega))
        right; left
        rw [hcnt lab, if_neg (by omega), if_neg (by rcases hr2b with hq | hq <;> omega),
          if_neg (by omega)]
        omega
      · right; right
        have z2 : countT C lab = 0 := hCz lab (by omega) (Or.inl (by omega))
        refine ⟨?_, by omega, by omega, ?_⟩
        · rw [hcnt lab, if_neg (by omega), if_neg (by rcases hr2b with hq | hq <;> omega),
            if_neg (by omega)]
          omega
        · exact hosb lab (by omega) h4 (osb_of_not_mem (hCnot_low lab (by omega) (by omega)))
    · rcases hCops lab h with h1 | h1 | h1 | ⟨h1, h2, h3, h4⟩
      · rw [h1]
        right; left
        have z1 : countT S (c0 + 2) = 0 := hgS.countT_zero (Or.inl (by omega))
        have z2 : countT C (c0 + 2) = 0 := hCz (c0 + 2) (by omega) (Or.inl (by omega))
        rw [hcnt (c0 + 2), if_neg (by omega), if_neg (by rcases hr2b with hq | hq <;> omega),
          if_pos rfl]
        omega
      · right; left
        by_cases hr : r2 = lab
        · rw [hr] at hfc
          omega
        · rcases hCr lab (by omega) with hq | hq
          · have z1 : countT S lab = 0 := hgS.countT_zero (Or.inl (by omega))
            rw [hcnt lab, if_neg (by omega), if_neg hr, if_neg (by omega)]
            omega
          · have z1 : countT S lab = 0 := hgS.countT_zero (Or.inr (by omega))
            rw [hcnt lab, if_neg (by omega), if_neg hr, if_neg (by omega)]
            omega
      · rw [h1]
        right; left
        have z1 : countT S r2 = 0 := by
          rcases hr2b with hq | hq
          · exact hgS.countT_zero (Or.inl (by omega))
          · exact hgS.countT_zero (Or.inr (by omega))
        rw [hcnt r2, if_neg (by rcases hr2b with hq | hq <;> omega), if_pos rfl,
          if_neg (by rcases hr2b with hq | hq <;> omega)]
        omega
      · by_cases hr : r2 = lab
        · right; left
          have z1 : countT S lab = 0 := hgS.countT_zero (Or.inr (by omega))
          rw [hcnt lab, if_neg (by omega), if_pos hr, if_neg (by omega)]
          omega
        · right; right
          have z1 : countT S lab = 0 := hgS.countT_zero (Or.inr (by omega))
          refine ⟨?_, by omega, by omega, ?_⟩
          · rw [hcnt lab, if_neg (by omega), if_neg hr, if_neg (by omega)]
            omega
          · exact hosb lab (by omega) (osb_of_not_mem (hgS.notMem_none (Or.inr (by omega)))) h2

/-- A `Jump` to the active exit label is a valid step: the label is
resolved by the surrounding construct. -/
theorem AsmStep.of_jump_exit {st : Asm} {l : Nat} :
    AsmStep (some l) st (st.emit (.Jump l)) := by
  have hz : ∀ lab, countT [Instr.Jump l] lab = 0 := countT_plain (fun x hx => by cases hx)
  refine ⟨Nat.le_refl _, [.Jump l], rfl, Nat.le_refl _, ?_, ?_, ?_⟩
  · intro lab h0
    rw [hz lab] at h0
    omega
  · intro lab
    rw [hz lab]
    omega
  · intro lab hmem
    rw [opsOf_single] at hmem
    left
    have : lab = l := by simpa [Instr.branchLabels] using hmem
    rw [this]

theorem stmt_assemble_succ (n : Nat) (ihA : StmtAssemble n) (ihS : StmtSeq n)
    (ihL : StmtList n) (ihC : StmtCall n) (ihI : StmtIntrinsic n)
    (ihCS : StmtCases n) : StmtAssemble (n + 1) := by
  intro env expr exit st st' hexit h
  cases expr with
  | Ident r span =>
    simp only [assemble] at h
    repeat' split at h
    all_goals cases h
    all_goals exact AsmStep.of_emit (fun x hx => by cases hx) (by rfl) exit
  | Constant c span =>
    simp only [assemble] at h
    repeat' split at h
    all_goals cases h
    all_goals exact AsmStep.of_emit (fun x hx => by cases hx) (by rfl) exit
  | Cast target inner span =>
    simp only [assemble] at h
    split at h
    · have A := ihA env inner none _ st' (fun x hx => nomatch hx) h
      exact AsmStep.trans hexit (AsmStep.of_emit (fun x hx => by cases hx) (by rfl) exit)
        (A.relax exit)
    · split at h <;> cases h
  | Declare slot typ init span =>
    simp only [assemble] at h
    split at h
    · have A := ihA env _ none _ st' (fun x hx => nomatch hx) h
      refine AsmStep.trans hexit ?_ (A.relax exit)
      exact @AsmStep.of_plain st ((st.emit .Assign).emit (.Local slot)) [.Assign, .Local slot]
        rfl (by simp [emit_instructions, List.append_assoc]) (fun lab => rfl) rfl exit
    · split at h
      · cases h
      · split at h
        · cases h
        · rename_i stx heq
          cases h
          exact emit_initializer_step heq exit
  | Assign lhs rhs span =>
    simp only [assemble] at h
    obtain ⟨st1, h1, h2⟩ := exceptBind_ok.mp h
    have A1 := ihA env lhs none _ st1 (fun x hx => nomatch hx) h1
    have A2 := ihA env rhs none st1 st' (fun x hx => nomatch hx) h2
    exact AsmStep.trans hexit (AsmStep.of_emit (fun x hx => by cases hx) (by rfl) exit)
      (AsmStep.trans hexit (A1.relax exit) (A2.relax exit))
  | ArrayElem arr idx span =>
    simp only [assemble] at h
    split at h
    · cases h
    · split at h
      · split at h
        · cases h
        · obtain ⟨st1, h1, h2⟩ := exceptBind_ok.mp h
          have A1 := ihA env arr none _ st1 (fun x hx => nomatch hx) h1
          have A2 := ihA env idx none st1 st' (fun x hx => nomatch hx) h2
          exact AsmStep.trans hexit (AsmStep.of_emit (fun x hx => by cases hx) (by rfl) exit)
            (AsmStep.trans hexit (A1.relax exit) (A2.relax exit))
      · split at h
        · cases h
        · obtain ⟨st1, h1, h2⟩ := exceptBind_ok.mp h
          have A1 := ihA env arr none _ st1 (fun x hx => nomatch hx) h1
          have A2 := ihA env idx none st1 st' (fun x hx => nomatch hx) h2
          exact AsmStep.trans hexit (AsmStep.of_emit (fun x hx => by cases hx) (by rfl) exit)
            (AsmStep.trans hexit (A1.relax exit) (A2.relax exit))
      · split at h <;> cases h
  | New typ args span =>
    simp only [assemble] at h
    split at h
    · cases h
      exact AsmStep.of_emit (fun x hx => by cases hx) (by rfl) exit
    · have A := ihL env args _ st' h
      exact AsmStep.trans hexit (AsmStep.of_emit (fun x hx => by cases hx) (by rfl) exit)
        (A.relax exit)
    · split at h <;> cases h
  | Return val span =>
    cases val with
    | some v =>
      simp only [assemble] at h
      have A := ihA env v none _ st' (fun x hx => nomatch hx) h
      exact AsmStep.trans hexit (AsmStep.of_emit (fun x hx => by cases hx) (by rfl) exit)
        (A.relax exit)
    | none =>
      simp only [assemble] at h
      cases h
      exact @AsmStep.of_plain st ((st.emit .Return).emit .Nop) [.Return, .Nop]
        rfl (by simp [emit_instructions, List.append_assoc]) (fun lab => rfl) rfl exit
  | Seq exprs =>
    simp only [assemble] at h
    exact ihS env exprs exit st st' hexit h
  | Switch scrutinee cases0 default span =>
    simp only [assemble, Asm.newLabel, Asm.emitLabel, emit_labels] at h
    split at h
    · cases h
    · split at h
      · cases h
      · rename_i ty_idx heq2
        obtain ⟨st1, h1, h2⟩ := exceptBind_ok.mp h
        obtain ⟨r, hCL, h3⟩ := exceptBind_ok.mp h2
        obtain ⟨stc, r2⟩ := r
        obtain ⟨hleS, S, hSins, hgS⟩ :=
          ihA env scrutinee none _ st1 (fun x hx => nomatch hx) h1
        have hleS' : st.labels + 3 ≤ st1.labels := hleS
        have hgS' : Good (st.labels + 3) st1.labels none S := hgS
        obtain ⟨hleC, C, hCins, hCalt⟩ :=
          ihCS env (st.labels + 2) cases0 (st.labels + 1) none _
            stc r2 (by show st.labels + 2 < st1.labels; omega)
            (by show st.labels + 1 < st1.labels; omega) (fun b hb => nomatch hb) hCL
        have hleC' : st1.labels ≤ stc.labels := hleC
        have hCins' : stc.instructions = st1.instructions ++ ([Instr.Target st.labels] ++ C) := by
          rw [hCins]
          simp [Asm.emitLabel, emit_instructions, List.append_assoc]
        clear hCins
        have hCalt' : (C = [] ∧ r2 = st.labels + 1 ∧ stc.labels = st1.labels) ∨
            CasesStep st1.labels stc.labels (st.labels + 2) (st.labels + 1) none r2 C := by
          rcases hCalt with ⟨hst, hfn, hC0⟩ | hcs
          · exact Or.inl ⟨hC0, hfn, by rw [hst]; rfl⟩
          · exact Or.inr hcs
        cases default with
        | none =>
          cases h3
          have hgood := Good.switch_wrap_nodef ty_idx hgS' hCalt' (by omega)
          refine ⟨by show st.labels ≤ stc.labels; omega, _, ?_, hgood.weaken exit⟩
          · simp only [Asm.emitLabel, emit_instructions]
            rw [hCins', hSins]
            simp [Asm.emitLabel, emit_instructions, List.append_assoc]
        | some body =>
          obtain ⟨std, h5, h6⟩ := exceptBind_ok.mp h3
          cases h6
          obtain ⟨hleD, D, hDins, hgD⟩ :=
            ihS env body (some (st.labels + 2)) _ std
              (fun x hx => by
                obtain rfl := Option.some.inj hx
                show st.labels + 2 < stc.labels
                omega)
              h5
          have hleD' : stc.labels ≤ std.labels := hleD
          have hgD' : Good stc.labels std.labels (some (st.labels + 2)) D := hgD
          have hDins' : std.instructions =
              stc.instructions ++ ([Instr.Target r2] ++ ([Instr.SwitchDefault] ++ D)) := by
            rw [hDins]
            simp [Asm.emitLabel, emit_instructions, List.append_assoc]
          have hgood := Good.switch_wrap ty_idx hgS' hCalt' (by omega) hgD'
          refine ⟨by show st.labels ≤ std.labels; omega, _, ?_, hgood.weaken exit⟩
          · simp only [Asm.emitLabel, emit_instructions]
            rw [hDins', hCins', hSins]
            simp [Asm.emitLabel, emit_instructions, List.append_assoc]
  | If cond thenSeq elseSeq span =>
    simp only [assemble, Asm.newLabel, Asm.emitLabel, emit_labels] at h
    obtain ⟨st1, h1, h2⟩ := exceptBind_ok.mp h
    obtain ⟨hleC, Cc, hCins, hgC⟩ := ihA env cond none _ st1 (fun x hx => nomatch hx) h1
    have hleC' : st.labels + 1 ≤ st1.labels := hleC
    have hgC' : Good (st.labels + 1) st1.labels none Cc := hgC
    have hCins2 : st1.instructions = st.instructions ++ ([Instr.JumpIfFalse st.labels] ++ Cc) := by
      rw [hCins]
      simp [emit_instructions, List.append_assoc]
    obtain ⟨st2, h3, h4⟩ := exceptBind_ok.mp h2
    obtain ⟨hleT, T, hTins, hgT⟩ :=
      ihS env thenSeq exit st1 st2
        (fun x hx => by have := hexit x hx; omega) h3
    have hgTC : Good (st.labels + 1) st2.labels exit (Cc ++ T) :=
      (hgC'.weaken exit).append hgT (fun x hx => by have := hexit x hx; omega)
    cases elseSeq with
    | none =>
      cases h4
      have hgood := @Good.wrap st.labels st2.labels exit (Cc ++ T) []
        hgTC (Instr.JumpIfFalse st.labels) rfl
        (fun x hx => by cases hx) (fun lab => rfl) rfl hexit
      refine ⟨by show st.labels ≤ st2.labels; omega, _, ?_, hgood⟩
      · simp only [Asm.emitLabel, emit_instructions]
        rw [hTins, hCins2]
        simp [List.append_assoc]
    | some elseCode =>
      obtain ⟨st3, h5, h6⟩ := exceptBind_ok.mp h4
      cases h6
      obtain ⟨hleE, E, hEins, hgE⟩ :=
        ihS env elseCode exit _ st3
          (fun x hx => by have := hexit x hx; show x < st2.labels + 1; omega) h5
      have hleE' : st2.labels + 1 ≤ st3.labels := hleE
      have hgE' : Good (st2.labels + 1) st3.labels exit E := hgE
      have hEins2 : st3.instructions = st2.instructions ++
          ([Instr.Jump st2.labels] ++ ([Instr.Target st.labels] ++ E)) := by
        rw [hEins]
        simp [emit_instructions, List.append_assoc]
      have hgood := Good.ifelse_wrap hgTC hgE' hexit
      refine ⟨by show st.labels ≤ st3.labels; omega, _, ?_, hgood⟩
      · simp only [Asm.emitLabel, emit_instructions]
        rw [hEins2, hTins, hCins2]
        simp [List.append_assoc]
  | Conditional cond thenE elseE span =>
    simp only [assemble, Asm.newLabel, Asm.emitLabel, emit_labels] at h
    obtain ⟨st1, h1, h2⟩ := exceptBind_ok.mp h
    obtain ⟨st2, h3, h4⟩ := exceptBind_ok.mp h2
    obtain ⟨st3, h5, h6⟩ := exceptBind_ok.mp h4
    cases h6
    obtain ⟨hleC, C1, hC1ins, hgC1⟩ := ihA env cond none _ st1 (fun x hx => nomatch hx) h1
    have hleC' : st.labels + 2 ≤ st1.labels := hleC
    have hgC1' : Good (st.labels + 2) st1.labels none C1 := hgC1
    have hC1ins' : st1.instructions = st.instructions ++
        ([Instr.Conditional st.labels (st.labels + 1)] ++ C1) := by
      rw [hC1ins]
      simp [emit_instructions, List.append_assoc]
    obtain ⟨hleT, T2, hT2ins, hgT2⟩ := ihA env thenE none st1 st2 (fun x hx => nomatch hx) h3
    obtain ⟨hleE, E3, hE3ins, hgE3⟩ := ihA env elseE none _ st3 (fun x hx => nomatch hx) h5
    have hleE' : st2.labels ≤ st3.labels := hleE
    have hgE3' : Good st2.labels st3.labels none E3 := hgE3
    have hE3ins' : st3.instructions = st2.instructions ++
        ([Instr.Target st.labels] ++ E3) := by
      rw [hE3ins]
      simp [emit_instructions, List.append_assoc]
    have hgTC : Good (st.labels + 2) st2.labels none (C1 ++ T2) :=
      hgC1'.append hgT2 (fun x hx => nomatch hx)
    have hgood := Good.cond_wrap hgTC hgE3' exit
    refine ⟨by show st.labels ≤ st3.labels; omega, _, ?_, hgood⟩
    · simp only [Asm.emitLabel, emit_instructions]
      rw [hE3ins', hT2ins, hC1ins']
      simp [List.append_assoc]
  | While cond body span =>
    simp only [assemble, Asm.newLabel, Asm.emitLabel, emit_labels] at h
    obtain ⟨st1, h1, h2⟩ := exceptBind_ok.mp h
    obtain ⟨st2, h3, h4⟩ := exceptBind_ok.mp h2
    cases h4
    obtain ⟨hleC, C1, hC1ins, hgC1⟩ := ihA env cond none _ st1 (fun x hx => nomatch hx) h1
    have hleC' : st.labels + 2 ≤ st1.labels := hleC
    have hgC1' : Good (st.labels + 2) st1.labels none C1 := hgC1
    have hC1ins' : st1.instructions = st.instructions ++
        ([Instr.Target (st.labels + 1)] ++ ([Instr.JumpIfFalse st.labels] ++ C1)) := by
      rw [hC1ins]
      simp [emit_instructions, List.append_assoc]
    obtain ⟨hleB, B2, hB2ins, hgB2⟩ :=
      ihS env body (some st.labels) st1 st2
        (fun x hx => by obtain rfl := Option.some.inj hx; show st.labels < st1.labels; omega)
        h3
    have hgBC : Good (st.labels + 2) st2.labels (some st.labels) (C1 ++ B2) :=
      (hgC1'.weaken (some st.labels)).append hgB2
        (fun x hx => by obtain rfl := Option.some.inj hx; omega)
    have hgood := Good.loop_wrap hgBC exit
    refine ⟨by show st.labels ≤ st2.labels; omega, _, ?_, hgood⟩
    · simp only [Asm.emitLabel, emit_instructions]
      rw [hB2ins, hC1ins']
      simp [List.append_assoc]
  | Member receiver member span =>
    cases member with
    | ClassField field =>
      simp only [assemble, Asm.newLabel, Asm.emitLabel, emit_labels] at h
      obtain ⟨st1, h1, h2⟩ := exceptBind_ok.mp h
      cases h2
      obtain ⟨hleR, Rv, hRins, hgR⟩ := ihA env receiver none _ st1 (fun x hx => nomatch hx) h1
      have hleR' : st.labels + 1 ≤ st1.labels := hleR
      have hgR' : Good (st.labels + 1) st1.labels none Rv := hgR
      have hRins' : st1.instructions = st.instructions ++
          ([Instr.Context st.labels] ++ Rv) := by
        rw [hRins]
        simp [emit_instructions, List.append_assoc]
      have hgood := @Good.wrap st.labels st1.labels exit Rv [Instr.ObjectField field]
        (hgR'.weaken exit) (Instr.Context st.labels) rfl
        (fun x hx => by cases hx) (fun lab => rfl) rfl hexit
      refine ⟨by show st.labels ≤ st1.labels; omega, _, ?_, hgood⟩
      · simp only [Asm.emitLabel, emit_instructions]
        rw [hRins']
        simp [List.append_assoc]
    | StructField field =>
      simp only [assemble] at h
      have A := ihA env receiver none _ st' (fun x hx => nomatch hx) h
      exact AsmStep.trans hexit (AsmStep.of_emit (fun x hx => by cases hx) (by rfl) exit)
        (A.relax exit)
    | EnumMember e m =>
      simp only [assemble] at h
      cases h
      exact AsmStep.of_emit (fun x hx => by cases hx) (by rfl) exit
  | Call callable args span =>
    cases callable with
    | Function fn =>
      simp only [assemble] at h
      exact (ihC env fn args false span st st' h).relax exit
    | Intrinsic op typ =>
      simp only [assemble] at h
      exact (ihI env op args typ span st st' h).relax exit
  | MethodCall receiver fn_idx args span =>
    simp only [assemble, Asm.newLabel, Asm.emitLabel, emit_labels] at h
    split at h
    · exact (ihC env fn_idx args true _ st st' h).relax exit
    · exact (ihC env fn_idx args true _ st st' h).relax exit
    · obtain ⟨st1, h1, h2⟩ := exceptBind_ok.mp h
      obtain ⟨st2, h3, h4⟩ := exceptBind_ok.mp h2
      cases h4
      obtain ⟨hleR, Rv, hRins, hgR⟩ := ihA env _ none _ st1 (fun x hx => nomatch hx) h1
      have hleR' : st.labels + 1 ≤ st1.labels := hleR
      have hgR' : Good (st.labels + 1) st1.labels none Rv := hgR
      have hRins' : st1.instructions = st.instructions ++
          ([Instr.Context st.labels] ++ Rv) := by
        rw [hRins]
        simp [emit_instructions, List.append_assoc]
      obtain ⟨hleCa, Cv, hCvins, hgCv⟩ := ihC env fn_idx args _ _ st1 st2 h3
      have hgRC : Good (st.labels + 1) st2.labels none (Rv ++ Cv) :=
        hgR'.append hgCv (fun x hx => nomatch hx)
      have hgood := @Good.wrap st.labels st2.labels exit (Rv ++ Cv) []
        (hgRC.weaken exit) (Instr.Context st.labels) rfl
        (fun x hx => by cases hx) (fun lab => rfl) rfl hexit
      refine ⟨by show st.labels ≤ st2.labels; omega, _, ?_, hgood⟩
      · simp only [Asm.emitLabel, emit_instructions]
        rw [hCvins, hRins']
        simp [List.append_assoc]
  | Null span =>
    simp only [assemble] at h
    cases h
    exact AsmStep.of_emit (fun x hx => by cases hx) (by rfl) exit
  | This span =>
    simp only [assemble] at h
    cases h
    exact AsmStep.of_emit (fun x hx => by cases hx) (by rfl) exit
  | Super span =>
    simp only [assemble] at h
    cases h
    exact AsmStep.of_emit (fun x hx => by cases hx) (by rfl) exit
  | Break span =>
    simp only [assemble] at h
    split at h
    · cases h
      exact AsmStep.of_jump_exit
    · cases h
  | ArrayLit span =>
    simp only [assemble] at h
    cases h
  | InterpolatedString span =>
    simp only [assemble] at h
    cases h
  | ForIn span =>
    simp only [assemble] at h
    cases h
  | BinOp span =>
    simp only [assemble] at h
    cases h
  | UnOp span =>
    simp only [assemble] at h
    cases h
  | Goto span =>
    simp only [assemble] at h
    cases h

theorem bind_ok_left {α β : Type} (a : α) (f : α → Except Err β) :
    (Except.ok a >>= f) = f a := rfl

/-- All seven induction statements hold at every fuel. -/
theorem stmt_all (fuel : Nat) : StmtAll fuel := by
  induction fuel with
  | zero =>
    refine ⟨?_, ?_, ?_, ?_, ?_, ?_, ?_⟩
    · intro env e ex st st' hx h
      simp only [assemble] at h
      cases h
    · intro env seq ex st st' hx h
      simp only [assemble_seq] at h
      cases h
    · intro env args st st' h
      simp only [assemble_list] at h
      cases h
    · intro env f args fs sp st st' h
      simp only [assemble_call] at h
      cases h
    · intro env args flags st st' h
      simp only [assemble_call_args] at h
      cases h
    · intro env op args rt sp st st' h
      simp only [assemble_intrinsic] at h
      cases h
    · intro env el cs nc cb st st2 fn h1 h2 h3 h
      simp only [cases_loop] at h
      cases h
  | succ n ih =>
    obtain ⟨hA, hS, hL, hC, hCA, hI, hCS⟩ := ih
    exact ⟨stmt_assemble_succ n hA hS hL hC hI hCS,
      stmt_seq_succ n hA hS, stmt_list_succ n hA hL,
      stmt_call_succ n hCA, stmt_call_args_succ n hA hCA,
      stmt_intrinsic_succ n hL, stmt_cases_succ n hA hS hCS⟩

/-- The labeled stream produced by `from_body_asm` on the one-empty-case
switch body, computed by evaluation: the `SwitchLabel`'s body label `3`
never receives a `Target`. -/
def c1Asm : Asm :=
  { instructions := [.Switch 0 0, .Null, .Target 0, .Target 1, .SwitchLabel 4 3, .Null,
      .Target 4, .Target 2, .Nop],
    labels := 5 }

/-- C1 is false on the code as stated: assembling a switch whose single
case group has an empty body succeeds, and the group's `SwitchLabel` body
label `3` occurs as a branch operand but has no matching `Target` in the
stream (rather than exactly one). -/
theorem c1_counterexample :
    from_body_asm 10 trivialEnv emptyCaseSwitch = .ok c1Asm ∧
    (3 : Nat) ∈ opsOf c1Asm.instructions ∧ countT c1Asm.instructions 3 = 0 := by
  refine ⟨rfl, ?_, rfl⟩
  simp [c1Asm, opsOf, Instr.branchLabels]

/-- C1 (amended): for every typed function body that the emitter
assembles successfully, every label has at most one `Target`
pseudo-instruction in the labeled stream, and every label occurring as a
branch operand has exactly one matching `Target` unless it occurs only as
the body-label operand of `SwitchLabel` instructions (the deferred body
label of switch case groups whose remaining bodies are all empty), in
which case it has none. -/
theorem c1_amended_label_closure (fuel : Nat) (env : Env) (seq : List Expr) (asm : Asm)
    (h : from_body_asm fuel env seq = .ok asm) :
    (∀ lab, countT asm.instructions lab ≤ 1) ∧
    ∀ lab ∈ opsOf asm.instructions,
      countT asm.instructions lab = 1 ∨
        (countT asm.instructions lab = 0 ∧ only_switch_body asm.instructions lab = true) := by
  unfold from_body_asm at h
  obtain ⟨st0, hS, h2⟩ := exceptBind_ok.mp h
  cases h2
  obtain ⟨hle, code, hins, g⟩ :=
    (stmt_all fuel).2.1 env seq none { instructions := [], labels := 0 } st0
      (fun x hx => nomatch hx) hS
  have hins' : st0.instructions = code := by
    rw [hins]
    rfl
  have hasm : (st0.emit Instr.Nop).instructions = code ++ [Instr.Nop] := by
    rw [emit_instructions, hins']
  have hnop : ∀ lab, countT [Instr.Nop] lab = 0 := countT_plain (fun x hx => by cases hx)
  refine ⟨?_, ?_⟩
  · intro lab
    rw [hasm, countT_append, hnop lab]
    have := g.target_uniq lab
    omega
  · intro lab hmem
    rw [hasm] at hmem ⊢
    rw [mem_opsOf_append] at hmem
    rcases hmem with hm | hm
    · rcases g.ops_ok lab hm with h1 | h1 | ⟨h1, h2, h3, h4⟩
      · cases h1
      · left
        rw [countT_append, hnop lab]
        omega
      · right
        have hosbn : only_switch_body [Instr.Nop] lab = true := by
          simp [only_switch_body, Instr.branchLabels]
        constructor
        · rw [countT_append, hnop lab]
          omega
        · rw [osb_append, h4, hosbn]
          rfl
    · rw [opsOf_single] at hm
      cases hm

theorem c1_amended_label_closure_witness :
    ((3 : Nat) ∈ opsOf c1Asm.instructions) ∧
    (countT c1Asm.instructions 3 = 1 ∨
      (countT c1Asm.instructions 3 = 0 ∧ only_switch_body c1Asm.instructions 3 = true)) :=
  ⟨by simp [c1Asm, opsOf, Instr.branchLabels],
    (c1_amended_label_closure 10 trivialEnv emptyCaseSwitch c1Asm rfl).2 3
      (by simp [c1Asm, opsOf, Instr.branchLabels])⟩

/-- C5: `invoke_instr` chooses virtual dispatch (by name index) exactly
when the call is not forced static and the function is neither final nor
static nor native, and static dispatch (by function index) in every other
case; and every successful `assemble_call` run emits the chosen invoke
instruction first in its appended segment, with the computed
`invoke_flags` and the fresh exit label. -/
theorem c5_invoke_dispatch :
    (∀ (env : Env) (fidx : Nat) (fn : Fn) (force : Bool) (el line flags : Nat),
      invoke_instr env fidx fn force el line flags =
        (if force = false ∧ fn.flags.isFinal = false ∧ fn.flags.isStatic = false ∧
            fn.flags.isNative = false
         then (env.definitionName fidx).map fun name_idx =>
            Instr.InvokeVirtual el line name_idx flags
         else some (Instr.InvokeStatic el line fidx flags))) ∧
    (∀ (fuel : Nat) (env : Env) (fidx : Nat) (args : List Expr) (force : Bool) (sp : Span)
        (st st' : Asm) (fn : Fn),
      env.function fidx = some fn →
      assemble_call fuel env fidx args force sp st = .ok st' →
      ∃ flags inv rest,
        compute_invoke_flags env args = some flags ∧
        invoke_instr env fidx fn force st.labels ((env.lookupLine sp).getD 0) flags =
          some inv ∧
        st'.instructions = st.instructions ++ (inv :: rest)) := by
  constructor
  · intro env fidx fn force el line flags
    obtain ⟨⟨ff, fs, fv⟩, params⟩ := fn
    cases force <;> cases ff <;> cases fs <;> cases fv <;> simp [invoke_instr]
  · intro fuel env fidx args force sp st st' fn hfn h
    cases fuel with
    | zero =>
      simp only [assemble_call] at h
      cases h
    | succ n =>
      simp only [assemble_call, hfn, Asm.newLabel, emit_labels] at h
      cases hpf : params_lookup env fn.parameters with
      | none => simp [hpf] at h
      | some pf =>
        cases hfl : compute_invoke_flags env args with
        | none => simp [hpf, hfl] at h
        | some flags =>
          cases hinv : invoke_instr env fidx fn force st.labels
              ((env.lookupLine sp).getD 0) flags with
          | none => simp [hpf, hfl, hinv] at h
          | some inv =>
            simp only [hpf, hfl, hinv] at h
            obtain ⟨st1, hargs, h2⟩ := exceptBind_ok.mp h
            split at h2
            · cases h2
            · cases h2
              obtain ⟨hle1, A, hAins, hgA⟩ :=
                (stmt_all n).2.2.2.2.1 env args pf _ st1 hargs
              obtain ⟨hnl, N, hNins, hNcnt, hNops⟩ :=
                emit_nops_plain (pf.length - args.length) st1
              refine ⟨flags, inv, A ++ (N ++ [Instr.ParamEnd, Instr.Target st.labels]),
                rfl, hinv, ?_⟩
              show (((emit_nops st1 (pf.length - args.length)).emit
                Instr.ParamEnd).emitLabel st.labels).instructions = _
              rw [Asm.emitLabel, emit_instructions, emit_instructions, hNins, hAins]
              simp [emit_instructions, List.append_assoc]

theorem c5_invoke_dispatch_witness :
    ∃ flags inv rest,
      compute_invoke_flags callEnv ([] : List Expr) = some flags ∧
      invoke_instr callEnv 0 { flags := ⟨false, false, false⟩, parameters := [0, 1] } false
        ({ instructions := [], labels := 0 } : Asm).labels
        ((callEnv.lookupLine 0).getD 0) flags = some inv ∧
      ({ instructions := [.InvokeVirtual 0 0 9 0, .Nop, .Nop, .ParamEnd, .Target 0],
          labels := 1 } : Asm).instructions =
        ({ instructions := [], labels := 0 } : Asm).instructions ++ (inv :: rest) :=
  c5_invoke_dispatch.2 6 callEnv 0 [] false 0 { instructions := [], labels := 0 }
    { instructions := [.InvokeVirtual 0 0 9 0, .Nop, .Nop, .ParamEnd, .Target 0],
      labels := 1 }
    { flags := ⟨false, false, false⟩, parameters := [0, 1] } rfl rfl

/-- C6 is false on the code as stated: on a call with three arguments
against one declared parameter, when an argument fails to assemble
(`BinOp` is unsupported) `assemble_call` reports that argument's error,
not the invalid-signature error the claim promises for every
surplus-argument call. -/
theorem c6_counterexample :
    shortParamEnv.function 0 =
      some { flags := ⟨false, false, false⟩, parameters := [0] } ∧
    assemble_call 10 shortParamEnv 0 [.BinOp 0, .Null 0, .Null 0] false 0
      { instructions := [], labels := 0 } =
      .error (.Compile (.UnsupportedFeature ("BinOp")) 0) ∧
    (Err.Compile (.UnsupportedFeature ("BinOp")) 0) ≠ invalid_sig_err := by
  refine ⟨rfl, rfl, ?_⟩
  intro hC
  simp [invalid_sig_err] at hC

/-- C6 (amended): provided the zipped argument prefix assembles
successfully, a call with more arguments than declared parameters is
rejected with the invalid-signature error, and a call with at most as
many arguments as parameters succeeds, padding the missing tail
parameters with one `Nop` each, then `ParamEnd`, then the exit label's
`Target`. -/
theorem c6_amended_arity (n : Nat) (env : Env) (fidx : Nat) (args : List Expr)
    (force : Bool) (sp : Span) (st : Asm) (fn : Fn) (pf : List ParamFlags)
    (flags : Nat) (inv : Instr Nat) (st2 : Asm)
    (hfn : env.function fidx = some fn)
    (hpf : params_lookup env fn.parameters = some pf)
    (hfl : compute_invoke_flags env args = some flags)
    (hinv : invoke_instr env fidx fn force st.labels ((env.lookupLine sp).getD 0) flags =
      some inv)
    (hargs : assemble_call_args n env args pf ((st.newLabel).1.emit inv) = .ok st2) :
    (pf.length < args.length →
      assemble_call (n + 1) env fidx args force sp st = .error invalid_sig_err) ∧
    (args.length ≤ pf.length →
      assemble_call (n + 1) env fidx args force sp st =
        .ok (((emit_nops st2 (pf.length - args.length)).emit .ParamEnd).emitLabel
          st.labels)) := by
  simp only [Asm.newLabel] at hargs
  constructor
  · intro hlen
    simp only [assemble_call, hfn, hpf, hfl, Asm.newLabel, emit_labels, hinv]
    rw [hargs, bind_ok_left]
    rw [if_pos hlen]
    rfl
  · intro hlen
    simp only [assemble_call, hfn, hpf, hfl, Asm.newLabel, emit_labels, hinv]
    rw [hargs, bind_ok_left]
    rw [if_neg (by omega)]
    rfl

theorem c6_amended_arity_witness :
    assemble_call 6 callEnv 0 [.Null 0] false 0 { instructions := [], labels := 0 } =
      .ok { instructions := [.InvokeVirtual 0 0 9 1, .Null, .Nop, .ParamEnd, .Target 0],
            labels := 1 } :=
  (c6_amended_arity 5 callEnv 0 [.Null 0] false 0 { instructions := [], labels := 0 }
    { flags := ⟨false, false, false⟩, parameters := [0, 1] } [⟨false⟩, ⟨false⟩] 1
    (.InvokeVirtual 0 0 9 1) { instructions := [.InvokeVirtual 0 0 9 1, .Null], labels := 1 }
    rfl rfl rfl rfl rfl).2 (by decide)
end Redscript
